import Mathlib

/-! Control rod model of the CROCUS simulator (`include/ControlRod.h`).

A shallow embedding of the class `ControlRod`: the object's fields become a
record, every member function becomes a function on that record.

Arithmetic convention.  The source computes in `float`/`double`; here every
such quantity is an exact rational number, so the theorems describe the
arithmetic the source approximates (no rounding, no NaN, no infinities).
`size_t` quantities are natural numbers, `int rodIndex` is an integer.
Three properties depend on the rounding itself: the tick at which a scram
ends, the tick at which a speed-limited move lands on its target, and the
agreement of the two inverse lookups.  For these the functions concerned are
given a second time with every operation rounded as in the source
(`Binary32.refreshRod`, `Binary32.getPosFromPcm`, `Binary32.getPositionAtPcm`),
and the properties are stated on that reading.

Arrays.  `stepData` and `derivativeTable` are lists; a read outside the
allocated range is undefined behaviour in the source and is `none` here.
-/

namespace ControlRod

/-- The enum `ControlRod::OperationModes`. -/
inductive OperationModes where
  | Manual
  | Simulation
  | Automatic
  | Pulse
deriving DecidableEq, Repr

/-- The enum `ControlRod::CommandType`. -/
inductive CommandType where
  | None
  | Top
  | Bottom
  | Fixed
deriving DecidableEq, Repr

/-- The enum `SimulationModes` of `PeriodicalMode.h`, with the three cases
`getMode` switches over. -/
inductive SimulationModes where
  | SquareWaveMode
  | SineMode
  | SawToothMode
deriving DecidableEq, Repr

/-- What `refreshRod` reads from a `PeriodicalMode` object (declared in
`PeriodicalMode.h`): the result of `getPaused()` and of `getCurrentOffset()`
at the moment of the call. -/
structure PeriodicalMode where
  paused : Bool
  currentOffset : ℚ
deriving DecidableEq, Repr

/-- The three waveform objects a rod owns (`sqw`, `sinMode`, `saw`), as seen
by one call of `refreshRod`. -/
structure Waveforms where
  sqw : PeriodicalMode
  sinMode : PeriodicalMode
  saw : PeriodicalMode
deriving DecidableEq, Repr

/-- The data members of `class ControlRod` that the member functions below
read or write. -/
structure Rod where
  enabled : Bool
  rod_exact_position : ℚ
  rod_actual_position : ℚ
  rod_exact_command : ℚ
  rod_steps : ℕ
  rod_worth : ℚ
  rod_speed : ℚ
  fireing : Bool
  stepData : List ℚ
  derivativeTable : List ℚ
  scramTime : ℚ
  timeSinceScram : ℚ
  rodCommand : CommandType
  mode : OperationModes
  simulationMode : SimulationModes
  simulationStartPosition : ℚ
  fireTimer : ℚ
  hasData : Bool
  maxIndex : ℕ
deriving DecidableEq, Repr

/-- The member constant `fire_acc = 50.f`. -/
def fire_acc : ℚ := 50

/-! ## Curve construction: `recalculateStepData` -/

/-- The sixth-degree polynomial of the branch `rodIndex == 0 || rodIndex == 1`
(before the division by `rod_worth`). -/
def rodPolynomial (CR : ℚ) : ℚ :=
  -192.39 * CR ^ 6 + 1690.9 * CR ^ 5 - 3473.6 * CR ^ 4 + 2363.3 * CR ^ 3
    - 260.91 * CR ^ 2 + 37.974 * CR - 0.001

/-- The value assigned to the local `reactivity` in one iteration of the loop
of `recalculateStepData`, as a function of `rodIndex`, `rod_worth` and `CR`. -/
def reactivity (rodIndex : ℤ) (rod_worth CR : ℚ) : ℚ :=
  if rodIndex = 0 ∨ rodIndex = 1 then
    rodPolynomial CR / rod_worth
  else if rodIndex = 2 then
    if CR < 0.8 then
      (9.38232899520517 * CR * 1000 + (-8785.47016144056) + rod_worth) / rod_worth
    else
      ((-0.0149964531096730 * (CR * 1000) ^ 2 + 33.3916504237934 * CR * 1000
          + (-18395.1973141205)) + rod_worth) / rod_worth
  else 0

/-- Reading `table[i]`, with `0` for a cell that was never written. -/
def cell (table : List ℚ) (i : ℕ) : ℚ := table.getD i 0

/-- The body of the `for` loop of `recalculateStepData` for one index `i`. -/
def recalculateStep (rodIndex : ℤ) (i : ℕ) (r : Rod) : Rod :=
  let stepSize : ℚ := 1 / (r.rod_steps : ℚ)
  let CR : ℚ := (i : ℚ) * stepSize
  let stepData := r.stepData.set i (reactivity rodIndex r.rod_worth CR)
  let derivativeTable :=
    r.derivativeTable.set i ((cell stepData i - cell stepData (i - 1)) * 10)
  let maxIndex :=
    if cell derivativeTable i > cell derivativeTable r.maxIndex then i else r.maxIndex
  { r with stepData := stepData, derivativeTable := derivativeTable, maxIndex := maxIndex }

/-- The loop `for (size_t i = 1; i <= k; ++i)` of `recalculateStepData`: the
iterations `1, ..., k` in order. -/
def recalculateLoop (rodIndex : ℤ) : ℕ → Rod → Rod
  | 0, r => r
  | k + 1, r => recalculateStep rodIndex (k + 1) (recalculateLoop rodIndex k r)

/-- The member function `recalculateStepData(int rodIndex)`: both tables are
allocated afresh with `rod_steps + 1` cells, cell `0` of each is set to `0`,
and the loop fills the cells `1 .. rod_steps`. -/
def recalculateStepData (rodIndex : ℤ) (r : Rod) : Rod :=
  recalculateLoop rodIndex r.rod_steps
    { r with
      stepData := (List.replicate (r.rod_steps + 1) 0).set 0 0
      derivativeTable := (List.replicate (r.rod_steps + 1) 0).set 0 0
      hasData := true
      maxIndex := 0 }

/-! ## Position and reactivity: `getPCMat`, `getPosFromPcm` -/

/-- The member function `getPCMat(float position)`.  The two reads of
`stepData` are checked: the result is `none` when an index lies outside the
table. -/
def getPCMat (r : Rod) (position : ℚ) : Option ℚ :=
  let position := min position (r.rod_steps : ℚ)
  let position := max position 0
  let floorP : ℕ := Int.toNat ⌊position⌋
  let ceilP : ℕ := Int.toNat ⌈position⌉
  if floorP = ceilP then
    match r.stepData[floorP]? with
    | some s => some (s * r.rod_worth)
    | none => none
  else
    match r.stepData[floorP]?, r.stepData[ceilP]? with
    | some sf, some sc =>
      some ((sf * ((ceilP : ℚ) - position) + sc * (position - (floorP : ℚ))) * r.rod_worth)
    | _, _ => none

/-- The loop `while (stepData[i] < pcm) i++;` started at index `i`, the list
being the cells from index `i` on.  Running past the last cell is a read
outside the table: `none`. -/
def scanTable : List ℚ → ℚ → ℕ → Option ℕ
  | [], _, _ => none
  | s :: rest, pcm, i => if s < pcm then scanTable rest pcm (i + 1) else some i

/-- The member function `getPosFromPcm(float pcm)`.  Reads of `stepData` are
checked (`stepData[i - 1]` with `i == 0` is outside the table). -/
def getPosFromPcm (r : Rod) (pcm : ℚ) : Option ℚ :=
  let pcm := min pcm r.rod_worth
  let pcm := max 0 pcm
  let pcm := pcm / r.rod_worth
  match scanTable r.stepData pcm 0 with
  | none => none
  | some i =>
    match r.stepData[i]? with
    | none => none
    | some si =>
      if si = pcm then some (i : ℚ)
      else if i = 0 then none
      else
        match r.stepData[i - 1]? with
        | none => none
        | some sp =>
          let a := (si - pcm) / (si - sp)
          some (((i : ℚ) - 1) * a + (i : ℚ) * (1 - a))

/-! ## The command surface -/

/-- The member function `resetRod()`, applied to a rod whose configuration
fields are already set. -/
def resetRod (r : Rod) : Rod :=
  { r with
    fireTimer := 0
    simulationStartPosition := 0
    timeSinceScram := 0
    enabled := true
    rod_exact_position := 0
    rod_actual_position := 0
    rod_exact_command := 0
    fireing := false
    scramTime := -1 }

/-- The member function `commandMove(float destination)`. -/
def commandMove (r : Rod) (destination : ℚ) : Rod :=
  { r with rod_exact_command := destination, rodCommand := CommandType.Fixed }

/-- The member function `commandToTop()`. -/
def commandToTop (r : Rod) : Rod := { r with rodCommand := CommandType.Top }

/-- The member function `commandToBottom()`. -/
def commandToBottom (r : Rod) : Rod := { r with rodCommand := CommandType.Bottom }

/-- The member function `clearCommands(CommandType onlyIf)`. -/
def clearCommands (r : Rod) (onlyIf : CommandType) : Rod :=
  if onlyIf ≠ CommandType.None ∧ onlyIf ≠ r.rodCommand then r
  else { r with rod_exact_command := r.rod_exact_position, rodCommand := CommandType.None }

/-- The member function `moveRodToStep(float position, bool force)`. -/
def moveRodToStep (r : Rod) (position : ℚ) (force : Bool) : Rod :=
  let r1 := { r with rod_exact_position := max (min position (r.rod_steps : ℚ)) 0 }
  let r2 :=
    if r1.enabled = true ∧ r1.fireing = false then
      { r1 with rod_actual_position := r1.rod_exact_position }
    else r1
  if force = true then
    { r2 with rod_actual_position := position, rod_exact_position := position }
  else r2

/-- The member function `setEnabled(bool status, bool force)`: both branches
only assign `enabled`. -/
def setEnabled (r : Rod) (status : Bool) : Rod :=
  if status = true then { r with enabled := true } else { r with enabled := false }

/-- The member function `fire(bool status)`. -/
def fire (r : Rod) (status : Bool) : Rod :=
  if status = true then
    let r1 :=
      if r.mode = OperationModes.Pulse ∨ r.rod_exact_command = 0 then setEnabled r true
      else r
    if r1.mode = OperationModes.Pulse then { r1 with fireing := true, fireTimer := 0 }
    else r1
  else { r with fireing := false }

/-- The member function `scramRod()`. -/
def scramRod (r : Rod) : Rod :=
  if r.scramTime ≤ 0 then
    let r1 := clearCommands r CommandType.None
    { r1 with rod_exact_command := 0, rodCommand := CommandType.Fixed, scramTime := 0.5 }
  else r

/-- The member function `setRodSpeed(float value)`; the copy of the speed kept
inside the square-wave object is not part of the rod record. -/
def setRodSpeed (r : Rod) (value : ℚ) : Rod := { r with rod_speed := value }

/-- The member function `getMode(SimulationModes sim)`. -/
def getMode (w : Waveforms) : SimulationModes → PeriodicalMode
  | SimulationModes.SquareWaveMode => w.sqw
  | SimulationModes.SineMode => w.sinMode
  | SimulationModes.SawToothMode => w.saw

/-- The local `localCommand` of `refreshRod`: the commanded position with
`Bottom` and `Top` resolved. -/
def localCommand (r : Rod) : ℚ :=
  if r.rodCommand = CommandType.Bottom then 0
  else if r.rodCommand = CommandType.Top then (r.rod_steps : ℚ)
  else r.rod_exact_command

/-! ## The second inverse lookup: `getPositionAtPcm` -/

/-- The member function `getPositionAtPcm(float position_pcm)`.  Reads of
`stepData` are checked (`stepData[i - 1]` with `i == 0` is outside the table). -/
def getPositionAtPcm (r : Rod) (position_pcm : ℚ) : Option ℚ :=
  let position_pcm := position_pcm / r.rod_worth
  if position_pcm ≥ 1 then some (r.rod_steps : ℚ)
  else if position_pcm ≤ 0 then some 0
  else
    match scanTable r.stepData position_pcm 0 with
    | none => none
    | some i =>
      match r.stepData[i]? with
      | none => none
      | some si =>
        if si = position_pcm then some (i : ℚ)
        else if i = 0 then none
        else
          match r.stepData[i - 1]? with
          | none => none
          | some sp => some ((position_pcm - sp) / (si - sp) + (i : ℚ) - 1)

/-! ## The tick: `refreshRod` -/

/-- The member function `refreshRod(int rodIndex, double dt)`.  The waveform
objects are owned by the rod but declared in `PeriodicalMode.h`; what the
call reads from them is the argument `w`. -/
def refreshRod (r : Rod) (w : Waveforms) (rodIndex : ℤ) (dt : ℚ) : Rod :=
  if r.scramTime > 0 ∧ rodIndex ≠ 2 then
    let r1 := { r with timeSinceScram := min (r.timeSinceScram + dt) r.scramTime }
    let rod_move : ℚ := dt * r1.rod_speed
    let r2 := moveRodToStep r1 (max (r1.rod_exact_position - rod_move) 0) false
    if r2.rod_actual_position = 0 ∧ r2.enabled = true then
      { setEnabled r2 false with scramTime := -1 }
    else r2
  else
    let r1 :=
      match r.mode with
      | OperationModes.Manual => r
      | OperationModes.Pulse => r
      | OperationModes.Simulation =>
        let waveform := getMode w r.simulationMode
        if waveform.paused = false then
          moveRodToStep r (r.simulationStartPosition + waveform.currentOffset) false
        else r
      | OperationModes.Automatic => r
    let localCommand : ℚ := localCommand r1
    let r2 :=
      if r1.rod_exact_position ≠ localCommand ∧
          (r1.mode = OperationModes.Manual ∨ r1.mode = OperationModes.Automatic
            ∨ r1.mode = OperationModes.Pulse) then
        if r1.rod_speed = 0 ∧ r1.enabled = true then
          moveRodToStep r1 localCommand false
        else if r1.fireing = false then
          let rod_move : ℚ := dt * r1.rod_speed
          if localCommand > r1.rod_exact_position then
            moveRodToStep r1 (min (r1.rod_exact_position + rod_move) localCommand) false
          else
            moveRodToStep r1 (max (r1.rod_exact_position - rod_move) localCommand) false
        else r1
      else r1
    if r2.fireing = true then
      let r3 := { r2 with fireTimer := r2.fireTimer + dt }
      let rod_pos : ℚ := r3.fireTimer ^ 2 * fire_acc * 0.5 * (r3.rod_steps : ℚ)
      if rod_pos ≥ r3.rod_exact_position then
        clearCommands
          { r3 with rod_actual_position := r3.rod_exact_position, fireing := false }
          CommandType.None
      else { r3 with rod_actual_position := rod_pos }
    else r2

/-- The member function `setOperationMode(OperationModes value)`. -/
def setOperationMode (r : Rod) (value : OperationModes) : Rod :=
  if r.mode ≠ value then
    let r1 :=
      if r.mode = OperationModes.Simulation then
        moveRodToStep r r.simulationStartPosition false
      else r
    let r2 := clearCommands r1 CommandType.None
    let r3 :=
      if value = OperationModes.Simulation then
        { r2 with simulationStartPosition := r2.rod_exact_position }
      else r2
    let r4 := { r3 with mode := value }
    if value = OperationModes.Pulse then setEnabled r4 false
    else setRodSpeed r4 10
  else r

/-- The member function `setSimulationMode(SimulationModes value)`. -/
def setSimulationMode (r : Rod) (value : SimulationModes) : Rod :=
  if r.simulationMode ≠ value then
    let r1 :=
      if r.mode = OperationModes.Simulation then
        moveRodToStep r r.simulationStartPosition false
      else r
    { r1 with simulationMode := value }
  else r

/-- One call made on a rod from outside: a member function of the command
surface with its arguments, or a tick together with what the tick reads from
the waveform objects. -/
inductive Call where
  | commandMove (destination : ℚ)
  | commandToTop
  | commandToBottom
  | clearCommands
  | scramRod
  | fire (status : Bool)
  | setEnabled (status : Bool)
  | setRodSpeed (value : ℚ)
  | setOperationMode (value : OperationModes)
  | setSimulationMode (value : SimulationModes)
  | moveRodToStep (position : ℚ)
  | refreshRod (w : Waveforms) (dt : ℚ)

/-- The effect of one call on the rod with index `rodIndex`. -/
def Call.apply (rodIndex : ℤ) (r : Rod) : Call → Rod
  | Call.commandMove d => ControlRod.commandMove r d
  | Call.commandToTop => ControlRod.commandToTop r
  | Call.commandToBottom => ControlRod.commandToBottom r
  | Call.clearCommands => ControlRod.clearCommands r CommandType.None
  | Call.scramRod => ControlRod.scramRod r
  | Call.fire s => ControlRod.fire r s
  | Call.setEnabled s => ControlRod.setEnabled r s
  | Call.setRodSpeed v => ControlRod.setRodSpeed r v
  | Call.setOperationMode m => ControlRod.setOperationMode r m
  | Call.setSimulationMode m => ControlRod.setSimulationMode r m
  | Call.moveRodToStep p => ControlRod.moveRodToStep r p false
  | Call.refreshRod w dt => ControlRod.refreshRod r w rodIndex dt

/-- The rod after a sequence of calls, first call first. -/
def runCalls (rodIndex : ℤ) (r : Rod) (calls : List Call) : Rod :=
  calls.foldl (Call.apply rodIndex) r

/-- A rod as the constructor leaves it (the member initialisers followed by
`resetRod()`), with the step count, worth and speed the setters store. -/
def newRod (rod_steps : ℕ) (rod_worth rod_speed : ℚ) : Rod :=
  resetRod
    { enabled := false
      rod_exact_position := 0
      rod_actual_position := 0
      rod_exact_command := 0
      rod_steps := rod_steps
      rod_worth := rod_worth
      rod_speed := rod_speed
      fireing := false
      stepData := []
      derivativeTable := []
      scramTime := 0
      timeSinceScram := 0
      rodCommand := CommandType.None
      mode := OperationModes.Manual
      simulationMode := SimulationModes.SquareWaveMode
      simulationStartPosition := 0
      fireTimer := 0
      hasData := false
      maxIndex := 0 }

/-- The states reachable from a freshly constructed rod by calls of the
command surface and ticks. -/
def Reachable (rodIndex : ℤ) (s : Rod) : Prop :=
  ∃ (rod_steps : ℕ) (rod_worth rod_speed : ℚ) (calls : List Call),
    s = runCalls rodIndex (newRod rod_steps rod_worth rod_speed) calls

/-! ## Specification-side definitions -/

/-- The piecewise-linear interpolation of a table as the specification words
it: the sample itself when `q` is an integer, otherwise the floor and ceiling
samples weighted by the fractional distances. -/
def interpolate (table : List ℚ) (q : ℚ) : ℚ :=
  if ((⌊q⌋ : ℤ) : ℚ) = q then cell table (Int.toNat ⌊q⌋)
  else
    cell table (Int.toNat ⌊q⌋) * (((⌈q⌉ : ℤ) : ℚ) - q)
      + cell table (Int.toNat ⌈q⌉) * (q - ((⌊q⌋ : ℤ) : ℚ))

/-! ## Concrete rods used to instantiate the theorems -/

/-- A rod with two steps, worth `100`, and the table `[0, 1/4, 1]`. -/
def sampleRod : Rod :=
  { newRod 2 100 10 with stepData := [0, 1 / 4, 1], derivativeTable := [0, 5 / 2, 15 / 2],
                         hasData := true, maxIndex := 2 }

/-- Waveform objects that are all running (not paused) with the same current
offset. -/
def runningWaves (offset : ℚ) : Waveforms :=
  { sqw := { paused := false, currentOffset := offset }
    sinMode := { paused := false, currentOffset := offset }
    saw := { paused := false, currentOffset := offset } }

/-- The rod after `k` successive calls `refreshRod(rodIndex, dt)`, the `j`-th
call (counted from `0`) reading `w j` from the waveform objects. -/
def ticks (rodIndex : ℤ) (dt : ℚ) (w : ℕ → Waveforms) : ℕ → Rod → Rod
  | 0, r => r
  | k + 1, r => refreshRod (ticks rodIndex dt w k r) (w k) rodIndex dt

/-- The calls that bring a fresh rod into a scram while it is firing: Pulse
mode, a move to `10` while disabled, `fire(true)`, then `scramRod()`. -/
def pulseThenScram : List Call :=
  [Call.setOperationMode OperationModes.Pulse, Call.commandMove 10,
   Call.refreshRod (runningWaves 0) 1, Call.fire true, Call.scramRod]

/-- The scram block of `refreshRod` (the `if` branch). -/
def scramStage (r : Rod) (dt : ℚ) : Rod :=
  let r1 := { r with timeSinceScram := min (r.timeSinceScram + dt) r.scramTime }
  let r2 := moveRodToStep r1 (max (r1.rod_exact_position - dt * r1.rod_speed) 0) false
  if r2.rod_actual_position = 0 ∧ r2.enabled = true then
    { setEnabled r2 false with scramTime := -1 }
  else r2

/-- The `switch (mode)` block of `refreshRod`. -/
def simulationStage (r : Rod) (w : Waveforms) : Rod :=
  match r.mode with
  | OperationModes.Manual => r
  | OperationModes.Pulse => r
  | OperationModes.Simulation =>
    if (getMode w r.simulationMode).paused = false then
      moveRodToStep r (r.simulationStartPosition + (getMode w r.simulationMode).currentOffset)
        false
    else r
  | OperationModes.Automatic => r

/-- The "move the rod" block of `refreshRod`. -/
def commandStage (r : Rod) (dt : ℚ) : Rod :=
  if r.rod_exact_position ≠ localCommand r ∧
      (r.mode = OperationModes.Manual ∨ r.mode = OperationModes.Automatic
        ∨ r.mode = OperationModes.Pulse) then
    if r.rod_speed = 0 ∧ r.enabled = true then
      moveRodToStep r (localCommand r) false
    else if r.fireing = false then
      if localCommand r > r.rod_exact_position then
        moveRodToStep r (min (r.rod_exact_position + dt * r.rod_speed) (localCommand r)) false
      else
        moveRodToStep r (max (r.rod_exact_position - dt * r.rod_speed) (localCommand r)) false
    else r
  else r

/-- The `if (fireing)` block of `refreshRod`. -/
def fireStage (r : Rod) (dt : ℚ) : Rod :=
  if r.fireing = true then
    if (r.fireTimer + dt) ^ 2 * fire_acc * 0.5 * (r.rod_steps : ℚ) ≥ r.rod_exact_position then
      clearCommands
        { r with fireTimer := r.fireTimer + dt, rod_actual_position := r.rod_exact_position,
                 fireing := false }
        CommandType.None
    else
      { r with fireTimer := r.fireTimer + dt,
               rod_actual_position :=
                (r.fireTimer + dt) ^ 2 * fire_acc * 0.5 * (r.rod_steps : ℚ) }
  else r

/-! ## Invariants and sequences of calls under a side condition -/

/-- Both positions of the rod lie in `[0, rod_steps]`. -/
def positionsInDomain (r : Rod) : Prop :=
  0 ≤ r.rod_exact_position ∧ r.rod_exact_position ≤ (r.rod_steps : ℚ) ∧
  0 ≤ r.rod_actual_position ∧ r.rod_actual_position ≤ (r.rod_steps : ℚ)

/-- Every call of the sequence satisfies the side condition `G` in the state
in which it is made. -/
def callsRespect (G : Rod → Call → Prop) (rodIndex : ℤ) : Rod → List Call → Prop
  | _, [] => True
  | r, c :: cs => G r c ∧ callsRespect G rodIndex (Call.apply rodIndex r c) cs

/-- Side condition: the call does not leave Simulation mode. -/
def staysInSimulation (_r : Rod) : Call → Prop
  | Call.setOperationMode m => m = OperationModes.Simulation
  | _ => True

/-- Side condition: the caller keeps scram and pulse apart, that is, it does
not fire a rod in Pulse mode during an active scram and does not start a scram
on a firing rod. -/
def keepsScramAndPulseApart (r : Rod) : Call → Prop
  | Call.fire true => r.mode = OperationModes.Pulse → r.scramTime ≤ 0
  | Call.scramRod => r.scramTime ≤ 0 → r.fireing = false
  | _ => True

/-- Side condition: the caller does not change the operating mode of a firing
rod. -/
def keepsModeWhileFiring (r : Rod) : Call → Prop
  | Call.setOperationMode m => r.fireing = true → m = r.mode
  | _ => True

/-! ## Concrete rods and call sequences for the state machine -/

/-- A fresh rod of a hundred steps driven to position `20` in Manual mode. -/
def baselineRod : Rod := moveRodToStep (newRod 100 165.273 10) 20 false

/-- Calls made while in Simulation mode: a tick with offset `5`, a command, a
scram and another tick. -/
def simulationCalls : List Call :=
  [Call.refreshRod (runningWaves 5) (1 / 10), Call.commandMove 70, Call.scramRod,
   Call.refreshRod (runningWaves 5) 1]

/-- Calls that fire a rod in Pulse mode and change the mode while it fires. -/
def fireThenLeavePulse : List Call :=
  [Call.setOperationMode OperationModes.Pulse, Call.fire true,
   Call.setOperationMode OperationModes.Manual]

/-- Calls that fire a rod in Pulse mode, let the pulse end with a tick, and
only then start a scram. -/
def fireThenTickThenScram : List Call :=
  [Call.setOperationMode OperationModes.Pulse, Call.fire true,
   Call.refreshRod (runningWaves 0) 1, Call.scramRod]

/-- A rod with three steps, worth `100`, whose table `[0, 3/4, 1/2, 1]` is not
monotone. -/
def bumpyRod : Rod :=
  { newRod 3 100 10 with stepData := [0, 3 / 4, 1 / 2, 1], derivativeTable := [0, 15 / 2, -5 / 2, 5],
                         hasData := true, maxIndex := 1 }

/-! ## The binary32 reading of the arithmetic

The source stores positions, worths and table samples in `float` and the
timers in `double`, and every operation rounds its result to the type of the
expression.  Where what a function returns depends on that rounding, the
function is given a second time below, under the same name in `Binary32`,
with every arithmetic operation followed by the rounding the source performs
(`toFloat` for a `float` result, `toDouble` for a `double` one).  Comparisons,
`min` and `max` are exact in both formats.  The values held by the fields and
passed as arguments are taken to be representable; the casts of `rod_steps`
and of a table index to `float` are exact below `2 ^ 24` and are not rounded.
Overflow to infinity is not part of the model.
-/

/-- Rounding a rational to the nearest integer, a tie going to the even one. -/
def roundHalfEven (q : ℚ) : ℤ :=
  if q - (⌊q⌋ : ℚ) < 1 / 2 then ⌊q⌋
  else if 1 / 2 < q - (⌊q⌋ : ℚ) then ⌊q⌋ + 1
  else if ⌊q⌋ % 2 = 0 then ⌊q⌋
  else ⌊q⌋ + 1

/-- The power `2 ^ k` for an integer exponent `k`. -/
def pow2 (k : ℤ) : ℚ :=
  if 0 ≤ k then ((2 ^ k.toNat : ℕ) : ℚ) else 1 / ((2 ^ (-k).toNat : ℕ) : ℚ)

/-- The number of halvings that bring `n` below `2`, which is `⌊log₂ n⌋` for
`n ≥ 1`; the first argument bounds the number of halvings. -/
def halvings : ℕ → ℕ → ℕ
  | 0, _ => 0
  | fuel + 1, n => if n < 2 then 0 else halvings fuel (n / 2) + 1

/-- The binary exponent of a non-zero rational `x`: the integer `e` with
`2 ^ e ≤ |x| < 2 ^ (e + 1)`. -/
def binade (x : ℚ) : ℤ :=
  if pow2 ((halvings x.num.natAbs x.num.natAbs : ℤ) - (halvings x.den x.den : ℤ)) ≤ |x| then
    (halvings x.num.natAbs x.num.natAbs : ℤ) - (halvings x.den x.den : ℤ)
  else (halvings x.num.natAbs x.num.natAbs : ℤ) - (halvings x.den x.den : ℤ) - 1

/-- Rounding to the nearest binary floating-point number with `p` significant
bits and least normal exponent `emin`, a tie going to the even significand
(the IEEE 754 default).  Below `2 ^ emin` the spacing stays that of the least
normal binade (gradual underflow). -/
def roundTo (p : ℕ) (emin : ℤ) (x : ℚ) : ℚ :=
  if x = 0 then 0
  else (roundHalfEven (x / pow2 (max (binade x) emin - ((p : ℤ) - 1))) : ℚ)
    * pow2 (max (binade x) emin - ((p : ℤ) - 1))

/-- The value of an expression of type `float` (binary32: 24 significant bits,
least normal exponent `-126`). -/
def toFloat (x : ℚ) : ℚ := roundTo 24 (-126) x

/-- The value of an expression of type `double` (binary64: 53 significant
bits, least normal exponent `-1022`). -/
def toDouble (x : ℚ) : ℚ := roundTo 53 (-1022) x

/-- The member function `getPosFromPcm(float pcm)` in binary32: the division,
the two differences, the quotient `a`, the two products, `1.f - a` and the
final sum each round to `float`. -/
def Binary32.getPosFromPcm (r : Rod) (pcm : ℚ) : Option ℚ :=
  let pcm := min pcm r.rod_worth
  let pcm := max 0 pcm
  let pcm := toFloat (pcm / r.rod_worth)
  match scanTable r.stepData pcm 0 with
  | none => none
  | some i =>
    match r.stepData[i]? with
    | none => none
    | some si =>
      if si = pcm then some (i : ℚ)
      else if i = 0 then none
      else
        match r.stepData[i - 1]? with
        | none => none
        | some sp =>
          let a := toFloat (toFloat (si - pcm) / toFloat (si - sp))
          some (toFloat (toFloat (((i : ℚ) - 1) * a) + toFloat ((i : ℚ) * toFloat (1 - a))))

/-- The member function `getPositionAtPcm(float position_pcm)` in binary32:
the division, the two differences, their quotient, the sum with `i` and the
final `- 1` each round to `float`. -/
def Binary32.getPositionAtPcm (r : Rod) (position_pcm : ℚ) : Option ℚ :=
  let position_pcm := toFloat (position_pcm / r.rod_worth)
  if position_pcm ≥ 1 then some (r.rod_steps : ℚ)
  else if position_pcm ≤ 0 then some 0
  else
    match scanTable r.stepData position_pcm 0 with
    | none => none
    | some i =>
      match r.stepData[i]? with
      | none => none
      | some si =>
        if si = position_pcm then some (i : ℚ)
        else if i = 0 then none
        else
          match r.stepData[i - 1]? with
          | none => none
          | some sp =>
            some (toFloat (toFloat (toFloat (toFloat (position_pcm - sp) / toFloat (si - sp))
              + (i : ℚ)) - 1))

/-- The member function `refreshRod(int rodIndex, double dt)` in binary32 and
binary64: `timeSinceScram + dt` and `fireTimer + dt` round to `double`,
`dt * rod_speed` rounds to `double` and is then cast to `float`, the sums and
differences of positions round to `float`, and the ballistic position is a
product of `double`s cast to `float` (`pow(fireTimer, 2)` taken as the rounded
square).  The offset read from the waveform object is taken as a `float`. -/
def Binary32.refreshRod (r : Rod) (w : Waveforms) (rodIndex : ℤ) (dt : ℚ) : Rod :=
  if r.scramTime > 0 ∧ rodIndex ≠ 2 then
    let r1 := { r with timeSinceScram := min (toDouble (r.timeSinceScram + dt)) r.scramTime }
    let rod_move : ℚ := toFloat (toDouble (dt * r1.rod_speed))
    let r2 := moveRodToStep r1 (max (toFloat (r1.rod_exact_position - rod_move)) 0) false
    if r2.rod_actual_position = 0 ∧ r2.enabled = true then
      { setEnabled r2 false with scramTime := -1 }
    else r2
  else
    let r1 :=
      match r.mode with
      | OperationModes.Manual => r
      | OperationModes.Pulse => r
      | OperationModes.Simulation =>
        let waveform := getMode w r.simulationMode
        if waveform.paused = false then
          moveRodToStep r (toFloat (r.simulationStartPosition + waveform.currentOffset)) false
        else r
      | OperationModes.Automatic => r
    let localCommand : ℚ := localCommand r1
    let r2 :=
      if r1.rod_exact_position ≠ localCommand ∧
          (r1.mode = OperationModes.Manual ∨ r1.mode = OperationModes.Automatic
            ∨ r1.mode = OperationModes.Pulse) then
        if r1.rod_speed = 0 ∧ r1.enabled = true then
          moveRodToStep r1 localCommand false
        else if r1.fireing = false then
          let rod_move : ℚ := toFloat (toDouble (dt * r1.rod_speed))
          if localCommand > r1.rod_exact_position then
            moveRodToStep r1 (min (toFloat (r1.rod_exact_position + rod_move)) localCommand)
              false
          else
            moveRodToStep r1 (max (toFloat (r1.rod_exact_position - rod_move)) localCommand)
              false
        else r1
      else r1
    if r2.fireing = true then
      let r3 := { r2 with fireTimer := toDouble (r2.fireTimer + dt) }
      let rod_pos : ℚ :=
        toFloat (toDouble (toDouble (toDouble (toDouble (r3.fireTimer ^ 2) * fire_acc) * 0.5)
          * (r3.rod_steps : ℚ)))
      if rod_pos ≥ r3.rod_exact_position then
        clearCommands
          { r3 with rod_actual_position := r3.rod_exact_position, fireing := false }
          CommandType.None
      else { r3 with rod_actual_position := rod_pos }
    else r2

/-- The rod after `k` successive calls `refreshRod(rodIndex, dt)` in binary32,
the `j`-th call (counted from `0`) reading `w j` from the waveform objects. -/
def Binary32.ticks (rodIndex : ℤ) (dt : ℚ) (w : ℕ → Waveforms) : ℕ → Rod → Rod
  | 0, r => r
  | k + 1, r => Binary32.refreshRod (Binary32.ticks rodIndex dt w k r) (w k) rodIndex dt

/-- The scram block of `Binary32.refreshRod` (the `if` branch). -/
def Binary32.scramStage (r : Rod) (dt : ℚ) : Rod :=
  let r1 := { r with timeSinceScram := min (toDouble (r.timeSinceScram + dt)) r.scramTime }
  let r2 := moveRodToStep r1
    (max (toFloat (r1.rod_exact_position - toFloat (toDouble (dt * r1.rod_speed)))) 0) false
  if r2.rod_actual_position = 0 ∧ r2.enabled = true then
    { setEnabled r2 false with scramTime := -1 }
  else r2

/-- The `switch (mode)` block of `Binary32.refreshRod`. -/
def Binary32.simulationStage (r : Rod) (w : Waveforms) : Rod :=
  match r.mode with
  | OperationModes.Manual => r
  | OperationModes.Pulse => r
  | OperationModes.Simulation =>
    if (getMode w r.simulationMode).paused = false then
      moveRodToStep r
        (toFloat (r.simulationStartPosition + (getMode w r.simulationMode).currentOffset)) false
    else r
  | OperationModes.Automatic => r

/-- The "move the rod" block of `Binary32.refreshRod`. -/
def Binary32.commandStage (r : Rod) (dt : ℚ) : Rod :=
  if r.rod_exact_position ≠ localCommand r ∧
      (r.mode = OperationModes.Manual ∨ r.mode = OperationModes.Automatic
        ∨ r.mode = OperationModes.Pulse) then
    if r.rod_speed = 0 ∧ r.enabled = true then
      moveRodToStep r (localCommand r) false
    else if r.fireing = false then
      if localCommand r > r.rod_exact_position then
        moveRodToStep r
          (min (toFloat (r.rod_exact_position + toFloat (toDouble (dt * r.rod_speed))))
            (localCommand r)) false
      else
        moveRodToStep r
          (max (toFloat (r.rod_exact_position - toFloat (toDouble (dt * r.rod_speed))))
            (localCommand r)) false
    else r
  else r

/-- The `if (fireing)` block of `Binary32.refreshRod`. -/
def Binary32.fireStage (r : Rod) (dt : ℚ) : Rod :=
  if r.fireing = true then
    if toFloat (toDouble (toDouble (toDouble (toDouble (toDouble (r.fireTimer + dt) ^ 2)
        * fire_acc) * 0.5) * (r.rod_steps : ℚ))) ≥ r.rod_exact_position then
      clearCommands
        { r with fireTimer := toDouble (r.fireTimer + dt),
                 rod_actual_position := r.rod_exact_position,
                 fireing := false }
        CommandType.None
    else
      { r with fireTimer := toDouble (r.fireTimer + dt),
               rod_actual_position :=
                toFloat (toDouble (toDouble (toDouble (toDouble (toDouble (r.fireTimer + dt) ^ 2)
                  * fire_acc) * 0.5) * (r.rod_steps : ℚ))) }
  else r

/-- A rod of one step and speed `1`, raised to the top. -/
def shortRod : Rod := moveRodToStep (newRod 1 100 1) 1 false

/-- A rod of a hundred steps and speed `1` at position `1`, commanded to the
`float` nearest to `1.7`. -/
def edgeRod : Rod := commandMove (moveRodToStep (newRod 100 100 1) 1 false) (toFloat (17 / 10))

/-! ## Facts about the construction loop -/

theorem cell_set (t : List ℚ) (i j : ℕ) (v : ℚ) (hi : i < t.length) :
    cell (t.set i v) j = if j = i then v else cell t j := by
  unfold cell
  by_cases h : j = i
  · subst h
    simp [List.getD_eq_getElem?_getD, List.getElem?_set, hi]
  · have h' : i ≠ j := fun e => h e.symm
    simp [List.getD_eq_getElem?_getD, List.getElem?_set, h, h']

theorem recalculateStep_frame (rodIndex : ℤ) (i : ℕ) (r : Rod) :
    (recalculateStep rodIndex i r).rod_steps = r.rod_steps ∧
    (recalculateStep rodIndex i r).rod_worth = r.rod_worth ∧
    (recalculateStep rodIndex i r).hasData = r.hasData ∧
    (recalculateStep rodIndex i r).stepData.length = r.stepData.length ∧
    (recalculateStep rodIndex i r).derivativeTable.length = r.derivativeTable.length := by
  simp [recalculateStep]

theorem recalculateLoop_frame (rodIndex : ℤ) (k : ℕ) (r : Rod) :
    (recalculateLoop rodIndex k r).rod_steps = r.rod_steps ∧
    (recalculateLoop rodIndex k r).rod_worth = r.rod_worth ∧
    (recalculateLoop rodIndex k r).hasData = r.hasData ∧
    (recalculateLoop rodIndex k r).stepData.length = r.stepData.length ∧
    (recalculateLoop rodIndex k r).derivativeTable.length = r.derivativeTable.length := by
  induction k with
  | zero => simp [recalculateLoop]
  | succ k ih =>
    obtain ⟨h1, h2, h3, h4, h5⟩ := ih
    obtain ⟨g1, g2, g3, g4, g5⟩ :=
      recalculateStep_frame rodIndex (k + 1) (recalculateLoop rodIndex k r)
    simp only [recalculateLoop]
    exact ⟨g1.trans h1, g2.trans h2, g3.trans h3, g4.trans h4, g5.trans h5⟩

/-- After `k` iterations the cells `1 .. k` of `stepData` hold the computed
reactivities and every other cell is as before the loop. -/
theorem recalculateLoop_stepData (rodIndex : ℤ) (r : Rod) (k : ℕ)
    (hk : k < r.stepData.length) (j : ℕ) :
    cell (recalculateLoop rodIndex k r).stepData j =
      if 1 ≤ j ∧ j ≤ k then
        reactivity rodIndex r.rod_worth ((j : ℚ) * (1 / (r.rod_steps : ℚ)))
      else cell r.stepData j := by
  induction k with
  | zero =>
    have : ¬ (1 ≤ j ∧ j ≤ 0) := by omega
    rw [if_neg this]
    rfl
  | succ k ih =>
    have ih' := ih (by omega)
    obtain ⟨h1, h2, -, h4, -⟩ := recalculateLoop_frame rodIndex k r
    simp only [recalculateLoop, recalculateStep]
    rw [cell_set _ _ _ _ (by rw [h4]; exact hk), ih', h1, h2]
    by_cases hj : j = k + 1
    · subst hj
      simp
    · by_cases hj' : 1 ≤ j ∧ j ≤ k
      · have : 1 ≤ j ∧ j ≤ k + 1 := ⟨hj'.1, by omega⟩
        simp [hj, hj', this]
      · have : ¬ (1 ≤ j ∧ j ≤ k + 1) := by omega
        simp [hj, hj', this]

/-- After `k` iterations every cell `1 .. k` of `derivativeTable` holds ten
times the difference of the two neighbouring `stepData` cells, and every
other cell is as before the loop. -/
theorem recalculateLoop_derivativeTable (rodIndex : ℤ) (r : Rod) (k : ℕ)
    (hk : k < r.stepData.length) (hk' : k < r.derivativeTable.length) (j : ℕ) :
    cell (recalculateLoop rodIndex k r).derivativeTable j =
      if 1 ≤ j ∧ j ≤ k then
        (cell (recalculateLoop rodIndex k r).stepData j
          - cell (recalculateLoop rodIndex k r).stepData (j - 1)) * 10
      else cell r.derivativeTable j := by
  induction k with
  | zero =>
    have : ¬ (1 ≤ j ∧ j ≤ 0) := by omega
    rw [if_neg this]
    rfl
  | succ k ih =>
    have ih' := ih (by omega) (by omega)
    obtain ⟨-, -, -, h4, h5⟩ := recalculateLoop_frame rodIndex k r
    simp only [recalculateLoop, recalculateStep]
    rw [cell_set _ _ _ _ (by rw [h5]; exact hk'), ih']
    by_cases hj : j = k + 1
    · subst hj
      simp
    · by_cases hj' : 1 ≤ j ∧ j ≤ k
      · have h1 : 1 ≤ j ∧ j ≤ k + 1 := ⟨hj'.1, by omega⟩
        have h2 : j - 1 ≠ k + 1 := by omega
        rw [if_neg hj, if_pos hj', if_pos h1, cell_set _ _ j _ (by rw [h4]; exact hk),
          cell_set _ _ (j - 1) _ (by rw [h4]; exact hk), if_neg hj, if_neg h2]
      · have : ¬ (1 ≤ j ∧ j ≤ k + 1) := by omega
        simp [hj, hj', this]

/-! ## Monotonicity of the fitted curves -/

/-- The rod polynomial commutes with the inclusion of the rationals in the
reals. -/
theorem rodPolynomial_cast (x : ℚ) :
    ((rodPolynomial x : ℚ) : ℝ) =
      -192.39 * (x : ℝ) ^ 6 + 1690.9 * (x : ℝ) ^ 5 - 3473.6 * (x : ℝ) ^ 4 + 2363.3 * (x : ℝ) ^ 3
        - 260.91 * (x : ℝ) ^ 2 + 37.974 * (x : ℝ) - 0.001 := by
  unfold rodPolynomial
  push_cast
  norm_num

/-- The derivative of the rod polynomial is non-negative on the unit interval:
it is a sum of non-negative Bernstein-type terms. -/
theorem rodPolynomial_slope_nonneg (x : ℝ) (h0 : 0 ≤ x) (h1 : x ≤ 1) :
    0 ≤ -192.39 * (6 * x ^ 5) + 1690.9 * (5 * x ^ 4) - 3473.6 * (4 * x ^ 3)
      + 2363.3 * (3 * x ^ 2) - 260.91 * (2 * x) + 37.974 := by
  have hu : 0 ≤ 1 - x := by linarith
  have hQ : 0 ≤ 37.974 * (1 - x) ^ 2 - 331.95 * x * (1 - x) + 5382.36 * x ^ 2 := by
    nlinarith [sq_nonneg ((1 - x) - 4.37 * x), sq_nonneg x]
  have e : -192.39 * (6 * x ^ 5) + 1690.9 * (5 * x ^ 4) - 3473.6 * (4 * x ^ 3)
      + 2363.3 * (3 * x ^ 2) - 260.91 * (2 * x) + 37.974
      = (1 - x) ^ 3 * (37.974 * (1 - x) ^ 2 - 331.95 * x * (1 - x) + 5382.36 * x ^ 2)
        + 4624.12 * (x ^ 3 * (1 - x) ^ 2) + 37.99 * (x ^ 4 * (1 - x)) + 11.814 * x ^ 5 := by
    ring
  rw [e]
  positivity

/-- The rod polynomial, read over the reals, is monotone on the unit interval. -/
theorem rodPolynomial_real_monotoneOn : MonotoneOn (fun x : ℝ =>
      -192.39 * x ^ 6 + 1690.9 * x ^ 5 - 3473.6 * x ^ 4 + 2363.3 * x ^ 3
        - 260.91 * x ^ 2 + 37.974 * x - 0.001) (Set.Icc 0 1) := by
  have hd : ∀ x : ℝ, HasDerivAt (fun x : ℝ =>
      -192.39 * x ^ 6 + 1690.9 * x ^ 5 - 3473.6 * x ^ 4 + 2363.3 * x ^ 3
        - 260.91 * x ^ 2 + 37.974 * x - 0.001)
      (-192.39 * (6 * x ^ 5) + 1690.9 * (5 * x ^ 4) - 3473.6 * (4 * x ^ 3)
      + 2363.3 * (3 * x ^ 2) - 260.91 * (2 * x) + 37.974) x := by
    intro x
    have h6 := (hasDerivAt_pow 6 x).const_mul (-192.39 : ℝ)
    have h5 := (hasDerivAt_pow 5 x).const_mul (1690.9 : ℝ)
    have h4 := (hasDerivAt_pow 4 x).const_mul (3473.6 : ℝ)
    have h3 := (hasDerivAt_pow 3 x).const_mul (2363.3 : ℝ)
    have h2 := (hasDerivAt_pow 2 x).const_mul (260.91 : ℝ)
    have h1 := (hasDerivAt_id x).const_mul (37.974 : ℝ)
    have h := (((((h6.add h5).sub h4).add h3).sub h2).add h1).sub_const (0.001 : ℝ)
    convert h using 1
    norm_num
  apply monotoneOn_of_deriv_nonneg (convex_Icc 0 1)
  · exact fun x _ => (hd x).continuousAt.continuousWithinAt
  · exact fun x _ => (hd x).differentiableAt.differentiableWithinAt
  · intro x hx
    rw [interior_Icc] at hx
    rw [(hd x).deriv]
    exact rodPolynomial_slope_nonneg x hx.1.le hx.2.le

/-- The rod polynomial is monotone on the rational unit interval. -/
theorem rodPolynomial_mono (x y : ℚ) (hx : 0 ≤ x) (hxy : x ≤ y) (hy : y ≤ 1) :
    rodPolynomial x ≤ rodPolynomial y := by
  have hx' : (0 : ℝ) ≤ (x : ℝ) := by exact_mod_cast hx
  have hy' : (y : ℝ) ≤ 1 := by exact_mod_cast hy
  have hxy' : (x : ℝ) ≤ (y : ℝ) := by exact_mod_cast hxy
  have h := rodPolynomial_real_monotoneOn (a := (x : ℝ)) (b := (y : ℝ))
    ⟨hx', hxy'.trans hy'⟩ ⟨hx'.trans hxy', hy'⟩ hxy'
  have h' : ((rodPolynomial x : ℚ) : ℝ) ≤ ((rodPolynomial y : ℚ) : ℝ) := by
    rw [rodPolynomial_cast, rodPolynomial_cast]
    exact h
  exact_mod_cast h'

/-- The first sample of the polynomial families is non-negative as long as the
table has at most 37967 steps. -/
theorem rodPolynomial_first_nonneg (n : ℕ) (h1 : 1 ≤ n) (hn : n ≤ 37967) :
    0 ≤ rodPolynomial ((1 : ℚ) * (1 / (n : ℚ))) := by
  have hn0 : (0 : ℚ) < (n : ℚ) := by exact_mod_cast h1
  have hn1 : (1 : ℚ) ≤ (n : ℚ) := by exact_mod_cast h1
  have hn2 : (n : ℚ) ≤ 37967 := by exact_mod_cast hn
  have hbase : 0 ≤ rodPolynomial (1 / 37967) := by
    unfold rodPolynomial
    norm_num
  have hle : (1 : ℚ) / 37967 ≤ 1 * (1 / (n : ℚ)) := by
    rw [one_mul]
    exact one_div_le_one_div_of_le hn0 hn2
  have hle1 : (1 : ℚ) * (1 / (n : ℚ)) ≤ 1 := by
    rw [one_mul, div_le_one hn0]
    exact hn1
  exact hbase.trans (rodPolynomial_mono _ _ (by norm_num) hle hle1)

/-- The numerator of the `rodIndex == 2` branch without the added
`rod_worth`: the linear fit below `0.8`, the quadratic fit from `0.8` on. -/
theorem reactivity_two (w CR : ℚ) :
    reactivity 2 w CR =
      ((if CR < 0.8 then 9.38232899520517 * CR * 1000 + (-8785.47016144056)
        else -0.0149964531096730 * (CR * 1000) ^ 2 + 33.3916504237934 * CR * 1000
          + (-18395.1973141205)) + w) / w := by
  unfold reactivity
  split_ifs <;> first | rfl | omega

/-- Both fits of the `rodIndex == 2` branch stay above the constant term of the
linear fit on the unit interval. -/
theorem shim_lower (x : ℚ) (h0 : 0 ≤ x) (h1 : x ≤ 1) :
    (-8785.47016144056 : ℚ) ≤
      (if x < 0.8 then 9.38232899520517 * x * 1000 + (-8785.47016144056)
        else -0.0149964531096730 * (x * 1000) ^ 2 + 33.3916504237934 * x * 1000
          + (-18395.1973141205)) := by
  split_ifs with h
  · nlinarith
  · have h8 : (0.8 : ℚ) ≤ x := not_lt.mp h
    nlinarith [mul_nonneg (sub_nonneg.mpr h8) (sub_nonneg.mpr h1)]

/-- The piecewise fit of the `rodIndex == 2` branch does not decrease between
two points of the unit interval that are at least `10⁻¹³` apart. -/
theorem shim_mono (x y : ℚ) (h1 : y ≤ 1) (hxy : x + 1 / 10 ^ 13 ≤ y) :
    (if x < 0.8 then 9.38232899520517 * x * 1000 + (-8785.47016144056)
        else -0.0149964531096730 * (x * 1000) ^ 2 + 33.3916504237934 * x * 1000
          + (-18395.1973141205)) ≤
      (if y < 0.8 then 9.38232899520517 * y * 1000 + (-8785.47016144056)
        else -0.0149964531096730 * (y * 1000) ^ 2 + 33.3916504237934 * y * 1000
          + (-18395.1973141205)) := by
  have hpos : (0 : ℚ) < 1 / 10 ^ 13 := by norm_num
  have hlt : x < y := by linarith
  split_ifs with hx hy hy
  · nlinarith
  · have h8 : (0.8 : ℚ) ≤ y := not_lt.mp hy
    nlinarith [mul_nonneg (sub_nonneg.mpr h8) (sub_nonneg.mpr h1)]
  · linarith
  · have h8 : (0.8 : ℚ) ≤ x := not_lt.mp hx
    nlinarith [mul_nonneg (sub_nonneg.mpr hlt.le) (sub_nonneg.mpr h1),
      mul_nonneg (sub_nonneg.mpr hlt.le) (sub_nonneg.mpr h8)]

/-- From `10⁻⁵` on, both fits of the `rodIndex == 2` branch stay `0.09` above
the constant term of the linear fit. -/
theorem shim_lower_first (x : ℚ) (h0 : 1 / 100000 ≤ x) (h1 : x ≤ 1) :
    (-8785.47016144056 : ℚ) + 9 / 100 ≤
      (if x < 0.8 then 9.38232899520517 * x * 1000 + (-8785.47016144056)
        else -0.0149964531096730 * (x * 1000) ^ 2 + 33.3916504237934 * x * 1000
          + (-18395.1973141205)) := by
  split_ifs with h
  · nlinarith
  · have h8 : (0.8 : ℚ) ≤ x := not_lt.mp h
    nlinarith [mul_nonneg (sub_nonneg.mpr h8) (sub_nonneg.mpr h1)]

/-! ## The tables built by `recalculateStepData` -/

theorem cell_fresh (n j : ℕ) : cell ((List.replicate (n + 1) (0 : ℚ)).set 0 0) j = 0 := by
  rw [cell_set _ _ _ _ (by simp)]
  split_ifs
  · rfl
  · unfold cell
    rw [List.getD_eq_getElem?_getD]
    by_cases h : j < n + 1
    · simp [List.getElem?_replicate, h]
    · simp [List.getElem?_replicate, h]

theorem recalculateStepData_length (rodIndex : ℤ) (r : Rod) :
    (recalculateStepData rodIndex r).stepData.length = r.rod_steps + 1 ∧
    (recalculateStepData rodIndex r).derivativeTable.length = r.rod_steps + 1 := by
  unfold recalculateStepData
  obtain ⟨-, -, -, h4, h5⟩ := recalculateLoop_frame rodIndex r.rod_steps
    { r with
      stepData := (List.replicate (r.rod_steps + 1) 0).set 0 0
      derivativeTable := (List.replicate (r.rod_steps + 1) 0).set 0 0
      hasData := true
      maxIndex := 0 }
  rw [h4, h5]
  simp

/-- Every cell of the built `stepData`: the computed reactivity at
`CR = i * (1 / rod_steps)` for `i` in `1 .. rod_steps`, and `0` at index `0`. -/
theorem recalculateStepData_cell (rodIndex : ℤ) (r : Rod) (j : ℕ) :
    cell (recalculateStepData rodIndex r).stepData j =
      if 1 ≤ j ∧ j ≤ r.rod_steps then
        reactivity rodIndex r.rod_worth ((j : ℚ) * (1 / (r.rod_steps : ℚ)))
      else 0 := by
  unfold recalculateStepData
  rw [recalculateLoop_stepData _ _ _ (by simp)]
  simp only [cell_fresh]

/-- Every cell of the built `derivativeTable`. -/
theorem recalculateStepData_derivative (rodIndex : ℤ) (r : Rod) (j : ℕ) :
    cell (recalculateStepData rodIndex r).derivativeTable j =
      if 1 ≤ j ∧ j ≤ r.rod_steps then
        (cell (recalculateStepData rodIndex r).stepData j
          - cell (recalculateStepData rodIndex r).stepData (j - 1)) * 10
      else 0 := by
  unfold recalculateStepData
  rw [recalculateLoop_derivativeTable _ _ _ (by simp) (by simp)]
  simp only [cell_fresh]

/-- Reading a cell inside the table through the checked access. -/
theorem getElem?_eq_cell (t : List ℚ) (i : ℕ) (h : i < t.length) :
    t[i]? = some (cell t i) := by
  unfold cell
  rw [List.getD_eq_getElem?_getD, List.getElem?_eq_getElem h]
  rfl

/-! ## Facts about `getPCMat` -/

/-- The clamped position of `getPCMat` lies in `[0, rod_steps]`. -/
theorem clamp_bounds (n : ℕ) (p : ℚ) :
    0 ≤ max (min p (n : ℚ)) 0 ∧ max (min p (n : ℚ)) 0 ≤ (n : ℚ) := by
  have hn : (0 : ℚ) ≤ (n : ℚ) := Nat.cast_nonneg n
  exact ⟨le_max_right _ _, max_le (min_le_right _ _) hn⟩

/-- Clamping first from above and then from below is the same as clamping
first from below and then from above. -/
theorem clamp_comm (n : ℕ) (p : ℚ) :
    max (min p (n : ℚ)) 0 = min (max p 0) (n : ℚ) := by
  have hn : (0 : ℚ) ≤ (n : ℚ) := Nat.cast_nonneg n
  rcases le_total p 0 with h | h
  · rw [min_eq_left (h.trans hn), max_eq_right h, min_eq_left hn]
  · rw [max_eq_left h]
    exact max_eq_left (le_min h hn)

/-- Floor and ceiling of a position in `[0, n]`, as table indices. -/
theorem index_bounds (n : ℕ) (q : ℚ) (h0 : 0 ≤ q) (hn : q ≤ (n : ℚ)) :
    Int.toNat ⌊q⌋ ≤ n ∧ Int.toNat ⌈q⌉ ≤ n ∧
    ((Int.toNat ⌊q⌋ : ℕ) : ℚ) = ((⌊q⌋ : ℤ) : ℚ) ∧
    ((Int.toNat ⌈q⌉ : ℕ) : ℚ) = ((⌈q⌉ : ℤ) : ℚ) := by
  have hf0 : 0 ≤ ⌊q⌋ := Int.floor_nonneg.mpr h0
  have hc0 : 0 ≤ ⌈q⌉ := Int.ceil_nonneg h0
  have hcn : ⌈q⌉ ≤ (n : ℤ) := Int.ceil_le.mpr (by exact_mod_cast hn)
  have hfn : ⌊q⌋ ≤ (n : ℤ) := (Int.floor_le_ceil q).trans hcn
  refine ⟨by omega, by omega, ?_, ?_⟩
  · have : ((Int.toNat ⌊q⌋ : ℕ) : ℤ) = ⌊q⌋ := Int.toNat_of_nonneg hf0
    exact_mod_cast congrArg (fun z : ℤ => (z : ℚ)) this
  · have : ((Int.toNat ⌈q⌉ : ℕ) : ℤ) = ⌈q⌉ := Int.toNat_of_nonneg hc0
    exact_mod_cast congrArg (fun z : ℤ => (z : ℚ)) this

/-- The test `floorP == ceilP` of `getPCMat` holds exactly when the clamped
position is an integer. -/
theorem floor_eq_ceil_iff (q : ℚ) (h0 : 0 ≤ q) :
    Int.toNat ⌊q⌋ = Int.toNat ⌈q⌉ ↔ ((⌊q⌋ : ℤ) : ℚ) = q := by
  have hf0 : 0 ≤ ⌊q⌋ := Int.floor_nonneg.mpr h0
  have hc0 : 0 ≤ ⌈q⌉ := Int.ceil_nonneg h0
  constructor
  · intro h
    have h' : ⌊q⌋ = ⌈q⌉ := by omega
    have h1 : ((⌊q⌋ : ℤ) : ℚ) ≤ q := Int.floor_le q
    have h2 : q ≤ ((⌈q⌉ : ℤ) : ℚ) := Int.le_ceil q
    rw [← h'] at h2
    exact le_antisymm h1 h2
  · intro h
    have : ⌈q⌉ = ⌊q⌋ := by
      rw [← h]
      simp
    rw [this]

/-- The value of `getPCMat` on a table with `rod_steps + 1` cells: both reads
are inside the table. -/
theorem getPCMat_eq (r : Rod) (p : ℚ) (hlen : r.stepData.length = r.rod_steps + 1) :
    getPCMat r p =
      some (interpolate r.stepData (max (min p (r.rod_steps : ℚ)) 0) * r.rod_worth) := by
  obtain ⟨h0, hn⟩ := clamp_bounds r.rod_steps p
  obtain ⟨hf, hc, hfc, hcc⟩ := index_bounds r.rod_steps _ h0 hn
  unfold getPCMat interpolate
  simp only
  rw [getElem?_eq_cell _ _ (by omega : Int.toNat ⌊max (min p (r.rod_steps : ℚ)) 0⌋ < _),
    getElem?_eq_cell _ _ (by omega : Int.toNat ⌈max (min p (r.rod_steps : ℚ)) 0⌉ < _)]
  by_cases h : Int.toNat ⌊max (min p (r.rod_steps : ℚ)) 0⌋
      = Int.toNat ⌈max (min p (r.rod_steps : ℚ)) 0⌉
  · rw [if_pos h, if_pos ((floor_eq_ceil_iff _ h0).mp h)]
  · rw [if_neg h, if_neg (fun e => h ((floor_eq_ceil_iff _ h0).mpr e)), hfc, hcc]

/-- The configuration fields survive `recalculateStepData`, and `hasData` is
set. -/
theorem recalculateStepData_frame (rodIndex : ℤ) (r : Rod) :
    (recalculateStepData rodIndex r).rod_steps = r.rod_steps ∧
    (recalculateStepData rodIndex r).rod_worth = r.rod_worth ∧
    (recalculateStepData rodIndex r).hasData = true := by
  unfold recalculateStepData
  obtain ⟨h1, h2, h3, -, -⟩ := recalculateLoop_frame rodIndex r.rod_steps
    { r with
      stepData := (List.replicate (r.rod_steps + 1) 0).set 0 0
      derivativeTable := (List.replicate (r.rod_steps + 1) 0).set 0 0
      hasData := true
      maxIndex := 0 }
  exact ⟨h1, h2, h3⟩

/-- At a whole position the interpolation is the sample itself. -/
theorem interpolate_natCast (t : List ℚ) (k : ℕ) : interpolate t (k : ℚ) = cell t k := by
  unfold interpolate
  have h : ⌊(k : ℚ)⌋ = (k : ℤ) := Int.floor_natCast k
  rw [h]
  simp

/-- The value of `getPCMat` at a whole position inside the table. -/
theorem getPCMat_natCast (r : Rod) (k : ℕ) (hlen : r.stepData.length = r.rod_steps + 1)
    (hk : k ≤ r.rod_steps) :
    getPCMat r (k : ℚ) = some (cell r.stepData k * r.rod_worth) := by
  have hk' : (k : ℚ) ≤ (r.rod_steps : ℚ) := by exact_mod_cast hk
  rw [getPCMat_eq r _ hlen, min_eq_left hk', max_eq_left (Nat.cast_nonneg k),
    interpolate_natCast]

/-- A table all of whose cells read `0` is the constant list. -/
theorem eq_replicate_of_cell (t : List ℚ) (n : ℕ) (hlen : t.length = n)
    (h : ∀ j, cell t j = 0) : t = List.replicate n 0 := by
  rw [List.eq_replicate_iff]
  refine ⟨hlen, ?_⟩
  intro b hb
  obtain ⟨i, hi, rfl⟩ := List.getElem_of_mem hb
  have := h i
  unfold cell at this
  rw [List.getD_eq_getElem?_getD, List.getElem?_eq_getElem hi] at this
  exact this

/-! ## Facts about `moveRodToStep` -/

/-- The effect of a non-forced `moveRodToStep`: the exact position is the
clamped argument, the actual position follows it only when the rod is enabled
and not firing, nothing else changes. -/
theorem moveRodToStep_eq (r : Rod) (p : ℚ) :
    moveRodToStep r p false =
      { r with
        rod_exact_position := max (min p (r.rod_steps : ℚ)) 0
        rod_actual_position :=
          if r.enabled = true ∧ r.fireing = false then max (min p (r.rod_steps : ℚ)) 0
          else r.rod_actual_position } := by
  unfold moveRodToStep
  by_cases h : r.enabled = true ∧ r.fireing = false
  · simp [h]
  · simp [h]

/-- Clamping a position that is already in the domain changes nothing. -/
theorem clamp_of_mem (n : ℕ) (x : ℚ) (h0 : 0 ≤ x) (hn : x ≤ (n : ℚ)) :
    max (min x (n : ℚ)) 0 = x := by
  rw [min_eq_left hn, max_eq_left h0]

/-- Moving a rod to where it already is changes nothing, provided the position
is in the domain and the actual position is already in step whenever it would
be synchronised. -/
theorem moveRodToStep_self (r : Rod) (h0 : 0 ≤ r.rod_exact_position)
    (hn : r.rod_exact_position ≤ (r.rod_steps : ℚ))
    (ha : r.enabled = true → r.fireing = false →
      r.rod_actual_position = r.rod_exact_position) :
    moveRodToStep r r.rod_exact_position false = r := by
  rw [moveRodToStep_eq, clamp_of_mem _ _ h0 hn]
  by_cases h : r.enabled = true ∧ r.fireing = false
  · rw [if_pos h]
    have e := ha h.1 h.2
    cases r
    simp only at e
    simp [e]
  · rw [if_neg h]

/-! ## `refreshRod` block by block -/

/-- The function `refreshRod` is the scram block in the scram branch and the
three other blocks in sequence otherwise. -/
theorem refreshRod_eq_stages (r : Rod) (w : Waveforms) (rodIndex : ℤ) (dt : ℚ) :
    refreshRod r w rodIndex dt =
      if r.scramTime > 0 ∧ rodIndex ≠ 2 then scramStage r dt
      else fireStage (commandStage (simulationStage r w) dt) dt := by
  rfl

/-! ## What the blocks leave untouched -/

/-- A non-forced `moveRodToStep` writes the two positions only. -/
theorem moveRodToStep_frame (r : Rod) (p : ℚ) :
    (moveRodToStep r p false).enabled = r.enabled ∧
    (moveRodToStep r p false).rod_exact_command = r.rod_exact_command ∧
    (moveRodToStep r p false).rod_steps = r.rod_steps ∧
    (moveRodToStep r p false).rod_worth = r.rod_worth ∧
    (moveRodToStep r p false).rod_speed = r.rod_speed ∧
    (moveRodToStep r p false).fireing = r.fireing ∧
    (moveRodToStep r p false).stepData = r.stepData ∧
    (moveRodToStep r p false).derivativeTable = r.derivativeTable ∧
    (moveRodToStep r p false).scramTime = r.scramTime ∧
    (moveRodToStep r p false).timeSinceScram = r.timeSinceScram ∧
    (moveRodToStep r p false).rodCommand = r.rodCommand ∧
    (moveRodToStep r p false).mode = r.mode ∧
    (moveRodToStep r p false).simulationMode = r.simulationMode ∧
    (moveRodToStep r p false).simulationStartPosition = r.simulationStartPosition ∧
    (moveRodToStep r p false).fireTimer = r.fireTimer ∧
    (moveRodToStep r p false).hasData = r.hasData ∧
    (moveRodToStep r p false).maxIndex = r.maxIndex := by
  rw [moveRodToStep_eq]
  simp

/-- A non-forced `moveRodToStep` on a rod that is disabled or firing leaves the
actual position alone. -/
theorem moveRodToStep_actual_of_not_sync (r : Rod) (p : ℚ)
    (h : ¬ (r.enabled = true ∧ r.fireing = false)) :
    (moveRodToStep r p false).rod_actual_position = r.rod_actual_position := by
  rw [moveRodToStep_eq]
  simp only
  rw [if_neg h]

/-- A non-forced `moveRodToStep` on a rod that is enabled and not firing makes
the actual position equal to the new exact position. -/
theorem moveRodToStep_actual_of_sync (r : Rod) (p : ℚ)
    (h : r.enabled = true ∧ r.fireing = false) :
    (moveRodToStep r p false).rod_actual_position
      = (moveRodToStep r p false).rod_exact_position := by
  rw [moveRodToStep_eq]
  simp only
  rw [if_pos h]

/-- The exact position after a non-forced `moveRodToStep`. -/
theorem moveRodToStep_exact (r : Rod) (p : ℚ) :
    (moveRodToStep r p false).rod_exact_position = max (min p (r.rod_steps : ℚ)) 0 := by
  rw [moveRodToStep_eq]

/-- The `switch (mode)` block writes the two positions only. -/
theorem simulationStage_frame (r : Rod) (w : Waveforms) :
    (simulationStage r w).enabled = r.enabled ∧
    (simulationStage r w).rod_exact_command = r.rod_exact_command ∧
    (simulationStage r w).rod_steps = r.rod_steps ∧
    (simulationStage r w).rod_worth = r.rod_worth ∧
    (simulationStage r w).rod_speed = r.rod_speed ∧
    (simulationStage r w).fireing = r.fireing ∧
    (simulationStage r w).stepData = r.stepData ∧
    (simulationStage r w).derivativeTable = r.derivativeTable ∧
    (simulationStage r w).scramTime = r.scramTime ∧
    (simulationStage r w).timeSinceScram = r.timeSinceScram ∧
    (simulationStage r w).rodCommand = r.rodCommand ∧
    (simulationStage r w).mode = r.mode ∧
    (simulationStage r w).simulationMode = r.simulationMode ∧
    (simulationStage r w).simulationStartPosition = r.simulationStartPosition ∧
    (simulationStage r w).fireTimer = r.fireTimer ∧
    (simulationStage r w).hasData = r.hasData ∧
    (simulationStage r w).maxIndex = r.maxIndex := by
  unfold simulationStage
  split
  · simp
  · simp
  · split_ifs
    · exact moveRodToStep_frame r _
    · simp
  · simp

/-- The `switch (mode)` block on a rod that is disabled or firing leaves the
actual position alone. -/
theorem simulationStage_actual_of_not_sync (r : Rod) (w : Waveforms)
    (h : ¬ (r.enabled = true ∧ r.fireing = false)) :
    (simulationStage r w).rod_actual_position = r.rod_actual_position := by
  unfold simulationStage
  split
  · rfl
  · rfl
  · split_ifs
    · exact moveRodToStep_actual_of_not_sync r _ h
    · rfl
  · rfl

/-- The "move the rod" block writes the two positions only. -/
theorem commandStage_frame (r : Rod) (dt : ℚ) :
    (commandStage r dt).enabled = r.enabled ∧
    (commandStage r dt).rod_exact_command = r.rod_exact_command ∧
    (commandStage r dt).rod_steps = r.rod_steps ∧
    (commandStage r dt).rod_worth = r.rod_worth ∧
    (commandStage r dt).rod_speed = r.rod_speed ∧
    (commandStage r dt).fireing = r.fireing ∧
    (commandStage r dt).stepData = r.stepData ∧
    (commandStage r dt).derivativeTable = r.derivativeTable ∧
    (commandStage r dt).scramTime = r.scramTime ∧
    (commandStage r dt).timeSinceScram = r.timeSinceScram ∧
    (commandStage r dt).rodCommand = r.rodCommand ∧
    (commandStage r dt).mode = r.mode ∧
    (commandStage r dt).simulationMode = r.simulationMode ∧
    (commandStage r dt).simulationStartPosition = r.simulationStartPosition ∧
    (commandStage r dt).fireTimer = r.fireTimer ∧
    (commandStage r dt).hasData = r.hasData ∧
    (commandStage r dt).maxIndex = r.maxIndex := by
  unfold commandStage
  split_ifs
  · exact moveRodToStep_frame r _
  · exact moveRodToStep_frame r _
  · exact moveRodToStep_frame r _
  · simp
  · simp

/-- The "move the rod" block on a rod that is disabled or firing leaves the
actual position alone. -/
theorem commandStage_actual_of_not_sync (r : Rod) (dt : ℚ)
    (h : ¬ (r.enabled = true ∧ r.fireing = false)) :
    (commandStage r dt).rod_actual_position = r.rod_actual_position := by
  unfold commandStage
  split_ifs
  · exact moveRodToStep_actual_of_not_sync r _ h
  · exact moveRodToStep_actual_of_not_sync r _ h
  · exact moveRodToStep_actual_of_not_sync r _ h
  · rfl
  · rfl

/-- The `if (fireing)` block does nothing to a rod that is not firing. -/
theorem fireStage_of_not_fireing (r : Rod) (dt : ℚ) (h : r.fireing = false) :
    fireStage r dt = r := by
  unfold fireStage
  rw [if_neg (by simp [h])]

/-- The `if (fireing)` block leaves the exact position, the enabled flag, the
scram timer, the mode and the configuration alone. -/
theorem fireStage_frame (r : Rod) (dt : ℚ) :
    (fireStage r dt).enabled = r.enabled ∧
    (fireStage r dt).rod_exact_position = r.rod_exact_position ∧
    (fireStage r dt).rod_steps = r.rod_steps ∧
    (fireStage r dt).rod_worth = r.rod_worth ∧
    (fireStage r dt).rod_speed = r.rod_speed ∧
    (fireStage r dt).stepData = r.stepData ∧
    (fireStage r dt).derivativeTable = r.derivativeTable ∧
    (fireStage r dt).scramTime = r.scramTime ∧
    (fireStage r dt).timeSinceScram = r.timeSinceScram ∧
    (fireStage r dt).mode = r.mode ∧
    (fireStage r dt).simulationMode = r.simulationMode ∧
    (fireStage r dt).simulationStartPosition = r.simulationStartPosition ∧
    (fireStage r dt).hasData = r.hasData ∧
    (fireStage r dt).maxIndex = r.maxIndex := by
  unfold fireStage clearCommands
  split_ifs <;> simp

/-! ## Facts about the scram branch of `refreshRod` -/

/-- One tick in the scram branch, for a rod that is enabled, not firing and
whose two positions agree inside the domain: both positions go down by
`dt * rod_speed`, not below `0`; reaching `0` disables the rod and ends the
scram. -/
theorem refreshRod_scram_step (r : Rod) (w : Waveforms) (rodIndex : ℤ) (dt : ℚ)
    (hs : r.scramTime > 0) (hri : rodIndex ≠ 2)
    (hen : r.enabled = true) (hf : r.fireing = false)
    (hn : r.rod_exact_position ≤ (r.rod_steps : ℚ))
    (hmove : 0 ≤ dt * r.rod_speed) :
    (refreshRod r w rodIndex dt).rod_exact_position
      = max (r.rod_exact_position - dt * r.rod_speed) 0 ∧
    (refreshRod r w rodIndex dt).rod_actual_position
      = max (r.rod_exact_position - dt * r.rod_speed) 0 ∧
    (refreshRod r w rodIndex dt).rod_steps = r.rod_steps ∧
    (refreshRod r w rodIndex dt).rod_speed = r.rod_speed ∧
    (refreshRod r w rodIndex dt).fireing = false ∧
    (0 < r.rod_exact_position - dt * r.rod_speed →
      (refreshRod r w rodIndex dt).enabled = true ∧
      (refreshRod r w rodIndex dt).scramTime = r.scramTime) ∧
    (r.rod_exact_position - dt * r.rod_speed ≤ 0 →
      (refreshRod r w rodIndex dt).enabled = false ∧
      (refreshRod r w rodIndex dt).scramTime = -1) := by
  have hcl : max (min (max (r.rod_exact_position - dt * r.rod_speed) 0) (r.rod_steps : ℚ)) 0
      = max (r.rod_exact_position - dt * r.rod_speed) 0 := by
    have h1 : max (r.rod_exact_position - dt * r.rod_speed) 0 ≤ (r.rod_steps : ℚ) :=
      max_le (by linarith) (Nat.cast_nonneg _)
    rw [min_eq_left h1, max_eq_left (le_max_right _ _)]
  unfold refreshRod
  rw [if_pos ⟨hs, hri⟩]
  simp only [moveRodToStep_eq, hen, hf, hcl, and_self, if_true]
  by_cases hz : max (r.rod_exact_position - dt * r.rod_speed) 0 = 0
  · have hle : r.rod_exact_position - dt * r.rod_speed ≤ 0 := by
      rw [← hz]
      exact le_max_left _ _
    rw [if_pos ⟨hz, trivial⟩]
    simp only [setEnabled]
    refine ⟨by simp [hz], by simp [hz], by simp, by simp, by simp, ?_, by simp⟩
    intro h
    exact absurd hle (not_le.mpr h)
  · have hpos : 0 < r.rod_exact_position - dt * r.rod_speed := by
      by_contra hcon
      exact hz (max_eq_right (not_lt.mp hcon))
    rw [if_neg (fun h => hz h.1)]
    refine ⟨rfl, rfl, rfl, rfl, rfl, fun _ => ⟨rfl, rfl⟩, ?_⟩
    intro h
    exact absurd h (not_le.mpr hpos)

/-- One tick outside the scram branch of a rod that is disabled and not
firing: the actual position, the flags and the scram timer stay as they are. -/
theorem refreshRod_disabled_idle (r : Rod) (w : Waveforms) (rodIndex : ℤ) (dt : ℚ)
    (hs : ¬ (r.scramTime > 0 ∧ rodIndex ≠ 2))
    (hen : r.enabled = false) (hf : r.fireing = false) :
    (refreshRod r w rodIndex dt).rod_actual_position = r.rod_actual_position ∧
    (refreshRod r w rodIndex dt).enabled = false ∧
    (refreshRod r w rodIndex dt).fireing = false ∧
    (refreshRod r w rodIndex dt).scramTime = r.scramTime ∧
    (refreshRod r w rodIndex dt).rod_steps = r.rod_steps ∧
    (refreshRod r w rodIndex dt).rod_speed = r.rod_speed := by
  have hns : ¬ (r.enabled = true ∧ r.fireing = false) := by simp [hen]
  obtain ⟨a1, -, a3, -, a5, a6, -, -, a9, -, -, -, -, -, -, -, -⟩ := simulationStage_frame r w
  obtain ⟨b1, -, b3, -, b5, b6, -, -, b9, -, -, -, -, -, -, -, -⟩ :=
    commandStage_frame (simulationStage r w) dt
  have hns' : ¬ ((simulationStage r w).enabled = true ∧ (simulationStage r w).fireing = false) := by
    rw [a1, a6]
    exact hns
  rw [refreshRod_eq_stages, if_neg hs, fireStage_of_not_fireing _ _ (by rw [b6, a6]; exact hf)]
  refine ⟨?_, by rw [b1, a1, hen], by rw [b6, a6, hf], by rw [b9, a9], by rw [b3, a3],
    by rw [b5, a5]⟩
  rw [commandStage_actual_of_not_sync _ _ hns', simulationStage_actual_of_not_sync _ _ hns]

/-! ## Facts about the pulse -/

theorem cell_cons_succ (x : ℚ) (t : List ℚ) (i : ℕ) : cell (x :: t) (i + 1) = cell t i := by
  simp [cell, List.getD_eq_getElem?_getD]

theorem cell_cons_zero (x : ℚ) (t : List ℚ) : cell (x :: t) 0 = x := by
  simp [cell, List.getD_eq_getElem?_getD]

/-- The scan stops at the first cell that is not below the value, provided
some cell inside the table is not below it. -/
theorem scanTable_first (t : List ℚ) (v : ℚ) (i0 k : ℕ) (hk : k < t.length)
    (hv : v ≤ cell t k) :
    ∃ j : ℕ, scanTable t v i0 = some (i0 + j) ∧ j ≤ k ∧ v ≤ cell t j ∧
      ∀ i : ℕ, i < j → cell t i < v := by
  induction t generalizing i0 k with
  | nil => simp at hk
  | cons x t ih =>
    by_cases hx : x < v
    · cases k with
      | zero =>
        rw [cell_cons_zero] at hv
        exact absurd hv (not_le.mpr hx)
      | succ k =>
        rw [cell_cons_succ] at hv
        obtain ⟨j, h1, h2, h3, h4⟩ := ih (i0 + 1) k (by simpa using hk) hv
        refine ⟨j + 1, ?_, by omega, by rw [cell_cons_succ]; exact h3, ?_⟩
        · simp only [scanTable, if_pos hx]
          rw [h1]
          congr 1
          omega
        · intro i hi
          cases i with
          | zero => rw [cell_cons_zero]; exact hx
          | succ i => rw [cell_cons_succ]; exact h4 i (by omega)
    · refine ⟨0, ?_, Nat.zero_le _, by rw [cell_cons_zero]; exact not_lt.mp hx, ?_⟩
      · simp [scanTable, hx]
      · intro i hi
        omega

/-- A property kept by every call holds after any sequence of calls. -/
theorem runCalls_invariant (P : Rod → Prop) (rodIndex : ℤ)
    (hstep : ∀ (r : Rod) (c : Call), P r → P (Call.apply rodIndex r c))
    (calls : List Call) (r : Rod) (h : P r) : P (runCalls rodIndex r calls) := by
  induction calls generalizing r with
  | nil => exact h
  | cons c cs ih => exact ih (Call.apply rodIndex r c) (hstep r c h)

/-- A property kept by every call made under the side condition `G` holds
after any sequence of calls that respects `G`. -/
theorem runCalls_invariant_of_respect (P : Rod → Prop) (G : Rod → Call → Prop) (rodIndex : ℤ)
    (hstep : ∀ (r : Rod) (c : Call), P r → G r c → P (Call.apply rodIndex r c))
    (calls : List Call) (r : Rod) (h : P r) (hG : callsRespect G rodIndex r calls) :
    P (runCalls rodIndex r calls) := by
  induction calls generalizing r with
  | nil => exact h
  | cons c cs ih => exact ih (Call.apply rodIndex r c) (hstep r c h hG.1) hG.2

/-- The scram block leaves the mode, the firing state, the command and the
configuration alone. -/
theorem scramStage_frame (r : Rod) (dt : ℚ) :
    (scramStage r dt).rod_steps = r.rod_steps ∧
    (scramStage r dt).rod_speed = r.rod_speed ∧
    (scramStage r dt).mode = r.mode ∧
    (scramStage r dt).simulationStartPosition = r.simulationStartPosition ∧
    (scramStage r dt).simulationMode = r.simulationMode ∧
    (scramStage r dt).fireing = r.fireing ∧
    (scramStage r dt).fireTimer = r.fireTimer ∧
    (scramStage r dt).rodCommand = r.rodCommand ∧
    (scramStage r dt).rod_exact_command = r.rod_exact_command := by
  unfold scramStage
  simp only [moveRodToStep_eq, setEnabled]
  split_ifs <;> simp

/-- A tick leaves the mode and the configuration alone. -/
theorem refreshRod_frame (r : Rod) (w : Waveforms) (rodIndex : ℤ) (dt : ℚ) :
    (refreshRod r w rodIndex dt).rod_steps = r.rod_steps ∧
    (refreshRod r w rodIndex dt).rod_speed = r.rod_speed ∧
    (refreshRod r w rodIndex dt).mode = r.mode ∧
    (refreshRod r w rodIndex dt).simulationStartPosition = r.simulationStartPosition ∧
    (refreshRod r w rodIndex dt).simulationMode = r.simulationMode := by
  rw [refreshRod_eq_stages]
  split_ifs
  · obtain ⟨h1, h2, h3, h4, h5, -⟩ := scramStage_frame r dt
    exact ⟨h1, h2, h3, h4, h5⟩
  · obtain ⟨-, -, a3, -, a5, -, -, -, -, -, -, a12, a13, a14, -, -, -⟩ :=
      simulationStage_frame r w
    obtain ⟨-, -, b3, -, b5, -, -, -, -, -, -, b12, b13, b14, -, -, -⟩ :=
      commandStage_frame (simulationStage r w) dt
    obtain ⟨-, -, c3, -, c5, -, -, -, -, c10, c11, c12, -, -⟩ :=
      fireStage_frame (commandStage (simulationStage r w) dt) dt
    exact ⟨c3.trans (b3.trans a3), c5.trans (b5.trans a5), c10.trans (b12.trans a12),
      c12.trans (b14.trans a14), c11.trans (b13.trans a13)⟩

/-! ## The positions stay in their domain -/

/-- The domain property only looks at the two positions and the step count. -/
theorem positionsInDomain_congr (r r' : Rod)
    (h1 : r'.rod_exact_position = r.rod_exact_position)
    (h2 : r'.rod_actual_position = r.rod_actual_position)
    (h3 : r'.rod_steps = r.rod_steps) (h : positionsInDomain r) : positionsInDomain r' := by
  unfold positionsInDomain at h ⊢
  rw [h1, h2, h3]
  exact h

/-- A non-forced `moveRodToStep` keeps the positions in their domain. -/
theorem moveRodToStep_domain (r : Rod) (p : ℚ) (h : positionsInDomain r) :
    positionsInDomain (moveRodToStep r p false) := by
  obtain ⟨-, -, h3, h4⟩ := h
  obtain ⟨c0, cn⟩ := clamp_bounds r.rod_steps p
  rw [moveRodToStep_eq]
  unfold positionsInDomain
  simp only
  split_ifs
  · exact ⟨c0, cn, c0, cn⟩
  · exact ⟨c0, cn, h3, h4⟩

theorem simulationStage_domain (r : Rod) (w : Waveforms) (h : positionsInDomain r) :
    positionsInDomain (simulationStage r w) := by
  unfold simulationStage
  split
  · exact h
  · exact h
  · split_ifs
    · exact moveRodToStep_domain r _ h
    · exact h
  · exact h

theorem commandStage_domain (r : Rod) (dt : ℚ) (h : positionsInDomain r) :
    positionsInDomain (commandStage r dt) := by
  unfold commandStage
  split_ifs
  · exact moveRodToStep_domain r _ h
  · exact moveRodToStep_domain r _ h
  · exact moveRodToStep_domain r _ h
  · exact h
  · exact h

/-- The `if (fireing)` block keeps the positions in their domain: the ballistic
value it writes is a square times non-negative factors, and it is written only
while it is below the exact position. -/
theorem fireStage_domain (r : Rod) (dt : ℚ) (h : positionsInDomain r) :
    positionsInDomain (fireStage r dt) := by
  obtain ⟨h1, h2, h3, h4⟩ := h
  unfold fireStage
  split_ifs with hf hge
  · unfold clearCommands positionsInDomain
    simp only [ne_eq, not_true_eq_false, false_and, if_false]
    exact ⟨h1, h2, h1, h2⟩
  · unfold positionsInDomain
    simp only
    have hlt := not_le.mp hge
    have hpos : 0 ≤ (r.fireTimer + dt) ^ 2 * fire_acc * 0.5 * (r.rod_steps : ℚ) := by
      unfold fire_acc
      positivity
    exact ⟨h1, h2, hpos, hlt.le.trans h2⟩
  · exact ⟨h1, h2, h3, h4⟩

theorem scramStage_domain (r : Rod) (dt : ℚ) (h : positionsInDomain r) :
    positionsInDomain (scramStage r dt) := by
  have hm := moveRodToStep_domain
    { r with timeSinceScram := min (r.timeSinceScram + dt) r.scramTime }
    (max (r.rod_exact_position - dt * r.rod_speed) 0) h
  unfold scramStage
  simp only
  split_ifs
  · exact positionsInDomain_congr _ _ rfl rfl rfl hm
  · exact hm

/-- A tick keeps the positions in their domain. -/
theorem refreshRod_domain (r : Rod) (w : Waveforms) (rodIndex : ℤ) (dt : ℚ)
    (h : positionsInDomain r) : positionsInDomain (refreshRod r w rodIndex dt) := by
  rw [refreshRod_eq_stages]
  split_ifs
  · exact scramStage_domain r dt h
  · exact fireStage_domain _ dt (commandStage_domain _ dt (simulationStage_domain r w h))

/-- Every call keeps the positions in their domain. -/
theorem apply_domain (rodIndex : ℤ) (r : Rod) (c : Call) (h : positionsInDomain r) :
    positionsInDomain (Call.apply rodIndex r c) := by
  cases c with
  | commandMove d => exact h
  | commandToTop => exact h
  | commandToBottom => exact h
  | clearCommands =>
    simp only [Call.apply, clearCommands]
    split_ifs
    · exact h
    · exact h
  | scramRod =>
    simp only [Call.apply, scramRod, clearCommands]
    split_ifs <;> exact h
  | fire s =>
    simp only [Call.apply, fire, setEnabled]
    split_ifs <;> exact h
  | setEnabled s =>
    simp only [Call.apply, setEnabled]
    split_ifs <;> exact h
  | setRodSpeed v => exact h
  | setOperationMode m =>
    simp only [Call.apply, setOperationMode, clearCommands, setEnabled, setRodSpeed]
    have hm := moveRodToStep_domain r r.simulationStartPosition h
    split_ifs <;> first | exact h | exact hm
  | setSimulationMode m =>
    simp only [Call.apply, setSimulationMode]
    have hm := moveRodToStep_domain r r.simulationStartPosition h
    split_ifs <;> first | exact h | exact hm
  | moveRodToStep p => exact moveRodToStep_domain r p h
  | refreshRod w dt => exact refreshRod_domain r w rodIndex dt h

/-- No call changes the step count. -/
theorem apply_rod_steps (rodIndex : ℤ) (r : Rod) (c : Call) :
    (Call.apply rodIndex r c).rod_steps = r.rod_steps := by
  cases c with
  | commandMove d => rfl
  | commandToTop => rfl
  | commandToBottom => rfl
  | clearCommands =>
    simp only [Call.apply, clearCommands]
    split_ifs <;> rfl
  | scramRod =>
    simp only [Call.apply, scramRod, clearCommands]
    split_ifs <;> rfl
  | fire s =>
    simp only [Call.apply, fire, setEnabled]
    split_ifs <;> rfl
  | setEnabled s =>
    simp only [Call.apply, setEnabled]
    split_ifs <;> rfl
  | setRodSpeed v => rfl
  | setOperationMode m =>
    simp only [Call.apply, setOperationMode, clearCommands, setEnabled, setRodSpeed,
      moveRodToStep_eq]
    split_ifs <;> rfl
  | setSimulationMode m =>
    simp only [Call.apply, setSimulationMode, moveRodToStep_eq]
    split_ifs <;> rfl
  | moveRodToStep p => exact (moveRodToStep_frame r p).2.2.1
  | refreshRod w dt => exact (refreshRod_frame r w rodIndex dt).1

/-! ## Facts about Simulation mode -/

/-- A call that does not leave Simulation mode keeps the mode, the stored
baseline and the step count. -/
theorem apply_staysInSimulation (rodIndex : ℤ) (b : ℚ) (n : ℕ) (r : Rod) (c : Call)
    (h : r.mode = OperationModes.Simulation ∧ r.simulationStartPosition = b ∧ r.rod_steps = n)
    (hc : staysInSimulation r c) :
    (Call.apply rodIndex r c).mode = OperationModes.Simulation ∧
    (Call.apply rodIndex r c).simulationStartPosition = b ∧
    (Call.apply rodIndex r c).rod_steps = n := by
  cases c with
  | commandMove d => exact h
  | commandToTop => exact h
  | commandToBottom => exact h
  | clearCommands =>
    simp only [Call.apply, clearCommands]
    split_ifs <;> exact h
  | scramRod =>
    simp only [Call.apply, scramRod, clearCommands]
    split_ifs <;> exact h
  | fire s =>
    simp only [Call.apply, fire, setEnabled]
    split_ifs <;> exact h
  | setEnabled s =>
    simp only [Call.apply, setEnabled]
    split_ifs <;> exact h
  | setRodSpeed v => exact h
  | setOperationMode m =>
    have hm : m = OperationModes.Simulation := hc
    have hno : ¬ (r.mode ≠ m) := by
      rw [hm, h.1]
      simp
    simp only [Call.apply, setOperationMode]
    rw [if_neg hno]
    exact h
  | setSimulationMode m =>
    simp only [Call.apply, setSimulationMode, moveRodToStep_eq]
    split_ifs <;> exact h
  | moveRodToStep p =>
    simp only [Call.apply, moveRodToStep_eq]
    exact h
  | refreshRod w dt =>
    obtain ⟨f1, -, f3, f4, -⟩ := refreshRod_frame r w rodIndex dt
    exact ⟨f3.trans h.1, f4.trans h.2.1, f1.trans h.2.2⟩

/-- A tick in Simulation mode, outside the scram branch and with a running
waveform, puts the exact position at the clamped sum of the baseline and the
waveform offset. -/
theorem refreshRod_simulation (r : Rod) (w : Waveforms) (rodIndex : ℤ) (dt : ℚ)
    (hm : r.mode = OperationModes.Simulation) (hs : ¬ (r.scramTime > 0 ∧ rodIndex ≠ 2))
    (hp : (getMode w r.simulationMode).paused = false) :
    (refreshRod r w rodIndex dt).rod_exact_position =
      max (min (r.simulationStartPosition + (getMode w r.simulationMode).currentOffset)
        (r.rod_steps : ℚ)) 0 := by
  have hsim : simulationStage r w =
      moveRodToStep r (r.simulationStartPosition + (getMode w r.simulationMode).currentOffset)
        false := by
    unfold simulationStage
    rw [hm]
    simp only
    rw [if_pos hp]
  have hmode : (simulationStage r w).mode = OperationModes.Simulation := by
    rw [(simulationStage_frame r w).2.2.2.2.2.2.2.2.2.2.2.1, hm]
  have hcmd : commandStage (simulationStage r w) dt = simulationStage r w := by
    unfold commandStage
    rw [if_neg]
    rw [hmode]
    simp
  rw [refreshRod_eq_stages, if_neg hs, (fireStage_frame _ _).2.1, hcmd, hsim, moveRodToStep_exact]

/-- Entering Simulation mode stores the current exact position as baseline. -/
theorem setOperationMode_enter_simulation (r : Rod)
    (hm : r.mode ≠ OperationModes.Simulation) :
    (setOperationMode r OperationModes.Simulation).mode = OperationModes.Simulation ∧
    (setOperationMode r OperationModes.Simulation).simulationStartPosition
      = r.rod_exact_position ∧
    (setOperationMode r OperationModes.Simulation).rod_steps = r.rod_steps := by
  unfold setOperationMode
  rw [if_pos hm, if_neg hm]
  simp [clearCommands, setRodSpeed]

/-- Leaving Simulation mode moves the exact position to the clamped baseline. -/
theorem setOperationMode_leave_simulation (r : Rod) (m : OperationModes)
    (hm : r.mode = OperationModes.Simulation) (hne : m ≠ OperationModes.Simulation) :
    (setOperationMode r m).rod_exact_position
      = max (min r.simulationStartPosition (r.rod_steps : ℚ)) 0 := by
  have h1 : r.mode ≠ m := by
    rw [hm]
    exact fun h => hne h.symm
  unfold setOperationMode
  rw [if_pos h1, if_pos hm]
  simp only [moveRodToStep_eq, clearCommands, setEnabled, setRodSpeed]
  split_ifs <;> simp_all

/-! ## Facts about the scram timer and the firing flag -/

/-- The `if (fireing)` block never starts a pulse. -/
theorem fireStage_fireing (r : Rod) (dt : ℚ) (h : (fireStage r dt).fireing = true) :
    r.fireing = true := by
  unfold fireStage at h
  split_ifs at h with hf
  · exact hf
  · exact hf
  · exact h

/-- A tick never starts a pulse, and outside the scram branch it leaves the
scram timer alone. -/
theorem refreshRod_fireing (r : Rod) (w : Waveforms) (rodIndex : ℤ) (dt : ℚ) :
    ((refreshRod r w rodIndex dt).fireing = true → r.fireing = true) ∧
    (¬ (r.scramTime > 0 ∧ rodIndex ≠ 2) →
      (refreshRod r w rodIndex dt).scramTime = r.scramTime) := by
  rw [refreshRod_eq_stages]
  split_ifs with hs
  · refine ⟨?_, fun h => absurd hs h⟩
    intro h
    rw [(scramStage_frame r dt).2.2.2.2.2.1] at h
    exact h
  · obtain ⟨-, -, -, -, -, a6, -, -, a9, -⟩ := simulationStage_frame r w
    obtain ⟨-, -, -, -, -, b6, -, -, b9, -⟩ := commandStage_frame (simulationStage r w) dt
    obtain ⟨-, -, -, -, -, -, -, c8, -⟩ :=
      fireStage_frame (commandStage (simulationStage r w) dt) dt
    refine ⟨?_, fun _ => c8.trans (b9.trans a9)⟩
    intro h
    have := fireStage_fireing _ _ h
    rw [b6, a6] at this
    exact this

/-- The function `scramRod` on a rod whose scram timer is not active. -/
theorem scramRod_of_inactive (r : Rod) (h : r.scramTime ≤ 0) :
    scramRod r =
      { r with rod_exact_command := 0, rodCommand := CommandType.Fixed, scramTime := 0.5 } := by
  unfold scramRod clearCommands
  rw [if_pos h]
  simp

/-- The function `scramRod` on a rod whose scram timer is active. -/
theorem scramRod_of_active (r : Rod) (h : r.scramTime > 0) : scramRod r = r := by
  unfold scramRod
  rw [if_neg (not_le.mpr h)]

/-- The function `fire` leaves the scram timer alone, and the rod fires after it
only if it fired before or the call was `fire(true)` in Pulse mode. -/
theorem fire_frame (r : Rod) (s : Bool) :
    (fire r s).scramTime = r.scramTime ∧
    ((fire r s).fireing = true →
      (s = true ∧ r.mode = OperationModes.Pulse) ∨ r.fireing = true) := by
  cases s with
  | false => simp [fire]
  | true =>
    by_cases hp : r.mode = OperationModes.Pulse
    · simp [fire, setEnabled, hp]
    · by_cases hz : r.rod_exact_command = 0
      · simp [fire, setEnabled, hp, hz]
      · simp [fire, setEnabled, hp, hz]

/-- The calls other than a tick, `fire` and `scramRod` leave the scram timer
and the firing flag alone; `setOperationMode` is among them. -/
theorem apply_scramTime_fireing (rodIndex : ℤ) (r : Rod) (c : Call)
    (h1 : ∀ w dt, c ≠ Call.refreshRod w dt) (h2 : ∀ s, c ≠ Call.fire s)
    (h3 : c ≠ Call.scramRod) :
    (Call.apply rodIndex r c).scramTime = r.scramTime ∧
    (Call.apply rodIndex r c).fireing = r.fireing := by
  cases c with
  | commandMove d => exact ⟨rfl, rfl⟩
  | commandToTop => exact ⟨rfl, rfl⟩
  | commandToBottom => exact ⟨rfl, rfl⟩
  | clearCommands =>
    simp only [Call.apply, clearCommands]
    split_ifs <;> simp
  | scramRod => exact absurd rfl h3
  | fire s => exact absurd rfl (h2 s)
  | setEnabled s =>
    cases s <;> exact ⟨rfl, rfl⟩
  | setRodSpeed v => exact ⟨rfl, rfl⟩
  | setOperationMode m =>
    simp only [Call.apply, setOperationMode, clearCommands, setEnabled, setRodSpeed,
      moveRodToStep_eq]
    split_ifs <;> simp
  | setSimulationMode m =>
    simp only [Call.apply, setSimulationMode, moveRodToStep_eq]
    split_ifs <;> simp
  | moveRodToStep p =>
    simp [Call.apply, moveRodToStep_eq]
  | refreshRod w dt => exact absurd rfl (h1 w dt)

/-- Under the side condition that keeps scram and pulse apart, no call makes
the scram timer active on a firing rod. -/
theorem apply_keepsApart (rodIndex : ℤ) (r : Rod) (c : Call)
    (h : ¬ (r.scramTime > 0 ∧ r.fireing = true)) (hc : keepsScramAndPulseApart r c) :
    ¬ ((Call.apply rodIndex r c).scramTime > 0 ∧ (Call.apply rodIndex r c).fireing = true) := by
  by_cases htick : ∃ w dt, c = Call.refreshRod w dt
  · obtain ⟨w, dt, rfl⟩ := htick
    obtain ⟨f1, f2⟩ := refreshRod_fireing r w rodIndex dt
    rintro ⟨g1, g2⟩
    have hf := f1 g2
    by_cases hs : r.scramTime > 0 ∧ rodIndex ≠ 2
    · exact h ⟨hs.1, hf⟩
    · simp only [Call.apply] at g1
      rw [f2 hs] at g1
      exact h ⟨g1, hf⟩
  · by_cases hfire : ∃ s, c = Call.fire s
    · obtain ⟨s, rfl⟩ := hfire
      obtain ⟨e1, e2⟩ := fire_frame r s
      simp only [Call.apply]
      rintro ⟨g1, g2⟩
      rw [e1] at g1
      rcases e2 g2 with ⟨hs, hp⟩ | hf
      · subst hs
        have hc' : r.mode = OperationModes.Pulse → r.scramTime ≤ 0 := hc
        exact absurd (hc' hp) (not_le.mpr g1)
      · exact h ⟨g1, hf⟩
    · by_cases hscram : c = Call.scramRod
      · subst hscram
        have hc' : r.scramTime ≤ 0 → r.fireing = false := hc
        simp only [Call.apply]
        by_cases a : r.scramTime ≤ 0
        · rw [scramRod_of_inactive r a]
          rintro ⟨-, g2⟩
          have : r.fireing = true := g2
          rw [hc' a] at this
          exact absurd this (by decide)
        · rw [scramRod_of_active r (not_le.mp a)]
          exact h
      · obtain ⟨e1, e2⟩ := apply_scramTime_fireing rodIndex r c
          (fun w dt e => htick ⟨w, dt, e⟩) (fun s e => hfire ⟨s, e⟩) hscram
        rw [e1, e2]
        exact h

/-! ## Facts about the mode of a firing rod -/

/-- Every call other than `setOperationMode` leaves the mode alone. -/
theorem apply_mode (rodIndex : ℤ) (r : Rod) (c : Call)
    (h : ∀ m, c ≠ Call.setOperationMode m) : (Call.apply rodIndex r c).mode = r.mode := by
  cases c with
  | commandMove d => rfl
  | commandToTop => rfl
  | commandToBottom => rfl
  | clearCommands =>
    simp only [Call.apply, clearCommands]
    split_ifs <;> rfl
  | scramRod =>
    simp only [Call.apply, scramRod, clearCommands]
    split_ifs <;> rfl
  | fire s =>
    simp only [Call.apply, fire, setEnabled]
    split_ifs <;> rfl
  | setEnabled s => cases s <;> rfl
  | setRodSpeed v => rfl
  | setOperationMode m => exact absurd rfl (h m)
  | setSimulationMode m =>
    simp only [Call.apply, setSimulationMode, moveRodToStep_eq]
    split_ifs <;> rfl
  | moveRodToStep p => simp [Call.apply, moveRodToStep_eq]
  | refreshRod w dt => exact (refreshRod_frame r w rodIndex dt).2.2.1

/-- Under the side condition that the mode of a firing rod is not changed, a
rod that fires after a call is in Pulse mode if that was so before the call. -/
theorem apply_keepsMode (rodIndex : ℤ) (r : Rod) (c : Call)
    (h : r.fireing = true → r.mode = OperationModes.Pulse)
    (hc : keepsModeWhileFiring r c) :
    (Call.apply rodIndex r c).fireing = true →
      (Call.apply rodIndex r c).mode = OperationModes.Pulse := by
  by_cases hset : ∃ m, c = Call.setOperationMode m
  · obtain ⟨m, rfl⟩ := hset
    have hc' : r.fireing = true → m = r.mode := hc
    obtain ⟨-, e2⟩ := apply_scramTime_fireing rodIndex r (Call.setOperationMode m)
      (fun _ _ e => by cases e) (fun _ e => by cases e) (fun e => by cases e)
    intro hf
    rw [e2] at hf
    have hm := hc' hf
    have hno : ¬ (r.mode ≠ m) := fun hne => hne hm.symm
    simp only [Call.apply, setOperationMode]
    rw [if_neg hno]
    exact h hf
  · have hmode := apply_mode rodIndex r c (fun m e => hset ⟨m, e⟩)
    rw [hmode]
    by_cases htick : ∃ w dt, c = Call.refreshRod w dt
    · obtain ⟨w, dt, rfl⟩ := htick
      intro hf
      exact h ((refreshRod_fireing r w rodIndex dt).1 hf)
    · by_cases hfire : ∃ s, c = Call.fire s
      · obtain ⟨s, rfl⟩ := hfire
        intro hf
        rcases (fire_frame r s).2 hf with ⟨-, hp⟩ | hf'
        · exact hp
        · exact h hf'
      · by_cases hscram : c = Call.scramRod
        · subst hscram
          intro hf
          apply h
          simp only [Call.apply] at hf
          by_cases a : r.scramTime ≤ 0
          · rw [scramRod_of_inactive r a] at hf
            exact hf
          · rw [scramRod_of_active r (not_le.mp a)] at hf
            exact hf
        · obtain ⟨-, e2⟩ := apply_scramTime_fireing rodIndex r c
            (fun w dt e => htick ⟨w, dt, e⟩) (fun s e => hfire ⟨s, e⟩) hscram
          rw [e2]
          exact h

/-! ## Facts about the end of a scram -/

/-- The scram block changes the scram timer only when, after its move, the
actual position is `0` and the rod is enabled; it then disables the rod and
sets the timer to `-1`. -/
theorem scramStage_scramTime (r : Rod) (dt : ℚ)
    (h : (scramStage r dt).scramTime ≠ r.scramTime) :
    r.enabled = true ∧ (scramStage r dt).rod_actual_position = 0 ∧
    (scramStage r dt).enabled = false ∧ (scramStage r dt).scramTime = -1 := by
  have f := moveRodToStep_frame
    { r with timeSinceScram := min (r.timeSinceScram + dt) r.scramTime }
    (max (r.rod_exact_position - dt * r.rod_speed) 0)
  have fen := f.1
  have fsc := f.2.2.2.2.2.2.2.2.1
  unfold scramStage at h ⊢
  simp only at h fen fsc ⊢
  by_cases hc :
      (moveRodToStep { r with timeSinceScram := min (r.timeSinceScram + dt) r.scramTime }
        (max (r.rod_exact_position - dt * r.rod_speed) 0) false).rod_actual_position = 0 ∧
      (moveRodToStep { r with timeSinceScram := min (r.timeSinceScram + dt) r.scramTime }
        (max (r.rod_exact_position - dt * r.rod_speed) 0) false).enabled = true
  · rw [if_pos hc]
    refine ⟨fen ▸ hc.2, ?_, ?_, rfl⟩
    · simp only [setEnabled]
      exact hc.1
    · simp [setEnabled]
  · rw [if_neg hc] at h
    exact absurd fsc h

/-- A tick changes the scram timer only in the scram branch of a non-exempt
rod, when after the move the actual position is `0` and the rod is enabled. -/
theorem refreshRod_scramTime (r : Rod) (w : Waveforms) (rodIndex : ℤ) (dt : ℚ)
    (h : (refreshRod r w rodIndex dt).scramTime ≠ r.scramTime) :
    r.scramTime > 0 ∧ rodIndex ≠ 2 ∧ r.enabled = true ∧
    (refreshRod r w rodIndex dt).rod_actual_position = 0 ∧
    (refreshRod r w rodIndex dt).enabled = false ∧
    (refreshRod r w rodIndex dt).scramTime = -1 := by
  by_cases hs : r.scramTime > 0 ∧ rodIndex ≠ 2
  · rw [refreshRod_eq_stages, if_pos hs] at h ⊢
    obtain ⟨a, b, c, d⟩ := scramStage_scramTime r dt h
    exact ⟨hs.1, hs.2, a, b, c, d⟩
  · exact absurd ((refreshRod_fireing r w rodIndex dt).2 hs) h

/-! ## The blocks outside the scram branch do not read the scram timers -/

theorem moveRodToStep_scramTimers (r : Rod) (p s t : ℚ) :
    moveRodToStep { r with scramTime := s, timeSinceScram := t } p false
      = { moveRodToStep r p false with scramTime := s, timeSinceScram := t } := by
  rw [moveRodToStep_eq, moveRodToStep_eq]

theorem simulationStage_scramTimers (r : Rod) (w : Waveforms) (s t : ℚ) :
    simulationStage { r with scramTime := s, timeSinceScram := t } w
      = { simulationStage r w with scramTime := s, timeSinceScram := t } := by
  unfold simulationStage
  simp only [moveRodToStep_scramTimers]
  split <;> first | rfl | (split_ifs <;> rfl)

theorem commandStage_scramTimers (r : Rod) (dt s t : ℚ) :
    commandStage { r with scramTime := s, timeSinceScram := t } dt
      = { commandStage r dt with scramTime := s, timeSinceScram := t } := by
  have hl : localCommand { r with scramTime := s, timeSinceScram := t } = localCommand r := rfl
  unfold commandStage
  simp only [moveRodToStep_scramTimers, hl]
  split_ifs <;> rfl

theorem fireStage_scramTimers (r : Rod) (dt s t : ℚ) :
    fireStage { r with scramTime := s, timeSinceScram := t } dt
      = { fireStage r dt with scramTime := s, timeSinceScram := t } := by
  unfold fireStage clearCommands
  simp only
  split_ifs <;> rfl

/-- For the exempt rod a tick commutes with any change of the two scram
timers. -/
theorem refreshRod_exempt_scramTimers (r : Rod) (w : Waveforms) (dt s t : ℚ) :
    refreshRod { r with scramTime := s, timeSinceScram := t } w 2 dt
      = { refreshRod r w 2 dt with scramTime := s, timeSinceScram := t } := by
  have h2 : ∀ x : ℚ, ¬ (x > 0 ∧ (2 : ℤ) ≠ 2) := fun x h => h.2 rfl
  rw [refreshRod_eq_stages, refreshRod_eq_stages, if_neg (h2 _), if_neg (h2 _),
    simulationStage_scramTimers, commandStage_scramTimers, fireStage_scramTimers]

/-! ## Facts about the two inverse lookups -/

/-- The value of `getPosFromPcm` once the scan has stopped at an index inside
the table. -/
theorem getPosFromPcm_of_scan (r : Rod) (v : ℚ) (j : ℕ)
    (hscan : scanTable r.stepData (max 0 (min v r.rod_worth) / r.rod_worth) 0 = some j)
    (hj : j < r.stepData.length) :
    getPosFromPcm r v =
      if cell r.stepData j = max 0 (min v r.rod_worth) / r.rod_worth then some (j : ℚ)
      else if j = 0 then none
      else
        some (((j : ℚ) - 1)
            * ((cell r.stepData j - max 0 (min v r.rod_worth) / r.rod_worth)
                / (cell r.stepData j - cell r.stepData (j - 1)))
          + (j : ℚ)
            * (1 - (cell r.stepData j - max 0 (min v r.rod_worth) / r.rod_worth)
                / (cell r.stepData j - cell r.stepData (j - 1)))) := by
  unfold getPosFromPcm
  simp only [hscan]
  rw [getElem?_eq_cell _ _ hj]
  simp only
  split_ifs with h1 h2
  · rfl
  · rfl
  · rw [getElem?_eq_cell _ _ (by omega : j - 1 < r.stepData.length)]

/-- The value of `getPositionAtPcm` strictly inside the range, once the scan
has stopped at an index inside the table. -/
theorem getPositionAtPcm_of_scan (r : Rod) (v : ℚ) (j : ℕ)
    (h0 : 0 < v / r.rod_worth) (h1 : v / r.rod_worth < 1)
    (hscan : scanTable r.stepData (v / r.rod_worth) 0 = some j)
    (hj : j < r.stepData.length) :
    getPositionAtPcm r v =
      if cell r.stepData j = v / r.rod_worth then some (j : ℚ)
      else if j = 0 then none
      else
        some ((v / r.rod_worth - cell r.stepData (j - 1))
            / (cell r.stepData j - cell r.stepData (j - 1)) + (j : ℚ) - 1) := by
  unfold getPositionAtPcm
  simp only
  rw [if_neg (not_le.mpr h1), if_neg (not_le.mpr h0)]
  simp only [hscan]
  rw [getElem?_eq_cell _ _ hj]
  simp only
  split_ifs with h1 h2
  · rfl
  · rfl
  · rw [getElem?_eq_cell _ _ (by omega : j - 1 < r.stepData.length)]

/-- The normalised value of `getPosFromPcm` lies in `[0, 1]`. -/
theorem normalised_bounds (v w : ℚ) (hw : 0 < w) :
    0 ≤ max 0 (min v w) / w ∧ max 0 (min v w) / w ≤ 1 := by
  constructor
  · exact div_nonneg (le_max_left _ _) hw.le
  · rw [div_le_one hw]
    exact max_le hw.le (min_le_right _ _)

/-- A linear blend of `i - 1` and `i` with a weight in `[0, 1]` lies between
them. -/
theorem blend_bounds (i a : ℚ) (ha0 : 0 ≤ a) (ha1 : a ≤ 1) :
    i - 1 ≤ (i - 1) * a + i * (1 - a) ∧ (i - 1) * a + i * (1 - a) ≤ i := by
  constructor <;> nlinarith

/-- On a table with `n + 1` cells whose first cell is `0` and whose last cell
is not below the value `x ≥ 0`, the scan stops at an index `i ≤ n`, the first
one whose cell is not below `x`; if that cell is not `x` itself, then `i ≥ 1`
and `x` lies strictly between the cells `i - 1` and `i`. -/
theorem scan_bracket (t : List ℚ) (n : ℕ) (x : ℚ) (hlen : t.length = n + 1)
    (hfirst : cell t 0 = 0) (hlast : x ≤ cell t n) (hx0 : 0 ≤ x) :
    ∃ i : ℕ, scanTable t x 0 = some i ∧ i ≤ n ∧ x ≤ cell t i ∧
      (∀ j : ℕ, j < i → cell t j < x) ∧
      (cell t i ≠ x → 1 ≤ i ∧ cell t (i - 1) < x ∧ x < cell t i) := by
  obtain ⟨i, hscan, hin, hxi, hmin⟩ := scanTable_first t x 0 n (by omega) hlast
  rw [Nat.zero_add] at hscan
  refine ⟨i, hscan, hin, hxi, hmin, ?_⟩
  intro hne
  have hlt : x < cell t i := lt_of_le_of_ne hxi (Ne.symm hne)
  have hi : 1 ≤ i := by
    by_contra hcon
    have h0 : i = 0 := by omega
    rw [h0, hfirst] at hlt
    exact absurd hx0 (not_le.mpr hlt)
  exact ⟨hi, hmin (i - 1) (by omega), hlt⟩

/-! ## The lookups on a strictly increasing table -/

/-- The function `pow2` is the integer power of two. -/
theorem pow2_eq (k : ℤ) : pow2 k = (2 : ℚ) ^ k := by
  unfold pow2
  split_ifs with h
  · rw [Nat.cast_pow, Nat.cast_ofNat, ← zpow_natCast, Int.toNat_of_nonneg h]
  · have h' : 0 ≤ -k := by omega
    rw [Nat.cast_pow, Nat.cast_ofNat, ← zpow_natCast, Int.toNat_of_nonneg h', zpow_neg,
      one_div, inv_inv]

/-- Powers of two are positive. -/
theorem pow2_pos (k : ℤ) : 0 < pow2 k := by
  rw [pow2_eq]
  exact zpow_pos (by norm_num) k

/-- With enough fuel `halvings` is the integer logarithm to base two. -/
theorem halvings_spec : ∀ (fuel n : ℕ), 1 ≤ n → n ≤ fuel →
    2 ^ halvings fuel n ≤ n ∧ n < 2 ^ (halvings fuel n + 1)
  | 0, n, h1, h2 => by omega
  | fuel + 1, n, h1, h2 => by
    unfold halvings
    split_ifs with h
    · have : n = 1 := by omega
      subst this
      simp
    · obtain ⟨a, b⟩ := halvings_spec fuel (n / 2) (by omega) (by omega)
      constructor
      · rw [pow_succ]
        exact (Nat.le_div_iff_mul_le (by norm_num)).mp a
      · rw [pow_succ]
        exact (Nat.div_lt_iff_lt_mul (by norm_num)).mp b

/-- The absolute value of a rational as the quotient of two naturals. -/
theorem abs_eq_natAbs_div (x : ℚ) : |x| = (x.num.natAbs : ℚ) / (x.den : ℚ) := by
  have h : |x| = |(x.num : ℚ)| / (x.den : ℚ) := by
    conv_lhs => rw [← Rat.num_div_den x]
    rw [abs_div, abs_of_pos (by exact_mod_cast x.den_pos : (0 : ℚ) < (x.den : ℚ))]
  rw [h, Nat.cast_natAbs, Int.cast_abs]

/-- The binary exponent brackets the absolute value between two consecutive
powers of two. -/
theorem binade_spec (x : ℚ) (hx : x ≠ 0) :
    (2 : ℚ) ^ binade x ≤ |x| ∧ |x| < (2 : ℚ) ^ (binade x + 1) := by
  have ha1 : 1 ≤ x.num.natAbs := by
    have : x.num ≠ 0 := Rat.num_ne_zero.mpr hx
    omega
  have hb1 : 1 ≤ x.den := x.den_pos
  obtain ⟨a1, a2⟩ := halvings_spec x.num.natAbs x.num.natAbs ha1 (le_refl _)
  obtain ⟨b1, b2⟩ := halvings_spec x.den x.den hb1 (le_refl _)
  have a1' : (2 : ℚ) ^ (halvings x.num.natAbs x.num.natAbs : ℤ) ≤ (x.num.natAbs : ℚ) := by
    rw [zpow_natCast]
    exact_mod_cast a1
  have a2' : (x.num.natAbs : ℚ) < (2 : ℚ) ^ ((halvings x.num.natAbs x.num.natAbs : ℤ) + 1) := by
    have : ((halvings x.num.natAbs x.num.natAbs : ℤ) + 1)
        = ((halvings x.num.natAbs x.num.natAbs + 1 : ℕ) : ℤ) := by push_cast; ring
    rw [this, zpow_natCast]
    exact_mod_cast a2
  have b1' : (2 : ℚ) ^ (halvings x.den x.den : ℤ) ≤ (x.den : ℚ) := by
    rw [zpow_natCast]
    exact_mod_cast b1
  have b2' : (x.den : ℚ) < (2 : ℚ) ^ ((halvings x.den x.den : ℤ) + 1) := by
    have : ((halvings x.den x.den : ℤ) + 1) = ((halvings x.den x.den + 1 : ℕ) : ℤ) := by
      push_cast; ring
    rw [this, zpow_natCast]
    exact_mod_cast b2
  have hbpos : (0 : ℚ) < (x.den : ℚ) := by exact_mod_cast x.den_pos
  have h2 : (2 : ℚ) ≠ 0 := by norm_num
  have hp : ∀ k : ℤ, (0 : ℚ) < (2 : ℚ) ^ k := fun k => zpow_pos (by norm_num) k
  -- the quotient lies strictly between 2^(k-1) and 2^(k+1)
  have hup : |x| < (2 : ℚ) ^ ((halvings x.num.natAbs x.num.natAbs : ℤ)
      - (halvings x.den x.den : ℤ) + 1) := by
    rw [abs_eq_natAbs_div, div_lt_iff₀ hbpos]
    have e : (2 : ℚ) ^ ((halvings x.num.natAbs x.num.natAbs : ℤ)
        - (halvings x.den x.den : ℤ) + 1)
        = (2 : ℚ) ^ ((halvings x.num.natAbs x.num.natAbs : ℤ) + 1)
          / (2 : ℚ) ^ (halvings x.den x.den : ℤ) := by
      rw [← zpow_sub₀ h2]
      congr 1
      ring
    rw [e, div_mul_eq_mul_div, lt_div_iff₀ (hp _)]
    calc (x.num.natAbs : ℚ) * (2 : ℚ) ^ (halvings x.den x.den : ℤ)
        ≤ (x.num.natAbs : ℚ) * (x.den : ℚ) :=
          mul_le_mul_of_nonneg_left b1' (Nat.cast_nonneg _)
      _ < (2 : ℚ) ^ ((halvings x.num.natAbs x.num.natAbs : ℤ) + 1) * (x.den : ℚ) :=
          mul_lt_mul_of_pos_right a2' hbpos
  have hlow : (2 : ℚ) ^ ((halvings x.num.natAbs x.num.natAbs : ℤ)
      - (halvings x.den x.den : ℤ) - 1) ≤ |x| := by
    rw [abs_eq_natAbs_div, le_div_iff₀ hbpos]
    have e : (2 : ℚ) ^ ((halvings x.num.natAbs x.num.natAbs : ℤ)
        - (halvings x.den x.den : ℤ) - 1)
        = (2 : ℚ) ^ (halvings x.num.natAbs x.num.natAbs : ℤ)
          / (2 : ℚ) ^ ((halvings x.den x.den : ℤ) + 1) := by
      rw [← zpow_sub₀ h2]
      congr 1
      ring
    rw [e, div_mul_eq_mul_div, div_le_iff₀ (hp _)]
    calc (2 : ℚ) ^ (halvings x.num.natAbs x.num.natAbs : ℤ) * (x.den : ℚ)
        ≤ (x.num.natAbs : ℚ) * (x.den : ℚ) :=
          mul_le_mul_of_nonneg_right a1' hbpos.le
      _ ≤ (x.num.natAbs : ℚ) * (2 : ℚ) ^ ((halvings x.den x.den : ℤ) + 1) :=
          mul_le_mul_of_nonneg_left b2'.le (Nat.cast_nonneg _)
  unfold binade
  split_ifs with h
  · rw [pow2_eq] at h
    exact ⟨h, hup⟩
  · rw [pow2_eq] at h
    refine ⟨hlow, ?_⟩
    rw [sub_add_cancel]
    exact not_le.mp h

/-- The binary exponent is the only integer whose power of two brackets the
absolute value. -/
theorem binade_unique (x : ℚ) (hx : x ≠ 0) (e : ℤ) (h1 : (2 : ℚ) ^ e ≤ |x|)
    (h2 : |x| < (2 : ℚ) ^ (e + 1)) : binade x = e := by
  obtain ⟨s1, s2⟩ := binade_spec x hx
  have l1 : binade x < e + 1 :=
    (zpow_lt_zpow_iff_right₀ (by norm_num : (1 : ℚ) < 2)).mp (lt_of_le_of_lt s1 h2)
  have l2 : e < binade x + 1 :=
    (zpow_lt_zpow_iff_right₀ (by norm_num : (1 : ℚ) < 2)).mp (lt_of_le_of_lt h1 s2)
  omega

/-- On positive rationals the binary exponent is monotone. -/
theorem binade_mono (x y : ℚ) (hx : 0 < x) (hxy : x ≤ y) : binade x ≤ binade y := by
  obtain ⟨s1, -⟩ := binade_spec x hx.ne'
  obtain ⟨-, t2⟩ := binade_spec y (hx.trans_le hxy).ne'
  rw [abs_of_pos hx] at s1
  rw [abs_of_pos (hx.trans_le hxy)] at t2
  have : binade x < binade y + 1 :=
    (zpow_lt_zpow_iff_right₀ (by norm_num : (1 : ℚ) < 2)).mp
      (lt_of_le_of_lt (s1.trans hxy) t2)
  omega

/-- The rounding to the nearest integer is the floor or the floor plus one. -/
theorem roundHalfEven_cases (q : ℚ) :
    (roundHalfEven q = ⌊q⌋ ∧ q - (⌊q⌋ : ℚ) ≤ 1 / 2) ∨
    (roundHalfEven q = ⌊q⌋ + 1 ∧ 1 / 2 ≤ q - (⌊q⌋ : ℚ)) := by
  unfold roundHalfEven
  split_ifs with h1 h2 h3
  · exact Or.inl ⟨rfl, h1.le⟩
  · exact Or.inr ⟨rfl, h2.le⟩
  · exact Or.inl ⟨rfl, not_lt.mp h2⟩
  · exact Or.inr ⟨rfl, not_lt.mp h1⟩

/-- Rounding to the nearest integer moves a number by at most one half. -/
theorem roundHalfEven_le (q : ℚ) : (roundHalfEven q : ℚ) ≤ q + 1 / 2 := by
  rcases roundHalfEven_cases q with ⟨e, -⟩ | ⟨e, h⟩
  · rw [e]
    have := Int.floor_le q
    linarith
  · rw [e]
    push_cast
    linarith

/-- Rounding to the nearest integer moves a number down by at most one half. -/
theorem roundHalfEven_ge (q : ℚ) : q - 1 / 2 ≤ (roundHalfEven q : ℚ) := by
  rcases roundHalfEven_cases q with ⟨e, h⟩ | ⟨e, -⟩
  · rw [e]
    linarith
  · rw [e]
    push_cast
    have := Int.lt_floor_add_one q
    linarith

/-- An integer rounds to itself. -/
theorem roundHalfEven_intCast (z : ℤ) : roundHalfEven (z : ℚ) = z := by
  unfold roundHalfEven
  rw [Int.floor_intCast, sub_self, if_pos (by norm_num)]

/-- Rounding to the nearest integer is monotone. -/
theorem roundHalfEven_mono (q q' : ℚ) (h : q ≤ q') : roundHalfEven q ≤ roundHalfEven q' := by
  have hf : ⌊q⌋ ≤ ⌊q'⌋ := Int.floor_mono h
  rcases lt_or_eq_of_le hf with hlt | heq
  · rcases roundHalfEven_cases q with ⟨e, -⟩ | ⟨e, -⟩ <;>
      rcases roundHalfEven_cases q' with ⟨e', -⟩ | ⟨e', -⟩ <;> omega
  · unfold roundHalfEven
    rw [← heq]
    split_ifs <;> first | omega | (exfalso; linarith)

/-- A non-negative number rounds to a non-negative integer. -/
theorem roundHalfEven_nonneg (q : ℚ) (h : 0 ≤ q) : 0 ≤ roundHalfEven q := by
  have := roundHalfEven_mono 0 q h
  rwa [show (0 : ℚ) = ((0 : ℤ) : ℚ) by simp, roundHalfEven_intCast] at this

/-- A non-positive number rounds to a non-positive integer. -/
theorem roundHalfEven_nonpos (q : ℚ) (h : q ≤ 0) : roundHalfEven q ≤ 0 := by
  have := roundHalfEven_mono q 0 h
  rwa [show (0 : ℚ) = ((0 : ℤ) : ℚ) by simp, roundHalfEven_intCast] at this

/-- Zero rounds to zero. -/
theorem roundTo_zero (p : ℕ) (emin : ℤ) : roundTo p emin 0 = 0 := by
  unfold roundTo
  rw [if_pos rfl]

/-- A non-negative number rounds to a non-negative one. -/
theorem roundTo_nonneg (p : ℕ) (emin : ℤ) (x : ℚ) (h : 0 ≤ x) : 0 ≤ roundTo p emin x := by
  unfold roundTo
  split_ifs
  · exact le_refl _
  · apply mul_nonneg _ (pow2_pos _).le
    exact_mod_cast roundHalfEven_nonneg _ (div_nonneg h (pow2_pos _).le)

/-- A non-positive number rounds to a non-positive one. -/
theorem roundTo_nonpos (p : ℕ) (emin : ℤ) (x : ℚ) (h : x ≤ 0) : roundTo p emin x ≤ 0 := by
  unfold roundTo
  split_ifs
  · exact le_refl _
  · apply mul_nonpos_of_nonpos_of_nonneg _ (pow2_pos _).le
    exact_mod_cast roundHalfEven_nonpos _ (div_nonpos_of_nonpos_of_nonneg h (pow2_pos _).le)

/-- A number that is an integer multiple of its own unit in the last place is
representable: it rounds to itself. -/
theorem roundTo_of_multiple (p : ℕ) (emin : ℤ) (x : ℚ) (z : ℤ)
    (h : x / pow2 (max (binade x) emin - ((p : ℤ) - 1)) = (z : ℚ)) :
    roundTo p emin x = x := by
  unfold roundTo
  split_ifs with h0
  · exact h0.symm
  · rw [h, roundHalfEven_intCast, ← h, div_mul_cancel₀ _ (pow2_pos _).ne']

/-- A positive number rounds to at most the next power of two above it. -/
theorem roundTo_le_pow (p : ℕ) (emin : ℤ) (x : ℚ) (hx : 0 < x) :
    roundTo p emin x ≤ (2 : ℚ) ^ (max (binade x) emin + 1) := by
  have h2 : (2 : ℚ) ≠ 0 := by norm_num
  obtain ⟨-, s2⟩ := binade_spec x hx.ne'
  rw [abs_of_pos hx] at s2
  have hxE : x ≤ (2 : ℚ) ^ (max (binade x) emin + 1) :=
    s2.le.trans (zpow_le_zpow_right₀ (by norm_num) (by omega))
  have hU := pow2_pos (max (binade x) emin - ((p : ℤ) - 1))
  have hsplit : (2 : ℚ) ^ (max (binade x) emin + 1)
      = (((2 ^ p : ℕ) : ℤ) : ℚ) * pow2 (max (binade x) emin - ((p : ℤ) - 1)) := by
    rw [pow2_eq]
    push_cast
    rw [← zpow_natCast, ← zpow_add₀ h2]
    congr 1
    ring
  unfold roundTo
  rw [if_neg hx.ne', hsplit]
  apply mul_le_mul_of_nonneg_right _ hU.le
  have hq : x / pow2 (max (binade x) emin - ((p : ℤ) - 1)) ≤ (((2 ^ p : ℕ) : ℤ) : ℚ) := by
    rw [div_le_iff₀ hU, ← hsplit]
    exact hxE
  have := roundHalfEven_mono _ _ hq
  rw [roundHalfEven_intCast] at this
  exact_mod_cast this

/-- A positive number in the normal range rounds to at least the power of two
below it. -/
theorem pow_le_roundTo (p : ℕ) (emin : ℤ) (x : ℚ) (hp : 1 ≤ p) (hx : 0 < x)
    (he : emin ≤ binade x) : (2 : ℚ) ^ binade x ≤ roundTo p emin x := by
  have h2 : (2 : ℚ) ≠ 0 := by norm_num
  obtain ⟨s1, -⟩ := binade_spec x hx.ne'
  rw [abs_of_pos hx] at s1
  have hU := pow2_pos (max (binade x) emin - ((p : ℤ) - 1))
  have hsplit : (2 : ℚ) ^ binade x
      = (((2 ^ (p - 1) : ℕ) : ℤ) : ℚ) * pow2 (max (binade x) emin - ((p : ℤ) - 1)) := by
    rw [pow2_eq, max_eq_left he]
    push_cast
    rw [← zpow_natCast, ← zpow_add₀ h2]
    congr 1
    rw [Nat.cast_sub hp]
    push_cast
    ring
  unfold roundTo
  rw [if_neg hx.ne']
  conv_lhs => rw [hsplit]
  apply mul_le_mul_of_nonneg_right _ hU.le
  have hq : (((2 ^ (p - 1) : ℕ) : ℤ) : ℚ) ≤ x / pow2 (max (binade x) emin - ((p : ℤ) - 1)) := by
    rw [le_div_iff₀ hU, ← hsplit]
    exact s1
  have := roundHalfEven_mono _ _ hq
  rw [roundHalfEven_intCast] at this
  exact_mod_cast this

/-- On non-negative numbers the rounding is monotone. -/
theorem roundTo_mono (p : ℕ) (emin : ℤ) (x y : ℚ) (hp : 1 ≤ p) (hx : 0 ≤ x) (hxy : x ≤ y) :
    roundTo p emin x ≤ roundTo p emin y := by
  rcases hx.eq_or_lt with h0 | hpos
  · rw [← h0, roundTo_zero]
    exact roundTo_nonneg _ _ _ (hx.trans hxy)
  · have hy : 0 < y := hpos.trans_le hxy
    have hb := binade_mono x y hpos hxy
    rcases lt_or_eq_of_le (max_le_max_right emin hb) with hlt | heq
    · have he : emin ≤ binade y := by
        by_contra hcon
        rw [max_eq_right (by omega : binade y ≤ emin)] at hlt
        have := le_max_right (binade x) emin
        omega
      have hEy : max (binade y) emin = binade y := max_eq_left he
      calc roundTo p emin x ≤ (2 : ℚ) ^ (max (binade x) emin + 1) := roundTo_le_pow p emin x hpos
        _ ≤ (2 : ℚ) ^ binade y := zpow_le_zpow_right₀ (by norm_num) (by omega)
        _ ≤ roundTo p emin y := pow_le_roundTo p emin y hp hy he
    · unfold roundTo
      rw [if_neg hpos.ne', if_neg hy.ne', heq]
      apply mul_le_mul_of_nonneg_right _ (pow2_pos _).le
      exact_mod_cast roundHalfEven_mono _ _
        (div_le_div_of_nonneg_right hxy (pow2_pos _).le)

/-- A non-negative number rounds to a representable one: rounding the result
again changes nothing. -/
theorem roundTo_idem (p : ℕ) (emin : ℤ) (x : ℚ) (hp : 1 ≤ p) (hx : 0 ≤ x) :
    roundTo p emin (roundTo p emin x) = roundTo p emin x := by
  have h2 : (2 : ℚ) ≠ 0 := by norm_num
  rcases hx.eq_or_lt with h0 | hpos
  · rw [← h0, roundTo_zero, roundTo_zero]
  · rcases (roundTo_nonneg p emin x hx).eq_or_lt with hz | hypos
    · rw [← hz, roundTo_zero]
    · have hup := roundTo_le_pow p emin x hpos
      have hdef : roundTo p emin x
          = (roundHalfEven (x / pow2 (max (binade x) emin - ((p : ℤ) - 1))) : ℚ)
            * pow2 (max (binade x) emin - ((p : ℤ) - 1)) := by
        unfold roundTo
        rw [if_neg hpos.ne']
      rcases hup.eq_or_lt with htop | hlt
      · -- the result is the power of two that opens the next binade
        have hb : binade (roundTo p emin x) = max (binade x) emin + 1 := by
          apply binade_unique _ hypos.ne'
          · rw [abs_of_pos hypos, htop]
          · rw [abs_of_pos hypos, htop]
            exact zpow_lt_zpow_right₀ (by norm_num) (by omega)
        apply roundTo_of_multiple p emin _ ((2 ^ (p - 1) : ℕ) : ℤ)
        rw [hb, max_eq_left (by have := le_max_right (binade x) emin; omega), pow2_eq, htop,
          ← zpow_sub₀ h2]
        push_cast
        rw [← zpow_natCast]
        congr 1
        rw [Nat.cast_sub hp]
        push_cast
        ring
      · -- the result stays in the binade of `x` or below
        obtain ⟨t1, -⟩ := binade_spec _ hypos.ne'
        rw [abs_of_pos hypos] at t1
        have hble : binade (roundTo p emin x) < max (binade x) emin + 1 :=
          (zpow_lt_zpow_iff_right₀ (by norm_num : (1 : ℚ) < 2)).mp (lt_of_le_of_lt t1 hlt)
        have hE : max (binade (roundTo p emin x)) emin ≤ max (binade x) emin :=
          max_le (by omega) (le_max_right _ _)
        obtain ⟨d, hd⟩ := Int.eq_ofNat_of_zero_le (sub_nonneg.mpr hE)
        apply roundTo_of_multiple p emin _
          (roundHalfEven (x / pow2 (max (binade x) emin - ((p : ℤ) - 1))) * ((2 ^ d : ℕ) : ℤ))
        generalize max (binade (roundTo p emin x)) emin = E' at hd
        rw [hdef, mul_div_assoc, pow2_eq, pow2_eq, ← zpow_sub₀ h2]
        push_cast
        rw [← zpow_natCast, ← hd]
        congr 2
        ring

/-- Rounding a positive number adds at most half a unit in the last place. -/
theorem roundTo_le_add (p : ℕ) (emin : ℤ) (x : ℚ) (hx : 0 < x) :
    roundTo p emin x ≤ x + pow2 (max (binade x) emin - ((p : ℤ) - 1)) / 2 := by
  have hU := pow2_pos (max (binade x) emin - ((p : ℤ) - 1))
  unfold roundTo
  rw [if_neg hx.ne']
  have := mul_le_mul_of_nonneg_right
    (roundHalfEven_le (x / pow2 (max (binade x) emin - ((p : ℤ) - 1)))) hU.le
  rw [add_mul, div_mul_cancel₀ _ hU.ne'] at this
  linarith

/-- Rounding a positive number takes away at most half a unit in the last
place. -/
theorem roundTo_ge_sub (p : ℕ) (emin : ℤ) (x : ℚ) (hx : 0 < x) :
    x - pow2 (max (binade x) emin - ((p : ℤ) - 1)) / 2 ≤ roundTo p emin x := by
  have hU := pow2_pos (max (binade x) emin - ((p : ℤ) - 1))
  unfold roundTo
  rw [if_neg hx.ne']
  have := mul_le_mul_of_nonneg_right
    (roundHalfEven_ge (x / pow2 (max (binade x) emin - ((p : ℤ) - 1)))) hU.le
  rw [sub_mul, div_mul_cancel₀ _ hU.ne'] at this
  linarith

/-- The conversion to `float` keeps the sign of a non-negative number. -/
theorem toFloat_nonneg (x : ℚ) (h : 0 ≤ x) : 0 ≤ toFloat x := roundTo_nonneg 24 (-126) x h

/-- The conversion to `float` keeps the sign of a non-positive number. -/
theorem toFloat_nonpos (x : ℚ) (h : x ≤ 0) : toFloat x ≤ 0 := roundTo_nonpos 24 (-126) x h

/-- The conversion to `float` is monotone on non-negative numbers. -/
theorem toFloat_mono (x y : ℚ) (hx : 0 ≤ x) (hxy : x ≤ y) : toFloat x ≤ toFloat y :=
  roundTo_mono 24 (-126) x y (by norm_num) hx hxy

/-- The conversion to `float` of a non-negative number is a `float`. -/
theorem toFloat_idem (x : ℚ) (hx : 0 ≤ x) : toFloat (toFloat x) = toFloat x :=
  roundTo_idem 24 (-126) x (by norm_num) hx

/-- The conversion to `double` keeps the sign of a non-negative number. -/
theorem toDouble_nonneg (x : ℚ) (h : 0 ≤ x) : 0 ≤ toDouble x := roundTo_nonneg 53 (-1022) x h

/-- Zero is a `float`. -/
theorem toFloat_zero : toFloat 0 = 0 := roundTo_zero 24 (-126)

/-- A difference of a `float` and a non-negative number rounds to at most that
`float`. -/
theorem toFloat_sub_le (x m : ℚ) (hx : 0 ≤ x) (hrep : toFloat x = x) (hm : 0 ≤ m) :
    toFloat (x - m) ≤ x := by
  rcases le_or_lt (x - m) 0 with h | h
  · exact (toFloat_nonpos _ h).trans hx
  · have := toFloat_mono (x - m) x h.le (by linarith)
    rwa [hrep] at this

/-- A sum of a `float` and a non-negative number rounds to at least that
`float`. -/
theorem le_toFloat_add (x m : ℚ) (hx : 0 ≤ x) (hrep : toFloat x = x) (hm : 0 ≤ m) :
    x ≤ toFloat (x + m) := by
  have := toFloat_mono x (x + m) hx (by linarith)
  rwa [hrep] at this

/-- Half a unit in the last place of a positive `float`-range number below a
bound `B ≥ 1` is at most `B / 2 ^ 24`. -/
theorem half_ulp_le (y B : ℚ) (hy : 0 < y) (hB : y ≤ B) (h1 : 1 ≤ B) :
    pow2 (max (binade y) (-126) - (((24 : ℕ) : ℤ) - 1)) / 2 ≤ B / 2 ^ 24 := by
  have h2 : (2 : ℚ) ≠ 0 := by norm_num
  rw [pow2_eq]
  rcases le_total (-126) (binade y) with he | he
  · rw [max_eq_left he]
    obtain ⟨s1, -⟩ := binade_spec y hy.ne'
    rw [abs_of_pos hy] at s1
    have e : (2 : ℚ) ^ (binade y - (((24 : ℕ) : ℤ) - 1)) / 2 = (2 : ℚ) ^ binade y / 2 ^ 24 := by
      rw [zpow_sub₀ h2]
      norm_num
      ring
    rw [e]
    exact div_le_div_of_nonneg_right (s1.trans hB) (by positivity)
  · rw [max_eq_right he]
    have e : (2 : ℚ) ^ ((-126 : ℤ) - (((24 : ℕ) : ℤ) - 1)) / 2 ≤ 1 / 2 ^ 24 := by
      norm_num
    exact e.trans (div_le_div_of_nonneg_right h1 (by positivity))

/-- The conversion to `float` of a positive number below a bound `B ≥ 1` adds
at most `B / 2 ^ 24`. -/
theorem toFloat_le_add (y B : ℚ) (hy : 0 < y) (hB : y ≤ B) (h1 : 1 ≤ B) :
    toFloat y ≤ y + B / 2 ^ 24 := by
  have h := roundTo_le_add 24 (-126) y hy
  have hu := half_ulp_le y B hy hB h1
  unfold toFloat
  linarith

/-- The conversion to `float` of a positive number below a bound `B ≥ 1` takes
away at most `B / 2 ^ 24`. -/
theorem toFloat_ge_sub (y B : ℚ) (hy : 0 < y) (hB : y ≤ B) (h1 : 1 ≤ B) :
    y - B / 2 ^ 24 ≤ toFloat y := by
  have h := roundTo_ge_sub 24 (-126) y hy
  have hu := half_ulp_le y B hy hB h1
  unfold toFloat
  linarith

/-- A step count up to `2 ^ 24` is a `float`: the cast `(float)rod_steps` is
exact. -/
theorem toFloat_natCast (n : ℕ) (h : n ≤ 2 ^ 24) : toFloat (n : ℚ) = (n : ℚ) := by
  have h2 : (2 : ℚ) ≠ 0 := by norm_num
  rcases Nat.eq_zero_or_pos n with h0 | hpos
  · rw [h0, Nat.cast_zero, toFloat_zero]
  · have hq : (0 : ℚ) < (n : ℚ) := by exact_mod_cast hpos
    obtain ⟨s1, s2⟩ := binade_spec (n : ℚ) hq.ne'
    rw [abs_of_pos hq] at s1 s2
    have hle : (n : ℚ) ≤ (2 : ℚ) ^ (24 : ℤ) := by
      have e : (2 : ℚ) ^ (24 : ℤ) = ((2 ^ 24 : ℕ) : ℚ) := by norm_num
      rw [e]
      exact_mod_cast h
    have hge : (2 : ℚ) ^ (0 : ℤ) ≤ (n : ℚ) := by
      rw [zpow_zero]
      exact_mod_cast hpos
    have hb0 : 0 ≤ binade (n : ℚ) := by
      have : (0 : ℤ) < binade (n : ℚ) + 1 :=
        (zpow_lt_zpow_iff_right₀ (by norm_num : (1 : ℚ) < 2)).mp (lt_of_le_of_lt hge s2)
      omega
    have hb24 : binade (n : ℚ) ≤ 24 :=
      (zpow_le_zpow_iff_right₀ (by norm_num : (1 : ℚ) < 2)).mp (s1.trans hle)
    have hE : max (binade (n : ℚ)) (-126) = binade (n : ℚ) := max_eq_left (by omega)
    unfold toFloat
    rcases lt_or_eq_of_le hb24 with hlt | heq
    · obtain ⟨d, hd⟩ := Int.eq_ofNat_of_zero_le (by omega : 0 ≤ 23 - binade (n : ℚ))
      apply roundTo_of_multiple 24 (-126) _ ((n : ℤ) * ((2 ^ d : ℕ) : ℤ))
      rw [hE, pow2_eq]
      push_cast
      rw [← zpow_natCast, ← hd, div_eq_mul_inv, ← zpow_neg]
      congr 2
      ring
    · have hn : (n : ℚ) = (2 : ℚ) ^ (24 : ℤ) := by
        rw [heq] at s1
        exact le_antisymm hle s1
      apply roundTo_of_multiple 24 (-126) _ ((2 ^ 23 : ℕ) : ℤ)
      rw [hE, pow2_eq, heq, hn, ← zpow_sub₀ h2]
      norm_num

/-! ## `Binary32.refreshRod` block by block -/

/-- The function `Binary32.refreshRod` is the scram block in the scram branch
and the three other blocks in sequence otherwise. -/
theorem binary_refreshRod_eq_stages (r : Rod) (w : Waveforms) (rodIndex : ℤ) (dt : ℚ) :
    Binary32.refreshRod r w rodIndex dt =
      if r.scramTime > 0 ∧ rodIndex ≠ 2 then Binary32.scramStage r dt
      else Binary32.fireStage (Binary32.commandStage (Binary32.simulationStage r w) dt) dt := by
  rfl

/-- The `switch (mode)` block in binary32 leaves the flags, the scram timer,
the command and the configuration alone. -/
theorem binary_simulationStage_frame (r : Rod) (w : Waveforms) :
    (Binary32.simulationStage r w).enabled = r.enabled ∧
    (Binary32.simulationStage r w).rod_exact_command = r.rod_exact_command ∧
    (Binary32.simulationStage r w).rod_steps = r.rod_steps ∧
    (Binary32.simulationStage r w).rod_speed = r.rod_speed ∧
    (Binary32.simulationStage r w).fireing = r.fireing ∧
    (Binary32.simulationStage r w).scramTime = r.scramTime ∧
    (Binary32.simulationStage r w).rodCommand = r.rodCommand ∧
    (Binary32.simulationStage r w).mode = r.mode := by
  unfold Binary32.simulationStage
  split
  · simp
  · simp
  · split_ifs
    · obtain ⟨a1, a2, a3, -, a5, a6, -, -, a9, -, a11, a12, -⟩ := moveRodToStep_frame r
        (toFloat (r.simulationStartPosition + (getMode w r.simulationMode).currentOffset))
      exact ⟨a1, a2, a3, a5, a6, a9, a11, a12⟩
    · simp
  · simp

/-- The `switch (mode)` block in binary32 on a rod that is disabled or firing
leaves the actual position alone. -/
theorem binary_simulationStage_actual (r : Rod) (w : Waveforms)
    (h : ¬ (r.enabled = true ∧ r.fireing = false)) :
    (Binary32.simulationStage r w).rod_actual_position = r.rod_actual_position := by
  unfold Binary32.simulationStage
  split
  · rfl
  · rfl
  · split_ifs
    · exact moveRodToStep_actual_of_not_sync r _ h
    · rfl
  · rfl

/-- The "move the rod" block in binary32 leaves the flags, the scram timer,
the command and the configuration alone. -/
theorem binary_commandStage_frame (r : Rod) (dt : ℚ) :
    (Binary32.commandStage r dt).enabled = r.enabled ∧
    (Binary32.commandStage r dt).rod_exact_command = r.rod_exact_command ∧
    (Binary32.commandStage r dt).rod_steps = r.rod_steps ∧
    (Binary32.commandStage r dt).rod_speed = r.rod_speed ∧
    (Binary32.commandStage r dt).fireing = r.fireing ∧
    (Binary32.commandStage r dt).scramTime = r.scramTime ∧
    (Binary32.commandStage r dt).rodCommand = r.rodCommand ∧
    (Binary32.commandStage r dt).mode = r.mode := by
  have key : ∀ p : ℚ,
      (moveRodToStep r p false).enabled = r.enabled ∧
      (moveRodToStep r p false).rod_exact_command = r.rod_exact_command ∧
      (moveRodToStep r p false).rod_steps = r.rod_steps ∧
      (moveRodToStep r p false).rod_speed = r.rod_speed ∧
      (moveRodToStep r p false).fireing = r.fireing ∧
      (moveRodToStep r p false).scramTime = r.scramTime ∧
      (moveRodToStep r p false).rodCommand = r.rodCommand ∧
      (moveRodToStep r p false).mode = r.mode := by
    intro p
    obtain ⟨a1, a2, a3, -, a5, a6, -, -, a9, -, a11, a12, -⟩ := moveRodToStep_frame r p
    exact ⟨a1, a2, a3, a5, a6, a9, a11, a12⟩
  unfold Binary32.commandStage
  split_ifs
  · exact key _
  · exact key _
  · exact key _
  · simp
  · simp

/-- The "move the rod" block in binary32 on a rod that is disabled or firing
leaves the actual position alone. -/
theorem binary_commandStage_actual (r : Rod) (dt : ℚ)
    (h : ¬ (r.enabled = true ∧ r.fireing = false)) :
    (Binary32.commandStage r dt).rod_actual_position = r.rod_actual_position := by
  unfold Binary32.commandStage
  split_ifs
  · exact moveRodToStep_actual_of_not_sync r _ h
  · exact moveRodToStep_actual_of_not_sync r _ h
  · exact moveRodToStep_actual_of_not_sync r _ h
  · rfl
  · rfl

/-- The `if (fireing)` block in binary32 does nothing to a rod that is not
firing. -/
theorem binary_fireStage_of_not_fireing (r : Rod) (dt : ℚ) (h : r.fireing = false) :
    Binary32.fireStage r dt = r := by
  unfold Binary32.fireStage
  rw [if_neg (by simp [h])]

/-- One tick in binary32 in the scram branch, for a rod that is enabled, not
firing and whose exact position is a `float` in the domain: both positions
become `max (toFloat (x - rod_move)) 0`; reaching `0` disables the rod and ends
the scram. -/
theorem binary_scram_step (r : Rod) (w : Waveforms) (rodIndex : ℤ) (dt : ℚ)
    (hs : r.scramTime > 0) (hri : rodIndex ≠ 2)
    (hen : r.enabled = true) (hf : r.fireing = false)
    (h0 : 0 ≤ r.rod_exact_position) (hn : r.rod_exact_position ≤ (r.rod_steps : ℚ))
    (hrep : toFloat r.rod_exact_position = r.rod_exact_position)
    (hmove : 0 ≤ dt * r.rod_speed) :
    (Binary32.refreshRod r w rodIndex dt).rod_exact_position
      = max (toFloat (r.rod_exact_position - toFloat (toDouble (dt * r.rod_speed)))) 0 ∧
    (Binary32.refreshRod r w rodIndex dt).rod_actual_position
      = max (toFloat (r.rod_exact_position - toFloat (toDouble (dt * r.rod_speed)))) 0 ∧
    (Binary32.refreshRod r w rodIndex dt).rod_steps = r.rod_steps ∧
    (Binary32.refreshRod r w rodIndex dt).rod_speed = r.rod_speed ∧
    (Binary32.refreshRod r w rodIndex dt).fireing = false ∧
    (0 < toFloat (r.rod_exact_position - toFloat (toDouble (dt * r.rod_speed))) →
      (Binary32.refreshRod r w rodIndex dt).enabled = true ∧
      (Binary32.refreshRod r w rodIndex dt).scramTime = r.scramTime) ∧
    (toFloat (r.rod_exact_position - toFloat (toDouble (dt * r.rod_speed))) ≤ 0 →
      (Binary32.refreshRod r w rodIndex dt).enabled = false ∧
      (Binary32.refreshRod r w rodIndex dt).scramTime = -1) := by
  have hm : 0 ≤ toFloat (toDouble (dt * r.rod_speed)) :=
    toFloat_nonneg _ (toDouble_nonneg _ hmove)
  have hle := toFloat_sub_le r.rod_exact_position _ h0 hrep hm
  have hcl : max (min (max (toFloat (r.rod_exact_position
        - toFloat (toDouble (dt * r.rod_speed)))) 0) (r.rod_steps : ℚ)) 0
      = max (toFloat (r.rod_exact_position - toFloat (toDouble (dt * r.rod_speed)))) 0 := by
    have h1 : max (toFloat (r.rod_exact_position - toFloat (toDouble (dt * r.rod_speed)))) 0
        ≤ (r.rod_steps : ℚ) := max_le (hle.trans hn) (Nat.cast_nonneg _)
    rw [min_eq_left h1, max_eq_left (le_max_right _ _)]
  unfold Binary32.refreshRod
  rw [if_pos ⟨hs, hri⟩]
  simp only [moveRodToStep_eq, hen, hf, hcl, and_self, if_true]
  generalize toFloat (r.rod_exact_position - toFloat (toDouble (dt * r.rod_speed))) = y
  by_cases hz : max y 0 = 0
  · have hle0 : y ≤ 0 := by
      rw [← hz]
      exact le_max_left _ _
    rw [if_pos ⟨hz, trivial⟩]
    simp only [setEnabled]
    refine ⟨by simp [hz], by simp [hz], by simp, by simp, by simp, ?_, by simp⟩
    intro h
    exact absurd hle0 (not_le.mpr h)
  · have hpos : 0 < y := by
      by_contra hcon
      exact hz (max_eq_right (not_lt.mp hcon))
    rw [if_neg (fun h => hz h.1)]
    refine ⟨rfl, rfl, rfl, rfl, rfl, fun _ => ⟨rfl, rfl⟩, ?_⟩
    intro h
    exact absurd h (not_le.mpr hpos)

/-- One tick in binary32 outside the scram branch of a rod that is disabled and
not firing: the actual position, the flags and the scram timer stay as they
are. -/
theorem binary_disabled_idle (r : Rod) (w : Waveforms) (rodIndex : ℤ) (dt : ℚ)
    (hs : ¬ (r.scramTime > 0 ∧ rodIndex ≠ 2))
    (hen : r.enabled = false) (hf : r.fireing = false) :
    (Binary32.refreshRod r w rodIndex dt).rod_actual_position = r.rod_actual_position ∧
    (Binary32.refreshRod r w rodIndex dt).enabled = false ∧
    (Binary32.refreshRod r w rodIndex dt).fireing = false ∧
    (Binary32.refreshRod r w rodIndex dt).scramTime = r.scramTime ∧
    (Binary32.refreshRod r w rodIndex dt).rod_steps = r.rod_steps ∧
    (Binary32.refreshRod r w rodIndex dt).rod_speed = r.rod_speed := by
  have hns : ¬ (r.enabled = true ∧ r.fireing = false) := by simp [hen]
  obtain ⟨a1, -, a3, a5, a6, a9, -, -⟩ := binary_simulationStage_frame r w
  obtain ⟨b1, -, b3, b5, b6, b9, -, -⟩ :=
    binary_commandStage_frame (Binary32.simulationStage r w) dt
  have hns' : ¬ ((Binary32.simulationStage r w).enabled = true
      ∧ (Binary32.simulationStage r w).fireing = false) := by
    rw [a1, a6]
    exact hns
  rw [binary_refreshRod_eq_stages, if_neg hs,
    binary_fireStage_of_not_fireing _ _ (by rw [b6, a6]; exact hf)]
  refine ⟨?_, by rw [b1, a1, hen], by rw [b6, a6, hf], by rw [b9, a9], by rw [b3, a3],
    by rw [b5, a5]⟩
  rw [binary_commandStage_actual _ _ hns', binary_simulationStage_actual _ _ hns]

/-! ## The descent of a scrammed rod in binary32 -/

/-- The state in binary32 during and after a scram started at full height.
After `k` ticks the rod is either still scramming, enabled, with both positions
at the same positive `float`, which lies between
`rod_steps - k * (rod_move + rod_steps / 2 ^ 24)` and
`rod_steps - k * (rod_move - rod_steps / 2 ^ 24)`, or the scram has ended and
the rod is disabled with the actual position `0`. -/
theorem binary_scram_descent (r : Rod) (w : ℕ → Waveforms) (rodIndex : ℤ) (dt : ℚ)
    (hri : rodIndex ≠ 2) (hen : r.enabled = true) (hf : r.fireing = false)
    (hsc : r.scramTime ≤ 0)
    (hx : r.rod_exact_position = (r.rod_steps : ℚ))
    (ha : r.rod_actual_position = (r.rod_steps : ℚ))
    (hS : 0 < r.rod_speed) (hdt : 0 < dt) (hN : 0 < r.rod_steps)
    (hrep : toFloat (r.rod_steps : ℚ) = (r.rod_steps : ℚ)) (k : ℕ) :
    (Binary32.ticks rodIndex dt w k (scramRod r)).rod_steps = r.rod_steps ∧
    (Binary32.ticks rodIndex dt w k (scramRod r)).rod_speed = r.rod_speed ∧
    (Binary32.ticks rodIndex dt w k (scramRod r)).fireing = false ∧
    (((Binary32.ticks rodIndex dt w k (scramRod r)).scramTime > 0 ∧
      (Binary32.ticks rodIndex dt w k (scramRod r)).enabled = true ∧
      (Binary32.ticks rodIndex dt w k (scramRod r)).rod_actual_position
        = (Binary32.ticks rodIndex dt w k (scramRod r)).rod_exact_position ∧
      0 < (Binary32.ticks rodIndex dt w k (scramRod r)).rod_exact_position ∧
      (Binary32.ticks rodIndex dt w k (scramRod r)).rod_exact_position ≤ (r.rod_steps : ℚ) ∧
      toFloat (Binary32.ticks rodIndex dt w k (scramRod r)).rod_exact_position
        = (Binary32.ticks rodIndex dt w k (scramRod r)).rod_exact_position ∧
      (Binary32.ticks rodIndex dt w k (scramRod r)).rod_exact_position
        ≤ (r.rod_steps : ℚ)
          - (k : ℚ) * (toFloat (toDouble (dt * r.rod_speed)) - (r.rod_steps : ℚ) / 2 ^ 24) ∧
      (r.rod_steps : ℚ)
          - (k : ℚ) * (toFloat (toDouble (dt * r.rod_speed)) + (r.rod_steps : ℚ) / 2 ^ 24)
        ≤ (Binary32.ticks rodIndex dt w k (scramRod r)).rod_exact_position) ∨
     ((Binary32.ticks rodIndex dt w k (scramRod r)).scramTime ≤ 0 ∧
      (Binary32.ticks rodIndex dt w k (scramRod r)).enabled = false ∧
      (Binary32.ticks rodIndex dt w k (scramRod r)).rod_actual_position = 0)) := by
  have hNq : (0 : ℚ) < (r.rod_steps : ℚ) := by exact_mod_cast hN
  have hN1 : (1 : ℚ) ≤ (r.rod_steps : ℚ) := by exact_mod_cast hN
  have hmv : 0 < dt * r.rod_speed := mul_pos hdt hS
  have hm : 0 ≤ toFloat (toDouble (dt * r.rod_speed)) :=
    toFloat_nonneg _ (toDouble_nonneg _ hmv.le)
  induction k with
  | zero =>
    rw [scramRod_of_inactive r hsc]
    simp only [Binary32.ticks]
    refine ⟨trivial, trivial, hf, Or.inl ⟨by norm_num, hen, by rw [ha, hx], ?_, ?_, ?_, ?_, ?_⟩⟩
    · rw [hx]
      exact hNq
    · rw [hx]
    · rw [hx]
      exact hrep
    · rw [hx]
      simp
    · rw [hx]
      simp
  | succ k ih =>
    obtain ⟨i1, i2, i3, i4⟩ := ih
    simp only [Binary32.ticks]
    rcases i4 with ⟨j1, j2, j3, j4, j5, j6, j7, j8⟩ | ⟨j1, j2, j3⟩
    · obtain ⟨s1, s2, s3, s4, s5, s6, s7⟩ :=
        binary_scram_step (Binary32.ticks rodIndex dt w k (scramRod r)) (w k) rodIndex dt
          j1 hri j2 i3 j4.le (by rw [i1]; exact j5) j6 (by rw [i2]; exact hmv.le)
      rw [i2] at s1 s2 s6 s7
      refine ⟨s3.trans i1, s4.trans i2, s5, ?_⟩
      rcases le_or_lt (toFloat ((Binary32.ticks rodIndex dt w k (scramRod r)).rod_exact_position
          - toFloat (toDouble (dt * r.rod_speed)))) 0 with hle | hpos
      · obtain ⟨t1, t2⟩ := s7 hle
        exact Or.inr ⟨by rw [t2]; norm_num, t1, by rw [s2, max_eq_right hle]⟩
      · obtain ⟨t1, t2⟩ := s6 hpos
        have hz : 0 < (Binary32.ticks rodIndex dt w k (scramRod r)).rod_exact_position
            - toFloat (toDouble (dt * r.rod_speed)) := by
          by_contra hcon
          exact absurd (toFloat_nonpos _ (not_lt.mp hcon)) (not_le.mpr hpos)
        have hzN : (Binary32.ticks rodIndex dt w k (scramRod r)).rod_exact_position
            - toFloat (toDouble (dt * r.rod_speed)) ≤ (r.rod_steps : ℚ) := by linarith
        have hb := toFloat_le_add _ _ hz hzN hN1
        have hb' := toFloat_ge_sub _ _ hz hzN hN1
        have hle' := toFloat_sub_le _ _ j4.le j6 hm
        refine Or.inl ⟨by rw [t2]; exact j1, t1, by rw [s1, s2], ?_, ?_, ?_, ?_, ?_⟩
        · rw [s1, max_eq_left hpos.le]
          exact hpos
        · rw [s1, max_eq_left hpos.le]
          exact hle'.trans j5
        · rw [s1, max_eq_left hpos.le]
          exact toFloat_idem _ hz.le
        · rw [s1, max_eq_left hpos.le]
          push_cast
          linarith
        · rw [s1, max_eq_left hpos.le]
          push_cast
          linarith
    · have hns : ¬ ((Binary32.ticks rodIndex dt w k (scramRod r)).scramTime > 0
          ∧ rodIndex ≠ 2) := fun h => absurd j1 (not_le.mpr h.1)
      obtain ⟨d1, d2, d3, d4, d5, d6⟩ :=
        binary_disabled_idle (Binary32.ticks rodIndex dt w k (scramRod r)) (w k) rodIndex dt
          hns j2 i3
      exact ⟨d5.trans i1, d6.trans i2, d3, Or.inr ⟨by rw [d4]; exact j1, d2, by rw [d1, j3]⟩⟩

/-! ## Facts about the two inverse lookups in binary32 -/

/-- C1, the claim as stated fails: with `rodIndex = 2`, two steps and a rod
worth of `100` the built table decreases from `stepData[0] = 0` to
`stepData[1] < 0`. -/
theorem recalculateStepData_not_monotone :
    cell (recalculateStepData 2 (newRod 2 100 10)).stepData 1
      < cell (recalculateStepData 2 (newRod 2 100 10)).stepData 0 := by
  rw [recalculateStepData_cell, recalculateStepData_cell]
  norm_num [newRod, resetRod, reactivity]

/-- C1 (amended): every table built by `recalculateStepData` has exactly
`rod_steps + 1` samples and `stepData[0] = 0`, for any `rodIndex`, `rod_steps`
and `rod_worth`.  It is non-decreasing when `rodIndex` is `0` or `1` with
`rod_worth > 0` and `rod_steps ≤ 37967`, when `rodIndex` is `2` with
`8785.4697265625 ≤ rod_worth ≤ 100000` and `rod_steps ≤ 100000`, and when
`rodIndex` is none of `0, 1, 2` (the table is then constantly `0`).

Beyond `37967` steps the first sample of the polynomial fit is negative.  For
`rodIndex = 2` the least worth is the `float` nearest to the default worth
`8785.47016144056`; the two upper bounds are not sharp for the rational reading
of the fit, they are kept where consecutive samples differ by far more than the
rounding of the source's `float` evaluation, which stops resolving them at a
few hundred thousand steps or at worths of a few millions. -/
theorem recalculateStepData_table (rodIndex : ℤ) (r : Rod) :
    (recalculateStepData rodIndex r).stepData.length = r.rod_steps + 1 ∧
    (recalculateStepData rodIndex r).stepData[0]? = some 0 ∧
    ((((rodIndex = 0 ∨ rodIndex = 1) ∧ 0 < r.rod_worth ∧ r.rod_steps ≤ 37967) ∨
      (rodIndex = 2 ∧ 8785.4697265625 ≤ r.rod_worth ∧ r.rod_worth ≤ 100000
        ∧ r.rod_steps ≤ 100000) ∨
      (rodIndex ≠ 0 ∧ rodIndex ≠ 1 ∧ rodIndex ≠ 2)) →
      ∀ i : ℕ, 1 ≤ i → i ≤ r.rod_steps →
        cell (recalculateStepData rodIndex r).stepData (i - 1)
          ≤ cell (recalculateStepData rodIndex r).stepData i) := by
  have hlen := (recalculateStepData_length rodIndex r).1
  refine ⟨hlen, ?_, ?_⟩
  · rw [getElem?_eq_cell _ _ (by omega), recalculateStepData_cell]
    simp
  · intro hcond i hi1 hin
    have hn0 : (0 : ℚ) < (r.rod_steps : ℚ) := by exact_mod_cast (by omega : 0 < r.rod_steps)
    have hi : (i : ℚ) ≤ (r.rod_steps : ℚ) := by exact_mod_cast hin
    have hx1 : (i : ℚ) * (1 / (r.rod_steps : ℚ)) ≤ 1 := by
      rw [mul_one_div, div_le_one hn0]
      exact hi
    have hci := recalculateStepData_cell rodIndex r i
    have hcp := recalculateStepData_cell rodIndex r (i - 1)
    rw [if_pos ⟨hi1, hin⟩] at hci
    rw [hci, hcp]
    by_cases hi2 : 1 ≤ i - 1 ∧ i - 1 ≤ r.rod_steps
    · rw [if_pos hi2]
      have hcast : ((i - 1 : ℕ) : ℚ) = (i : ℚ) - 1 := by
        rw [Nat.cast_sub hi1]
        simp
      have hx0 : (0 : ℚ) ≤ ((i - 1 : ℕ) : ℚ) * (1 / (r.rod_steps : ℚ)) := by positivity
      have hstep : ((i - 1 : ℕ) : ℚ) * (1 / (r.rod_steps : ℚ)) + 1 / (r.rod_steps : ℚ)
          = (i : ℚ) * (1 / (r.rod_steps : ℚ)) := by
        rw [hcast]
        ring
      rcases hcond with ⟨hri, hw, -⟩ | ⟨hri, hw, -, hn⟩ | ⟨h0, h1, h2⟩
      · have hlt : ((i - 1 : ℕ) : ℚ) * (1 / (r.rod_steps : ℚ))
            ≤ (i : ℚ) * (1 / (r.rod_steps : ℚ)) := by
          rw [← hstep]
          have : (0 : ℚ) ≤ 1 / (r.rod_steps : ℚ) := by positivity
          linarith
        simp only [reactivity, if_pos hri]
        exact div_le_div_of_nonneg_right (rodPolynomial_mono _ _ hx0 hlt hx1) hw.le
      · subst hri
        have hw0 : (0 : ℚ) < r.rod_worth := lt_of_lt_of_le (by norm_num) hw
        have hn' : (r.rod_steps : ℚ) ≤ 10 ^ 13 := by
          have : (r.rod_steps : ℚ) ≤ 100000 := by exact_mod_cast hn
          linarith
        have hgap : (1 : ℚ) / 10 ^ 13 ≤ 1 / (r.rod_steps : ℚ) :=
          one_div_le_one_div_of_le hn0 hn'
        rw [reactivity_two, reactivity_two]
        apply div_le_div_of_nonneg_right _ hw0.le
        have hy : ((i - 1 : ℕ) : ℚ) * (1 / (r.rod_steps : ℚ)) + 1 / 10 ^ 13
            ≤ (i : ℚ) * (1 / (r.rod_steps : ℚ)) := by
          rw [← hstep]
          linarith
        have := shim_mono (((i - 1 : ℕ) : ℚ) * (1 / (r.rod_steps : ℚ)))
          ((i : ℚ) * (1 / (r.rod_steps : ℚ))) hx1 hy
        linarith
      · simp [reactivity, h0, h1, h2]
    · rw [if_neg hi2]
      have hi' : i = 1 := by omega
      subst hi'
      rcases hcond with ⟨hri, hw, hn⟩ | ⟨hri, hw, -, hn⟩ | ⟨h0, h1, h2⟩
      · simp only [reactivity, if_pos hri]
        exact div_nonneg (by exact_mod_cast rodPolynomial_first_nonneg _ hin hn) hw.le
      · subst hri
        have hw0 : (0 : ℚ) < r.rod_worth := lt_of_lt_of_le (by norm_num) hw
        have hn' : (r.rod_steps : ℚ) ≤ 100000 := by exact_mod_cast hn
        have hx0 : (1 : ℚ) / 100000 ≤ ((1 : ℕ) : ℚ) * (1 / (r.rod_steps : ℚ)) := by
          rw [Nat.cast_one, one_mul]
          exact one_div_le_one_div_of_le hn0 hn'
        rw [reactivity_two]
        apply div_nonneg _ hw0.le
        have := shim_lower_first _ hx0 hx1
        linarith
      · simp [reactivity, h0, h1, h2]

/-- C1 (amended), at concrete rods: the default safety rod (`rodIndex = 0`,
worth `165.273`) with four steps, and the shim rod (`rodIndex = 2`) with four
steps and the `float` nearest to its default worth. -/
theorem recalculateStepData_table_witness :
    ((recalculateStepData 0 (newRod 4 165.273 1000)).stepData.length = 4 + 1 ∧
    (recalculateStepData 0 (newRod 4 165.273 1000)).stepData[0]? = some 0 ∧
    ∀ i : ℕ, 1 ≤ i → i ≤ 4 →
      cell (recalculateStepData 0 (newRod 4 165.273 1000)).stepData (i - 1)
        ≤ cell (recalculateStepData 0 (newRod 4 165.273 1000)).stepData i) ∧
    ∀ i : ℕ, 1 ≤ i → i ≤ 4 →
      cell (recalculateStepData 2 (newRod 4 8785.4697265625 22)).stepData (i - 1)
        ≤ cell (recalculateStepData 2 (newRod 4 8785.4697265625 22)).stepData i :=
  ⟨⟨(recalculateStepData_table 0 (newRod 4 165.273 1000)).1,
    (recalculateStepData_table 0 (newRod 4 165.273 1000)).2.1,
    (recalculateStepData_table 0 (newRod 4 165.273 1000)).2.2
      (Or.inl ⟨Or.inl rfl, by norm_num [newRod, resetRod], by norm_num [newRod, resetRod]⟩)⟩,
   (recalculateStepData_table 2 (newRod 4 8785.4697265625 22)).2.2
     (Or.inr (Or.inl ⟨rfl, by norm_num [newRod, resetRod], by norm_num [newRod, resetRod],
       by norm_num [newRod, resetRod]⟩))⟩

/-! ## C2: the slope table -/

/-- C2, the claim as stated fails: for the default safety rod with a single
step the slope entry is `(stepData[1] - stepData[0]) * 10 = 10`, not
`(stepData[1] - stepData[0]) * rod_steps = 1`. -/
theorem derivativeTable_not_scaled_by_rod_steps :
    cell (recalculateStepData 0 (newRod 1 165.273 1000)).derivativeTable 1 = 10 ∧
    (cell (recalculateStepData 0 (newRod 1 165.273 1000)).stepData 1
      - cell (recalculateStepData 0 (newRod 1 165.273 1000)).stepData 0)
        * (((newRod 1 165.273 1000).rod_steps : ℕ) : ℚ) = 1 := by
  rw [recalculateStepData_derivative, recalculateStepData_cell, recalculateStepData_cell]
  norm_num [newRod, resetRod, reactivity, rodPolynomial]

/-- C2 (amended): in every table built by `recalculateStepData`,
`derivativeTable[0] = 0` and, for every `i` in `1 .. rod_steps`,
`derivativeTable[i] = (stepData[i] - stepData[i-1]) * 10`: the factor is the
constant `10`, not `rod_steps`. -/
theorem recalculateStepData_slopes (rodIndex : ℤ) (r : Rod) :
    (recalculateStepData rodIndex r).derivativeTable[0]? = some 0 ∧
    ∀ i : ℕ, 1 ≤ i → i ≤ r.rod_steps →
      (recalculateStepData rodIndex r).derivativeTable[i]? =
        some ((cell (recalculateStepData rodIndex r).stepData i
          - cell (recalculateStepData rodIndex r).stepData (i - 1)) * 10) := by
  have hlen := (recalculateStepData_length rodIndex r).2
  constructor
  · rw [getElem?_eq_cell _ _ (by omega), recalculateStepData_derivative]
    simp
  · intro i hi1 hin
    rw [getElem?_eq_cell _ _ (by omega), recalculateStepData_derivative, if_pos ⟨hi1, hin⟩]

/-- C2 (amended), at a concrete rod: the default safety rod with four steps,
slope entry `3`. -/
theorem recalculateStepData_slopes_witness :
    (recalculateStepData 0 (newRod 4 165.273 1000)).derivativeTable[3]? =
      some ((cell (recalculateStepData 0 (newRod 4 165.273 1000)).stepData 3
        - cell (recalculateStepData 0 (newRod 4 165.273 1000)).stepData (3 - 1)) * 10) :=
  (recalculateStepData_slopes 0 (newRod 4 165.273 1000)).2 3 (by norm_num)
    (by norm_num [newRod, resetRod])

/-! ## C3: `getPCMat` is the clamped piecewise-linear interpolation -/

/-- C3: on a table with `rod_steps + 1` cells and for every position `p`,
`getPCMat p` is `rod_worth` times the piecewise-linear interpolation of
`stepData` at `q = min (max p 0) rod_steps`; both indices read are at most
`rod_steps`; `getPCMat p = getPCMat 0` for `p ≤ 0` and
`getPCMat p = getPCMat rod_steps` for `p ≥ rod_steps`. -/
theorem getPCMat_interpolates (r : Rod) (p : ℚ)
    (hlen : r.stepData.length = r.rod_steps + 1) :
    getPCMat r p =
      some (r.rod_worth * interpolate r.stepData (min (max p 0) (r.rod_steps : ℚ))) ∧
    Int.toNat ⌊min (max p 0) (r.rod_steps : ℚ)⌋ ≤ r.rod_steps ∧
    Int.toNat ⌈min (max p 0) (r.rod_steps : ℚ)⌉ ≤ r.rod_steps ∧
    (p ≤ 0 → getPCMat r p = getPCMat r 0) ∧
    ((r.rod_steps : ℚ) ≤ p → getPCMat r p = getPCMat r (r.rod_steps : ℚ)) := by
  have hn : (0 : ℚ) ≤ (r.rod_steps : ℚ) := Nat.cast_nonneg _
  obtain ⟨h0, hq⟩ := clamp_bounds r.rod_steps p
  rw [clamp_comm] at h0 hq
  obtain ⟨hf, hc, -, -⟩ := index_bounds r.rod_steps _ h0 hq
  refine ⟨?_, hf, hc, ?_, ?_⟩
  · rw [getPCMat_eq r p hlen, clamp_comm, mul_comm]
  · intro hp
    rw [getPCMat_eq r p hlen, getPCMat_eq r 0 hlen, min_eq_left (hp.trans hn),
      max_eq_right hp, min_eq_left hn, max_self]
  · intro hp
    rw [getPCMat_eq r p hlen, getPCMat_eq r _ hlen, min_eq_right hp, min_self]

/-- C3 at a concrete rod: the table `[0, 1/4, 1]` read at position `7/2`,
beyond the last step. -/
theorem getPCMat_interpolates_witness :
    sampleRod.stepData.length = sampleRod.rod_steps + 1 ∧
    getPCMat sampleRod (7 / 2) =
      some (sampleRod.rod_worth *
        interpolate sampleRod.stepData (min (max (7 / 2) 0) (sampleRod.rod_steps : ℚ))) ∧
    (((sampleRod.rod_steps : ℕ) : ℚ) ≤ 7 / 2 →
      getPCMat sampleRod (7 / 2) = getPCMat sampleRod (sampleRod.rod_steps : ℚ)) :=
  ⟨rfl, (getPCMat_interpolates sampleRod (7 / 2) rfl).1,
    (getPCMat_interpolates sampleRod (7 / 2) rfl).2.2.2.2⟩

/-! ## C4: position to reactivity and back -/

/-- C5, the claim as stated fails: a rod of family `0` with one step and worth
`1` has a reactivity at full insertion above `165`, far from `rod_worth = 1`,
and its last table sample is above `165` as well, not `1`. -/
theorem getPCMat_full_insertion_not_worth :
    (recalculateStepData 0 (newRod 1 1 1000)).rod_worth = 1 ∧
    165 < cell (recalculateStepData 0 (newRod 1 1 1000)).stepData 1 ∧
    ∃ g : ℚ, getPCMat (recalculateStepData 0 (newRod 1 1 1000)) 1 = some g ∧ 165 < g := by
  have hlen := (recalculateStepData_length 0 (newRod 1 1 1000)).1
  obtain ⟨h1, h2, -⟩ := recalculateStepData_frame 0 (newRod 1 1 1000)
  have hg := getPCMat_natCast (recalculateStepData 0 (newRod 1 1 1000)) 1
    (by rw [hlen, h1]) (by rw [h1]; decide)
  rw [Nat.cast_one] at hg
  have hc : cell (recalculateStepData 0 (newRod 1 1 1000)).stepData 1 = 165.273 := by
    rw [recalculateStepData_cell]
    norm_num [newRod, resetRod, reactivity, rodPolynomial]
  refine ⟨by rw [h2]; rfl, by rw [hc]; norm_num, _, hg, ?_⟩
  rw [hc, h2]
  norm_num [newRod, resetRod]

/-- C5 (amended): for every built curve and non-zero `rod_worth`,
`getPCMat(0) = 0`.  With at least one step, `getPCMat(rod_steps)` is the last
table sample times `rod_worth`, and the last sample is the value of the
hard-coded fit at the end of the travel divided by `rod_worth`, not `1`: for
the families `0` and `1`, `getPCMat(rod_steps)` lies within `0.0001` of the end
value `165.273` of the polynomial whatever `rod_worth` is, and for family `2`
it lies within `0.01` of `rod_worth`.

The margins are wider than the rounding of the source's `float` evaluation;
with the rational reading of the fit the two values are `165.273` and
`rod_worth - 10⁻¹⁰`. -/
theorem recalculateStepData_span (rodIndex : ℤ) (r : Rod) (hw : r.rod_worth ≠ 0) :
    getPCMat (recalculateStepData rodIndex r) 0 = some 0 ∧
    (1 ≤ r.rod_steps →
      getPCMat (recalculateStepData rodIndex r) (r.rod_steps : ℚ)
        = some (cell (recalculateStepData rodIndex r).stepData r.rod_steps * r.rod_worth)) ∧
    (1 ≤ r.rod_steps → (rodIndex = 0 ∨ rodIndex = 1) →
      |cell (recalculateStepData rodIndex r).stepData r.rod_steps * r.rod_worth - 165.273|
        ≤ 1 / 10000) ∧
    (1 ≤ r.rod_steps → rodIndex = 2 →
      |cell (recalculateStepData rodIndex r).stepData r.rod_steps * r.rod_worth - r.rod_worth|
        ≤ 1 / 100) := by
  have hlen := (recalculateStepData_length rodIndex r).1
  obtain ⟨h1, h2, -⟩ := recalculateStepData_frame rodIndex r
  have hlen' : (recalculateStepData rodIndex r).stepData.length
      = (recalculateStepData rodIndex r).rod_steps + 1 := by rw [hlen, h1]
  have hg0 := getPCMat_natCast (recalculateStepData rodIndex r) 0 hlen' (Nat.zero_le _)
  have hgn := getPCMat_natCast (recalculateStepData rodIndex r) r.rod_steps hlen'
    (by rw [h1])
  rw [Nat.cast_zero, recalculateStepData_cell] at hg0
  rw [h2] at hgn
  have hend : 1 ≤ r.rod_steps →
      cell (recalculateStepData rodIndex r).stepData r.rod_steps
        = reactivity rodIndex r.rod_worth 1 := by
    intro hn
    have hn0 : (r.rod_steps : ℚ) ≠ 0 := by
      have : 0 < r.rod_steps := hn
      exact_mod_cast this.ne'
    have hCR : (r.rod_steps : ℚ) * (1 / (r.rod_steps : ℚ)) = 1 := by field_simp
    rw [recalculateStepData_cell, if_pos ⟨hn, le_refl _⟩, hCR]
  refine ⟨?_, ?_, ?_, ?_⟩
  · rw [hg0]
    simp
  · intro _
    exact hgn
  · intro hn hri
    rw [hend hn]
    simp only [reactivity, if_pos hri, rodPolynomial]
    rw [div_mul_cancel₀ _ hw]
    norm_num [abs_le]
  · intro hn hri
    rw [hend hn]
    subst hri
    rw [reactivity_two, div_mul_cancel₀ _ hw]
    norm_num [abs_le]

/-- C5 (amended), at concrete rods: the default safety rod (`rodIndex = 0`,
worth `165.273`) with four steps, and a rod of the same family with worth `1`,
whose reactivity at full insertion stays at the end value of the fit. -/
theorem recalculateStepData_span_witness :
    (newRod 4 165.273 1000).rod_worth ≠ 0 ∧
    getPCMat (recalculateStepData 0 (newRod 4 165.273 1000)) 0 = some 0 ∧
    |cell (recalculateStepData 0 (newRod 4 1 1000)).stepData (newRod 4 1 1000).rod_steps
        * (newRod 4 1 1000).rod_worth - 165.273| ≤ 1 / 10000 :=
  ⟨by norm_num [newRod, resetRod],
    (recalculateStepData_span 0 (newRod 4 165.273 1000) (by norm_num [newRod, resetRod])).1,
    (recalculateStepData_span 0 (newRod 4 1 1000)
      (by norm_num [newRod, resetRod])).2.2.1 (by norm_num [newRod, resetRod]) (Or.inl rfl)⟩

/-! ## C6: configuration errors in curve construction -/

/-- C6, the claim as stated fails: with the unknown family `rodIndex = 7` the
call returns a built table (`hasData` set) whose four samples are all `0`, and
with `rod_steps = 0` it returns the one-sample table `[0]`. -/
theorem recalculateStepData_builds_degenerate :
    (recalculateStepData 7 (newRod 3 165.273 1000)).hasData = true ∧
    (recalculateStepData 7 (newRod 3 165.273 1000)).stepData = [0, 0, 0, 0] ∧
    (recalculateStepData 0 (newRod 0 165.273 1000)).hasData = true ∧
    (recalculateStepData 0 (newRod 0 165.273 1000)).stepData = [0] := by
  refine ⟨rfl, ?_, rfl, rfl⟩
  simp [recalculateStepData, recalculateLoop, recalculateStep, reactivity, newRod, resetRod]

/-- C6 (amended): `recalculateStepData` has no error path; it always returns
with `hasData` set and both tables rebuilt with `rod_steps + 1` samples.  With
`rod_steps = 0` both tables are the single sample `[0]`; with a `rodIndex`
outside `{0, 1, 2}` every sample of both tables is `0`. -/
theorem recalculateStepData_no_error (rodIndex : ℤ) (r : Rod) :
    (recalculateStepData rodIndex r).hasData = true ∧
    (recalculateStepData rodIndex r).stepData.length = r.rod_steps + 1 ∧
    (recalculateStepData rodIndex r).derivativeTable.length = r.rod_steps + 1 ∧
    (r.rod_steps = 0 →
      (recalculateStepData rodIndex r).stepData = [0] ∧
      (recalculateStepData rodIndex r).derivativeTable = [0]) ∧
    ((rodIndex ≠ 0 ∧ rodIndex ≠ 1 ∧ rodIndex ≠ 2) →
      (recalculateStepData rodIndex r).stepData = List.replicate (r.rod_steps + 1) 0 ∧
      (recalculateStepData rodIndex r).derivativeTable
        = List.replicate (r.rod_steps + 1) 0) := by
  obtain ⟨hl1, hl2⟩ := recalculateStepData_length rodIndex r
  obtain ⟨-, -, hd⟩ := recalculateStepData_frame rodIndex r
  refine ⟨hd, hl1, hl2, ?_, ?_⟩
  · intro h0
    have e : ([0] : List ℚ) = List.replicate (r.rod_steps + 1) 0 := by
      rw [h0]
      rfl
    have hs : ∀ j, cell (recalculateStepData rodIndex r).stepData j = 0 := by
      intro j
      rw [recalculateStepData_cell, if_neg (by omega)]
    have hd' : ∀ j, cell (recalculateStepData rodIndex r).derivativeTable j = 0 := by
      intro j
      rw [recalculateStepData_derivative, if_neg (by omega)]
    rw [e]
    exact ⟨eq_replicate_of_cell _ _ hl1 hs, eq_replicate_of_cell _ _ hl2 hd'⟩
  · rintro ⟨h0, h1, h2⟩
    have hs : ∀ j, cell (recalculateStepData rodIndex r).stepData j = 0 := by
      intro j
      rw [recalculateStepData_cell]
      simp [reactivity, h0, h1, h2]
    have hd' : ∀ j, cell (recalculateStepData rodIndex r).derivativeTable j = 0 := by
      intro j
      rw [recalculateStepData_derivative, hs, hs]
      simp
    exact ⟨eq_replicate_of_cell _ _ hl1 hs, eq_replicate_of_cell _ _ hl2 hd'⟩

/-- C6 (amended), at concrete rods: an unknown family with three steps, and a
known family with no step. -/
theorem recalculateStepData_no_error_witness :
    (recalculateStepData 7 (newRod 3 165.273 1000)).stepData
      = List.replicate ((newRod 3 165.273 1000).rod_steps + 1) 0 ∧
    (recalculateStepData 0 (newRod 0 165.273 1000)).stepData = [0] :=
  ⟨((recalculateStepData_no_error 7 (newRod 3 165.273 1000)).2.2.2.2
      ⟨by decide, by decide, by decide⟩).1,
    ((recalculateStepData_no_error 0 (newRod 0 165.273 1000)).2.2.2.1 rfl).1⟩

/-! ## C7: a tick of length zero -/

/-- C7, the claim as stated fails: an enabled rod at position `0` with speed
`0` and the command `Fixed(50)` is moved to `50` by `refreshRod(0, 0)`. -/
theorem refreshRod_zero_dt_moves :
    (commandMove (newRod 100 165.273 0) 50).rod_exact_position = 0 ∧
    (commandMove (newRod 100 165.273 0) 50).rod_actual_position = 0 ∧
    (refreshRod (commandMove (newRod 100 165.273 0) 50) (runningWaves 0) 0 0).rod_exact_position
      = 50 ∧
    (refreshRod (commandMove (newRod 100 165.273 0) 50) (runningWaves 0) 0 0).rod_actual_position
      = 50 := by
  decide!

/-- C7 (amended): `refreshRod(rodIndex, 0)` leaves `rod_exact_position` and
`rod_actual_position` unchanged for every rod that is not firing, whose exact
position lies in `[0, rod_steps]`, whose actual position equals the exact one
whenever it is enabled, and for which, outside the scram branch, the active
waveform is paused if the mode is Simulation and the rod is not both enabled
and at speed `0` with a resolved command different from its position. -/
theorem refreshRod_zero_dt (r : Rod) (w : Waveforms) (rodIndex : ℤ)
    (hf : r.fireing = false)
    (h0 : 0 ≤ r.rod_exact_position) (hn : r.rod_exact_position ≤ (r.rod_steps : ℚ))
    (ha : r.enabled = true → r.rod_actual_position = r.rod_exact_position)
    (hsim : ¬ (r.scramTime > 0 ∧ rodIndex ≠ 2) → r.mode = OperationModes.Simulation →
      (getMode w r.simulationMode).paused = true)
    (hsp : ¬ (r.scramTime > 0 ∧ rodIndex ≠ 2) → r.mode ≠ OperationModes.Simulation →
      r.enabled = true → r.rod_speed = 0 → r.rod_exact_position = localCommand r) :
    (refreshRod r w rodIndex 0).rod_exact_position = r.rod_exact_position ∧
    (refreshRod r w rodIndex 0).rod_actual_position = r.rod_actual_position := by
  unfold refreshRod
  by_cases hs : r.scramTime > 0 ∧ rodIndex ≠ 2
  · rw [if_pos hs]
    simp only [zero_mul, sub_zero, max_eq_left h0]
    have hm := moveRodToStep_self
      { r with timeSinceScram := min (r.timeSinceScram + 0) r.scramTime } h0 hn
      (fun he _ => ha he)
    simp only at hm
    rw [hm]
    split_ifs <;> simp [setEnabled]
  · rw [if_neg hs]
    have hr1 : (match r.mode with
        | OperationModes.Manual => r
        | OperationModes.Pulse => r
        | OperationModes.Simulation =>
          if (getMode w r.simulationMode).paused = false then
            moveRodToStep r (r.simulationStartPosition
              + (getMode w r.simulationMode).currentOffset) false
          else r
        | OperationModes.Automatic => r) = r := by
      cases hmode : r.mode with
      | Simulation => simp [hsim hs hmode]
      | Manual => rfl
      | Pulse => rfl
      | Automatic => rfl
    simp only [hr1, zero_mul, add_zero, sub_zero, hf]
    have hself := moveRodToStep_self r h0 hn (fun he _ => ha he)
    by_cases hc : r.rod_exact_position ≠ localCommand r ∧
        (r.mode = OperationModes.Manual ∨ r.mode = OperationModes.Automatic
          ∨ r.mode = OperationModes.Pulse)
    · rw [if_pos hc]
      have hnsim : r.mode ≠ OperationModes.Simulation := by
        rcases hc.2 with h | h | h <;> rw [h] <;> decide
      by_cases hz : r.rod_speed = 0 ∧ r.enabled = true
      · exact absurd (hsp hs hnsim hz.2 hz.1) hc.1
      · rw [if_neg hz]
        by_cases hgt : localCommand r > r.rod_exact_position
        · simp [hgt, min_eq_left hgt.le, hself, hf]
        · simp [hgt, max_eq_left (not_lt.mp hgt), hself, hf]
    · rw [if_neg hc]
      simp [hf]

/-- C7 (amended), at a concrete rod: a fresh rod with speed `10` and the
command `Fixed(50)` stays at position `0` under a tick of length zero. -/
theorem refreshRod_zero_dt_witness :
    (refreshRod (commandMove (newRod 100 165.273 10) 50) (runningWaves 5) 0 0).rod_exact_position
      = (commandMove (newRod 100 165.273 10) 50).rod_exact_position ∧
    (refreshRod (commandMove (newRod 100 165.273 10) 50) (runningWaves 5) 0 0).rod_actual_position
      = (commandMove (newRod 100 165.273 10) 50).rod_actual_position :=
  refreshRod_zero_dt (commandMove (newRod 100 165.273 10) 50) (runningWaves 5) 0
    rfl (by decide!) (by decide!) (fun _ => rfl)
    (fun _ h => absurd h (by decide)) (fun _ _ _ h => absurd h (by decide!))

/-! ## C8: the scram scenario -/

/-- C8, the claim as stated fails in the arithmetic of the source: a rod of one
step at the top, speed `1`, is scrammed and ticked five times with `dt` the
`double` nearest to `0.2`, so that `n * dt * S ≥ rod_steps`.  Each tick
subtracts the `float` nearest to `0.2` and rounds the difference, and after the
fifth tick the rod stands at `2⁻²⁵`, still enabled, the scram still active. -/
theorem scram_scenario_late :
    shortRod.enabled = true ∧ shortRod.fireing = false ∧ shortRod.scramTime ≤ 0 ∧
    shortRod.rod_exact_position = (shortRod.rod_steps : ℚ) ∧
    shortRod.rod_actual_position = (shortRod.rod_steps : ℚ) ∧
    0 < shortRod.rod_speed ∧ 0 < toDouble (1 / 5) ∧
    (shortRod.rod_steps : ℚ) ≤ ((5 : ℕ) : ℚ) * toDouble (1 / 5) * shortRod.rod_speed ∧
    (Binary32.ticks 0 (toDouble (1 / 5)) (fun _ => runningWaves 0) 5
      (scramRod shortRod)).rod_actual_position = 1 / 2 ^ 25 ∧
    (Binary32.ticks 0 (toDouble (1 / 5)) (fun _ => runningWaves 0) 5
      (scramRod shortRod)).enabled = true ∧
    (Binary32.ticks 0 (toDouble (1 / 5)) (fun _ => runningWaves 0) 5
      (scramRod shortRod)).scramTime > 0 := by
  decide!

/-- C8 (amended), in binary32: a non-exempt rod (`rodIndex ≠ 2`) that is
enabled, not firing, not scramming, at
`rod_exact_position = rod_actual_position = rod_steps` (a positive step count
not above `2 ^ 24`, so that it is a `float`) with speed `S > 0` is scrammed and
then ticked with `dt > 0`; `rod_move` is `toFloat (toDouble (dt * S))`.  After
any number `k` of ticks:
* if the scram is still active, the rod is enabled, both positions agree and
  are positive, the exact position `x` differs from `rod_steps - k * rod_move`
  by at most `k * (rod_steps / 2 ^ 24)`, the next tick moves it to
  `max (toFloat (x - rod_move)) 0`, which is not above `x`, and that tick ends
  the scram exactly when the new position is `0`;
* if the scram has ended, `rod_actual_position = 0`, `enabled = false`, and the
  scram is still ended after the next tick;
* the scram has ended, with `rod_actual_position = 0` and `enabled = false`,
  as soon as `k * (rod_move - rod_steps / 2 ^ 24) ≥ rod_steps`. -/
theorem scram_scenario (r : Rod) (w : ℕ → Waveforms) (rodIndex : ℤ) (dt : ℚ)
    (hri : rodIndex ≠ 2) (hen : r.enabled = true) (hf : r.fireing = false)
    (hsc : r.scramTime ≤ 0)
    (hx : r.rod_exact_position = (r.rod_steps : ℚ))
    (ha : r.rod_actual_position = (r.rod_steps : ℚ))
    (hS : 0 < r.rod_speed) (hdt : 0 < dt) (hN : 0 < r.rod_steps)
    (hN24 : r.rod_steps ≤ 2 ^ 24) (k : ℕ) :
    ((Binary32.ticks rodIndex dt w k (scramRod r)).scramTime > 0 →
      (Binary32.ticks rodIndex dt w k (scramRod r)).enabled = true ∧
      (Binary32.ticks rodIndex dt w k (scramRod r)).rod_actual_position
        = (Binary32.ticks rodIndex dt w k (scramRod r)).rod_exact_position ∧
      0 < (Binary32.ticks rodIndex dt w k (scramRod r)).rod_exact_position ∧
      |(Binary32.ticks rodIndex dt w k (scramRod r)).rod_exact_position
          - ((r.rod_steps : ℚ) - (k : ℚ) * toFloat (toDouble (dt * r.rod_speed)))|
        ≤ (k : ℚ) * ((r.rod_steps : ℚ) / 2 ^ 24) ∧
      (Binary32.ticks rodIndex dt w (k + 1) (scramRod r)).rod_exact_position
        = max (toFloat ((Binary32.ticks rodIndex dt w k (scramRod r)).rod_exact_position
            - toFloat (toDouble (dt * r.rod_speed)))) 0 ∧
      (Binary32.ticks rodIndex dt w (k + 1) (scramRod r)).rod_exact_position
        ≤ (Binary32.ticks rodIndex dt w k (scramRod r)).rod_exact_position ∧
      ((Binary32.ticks rodIndex dt w (k + 1) (scramRod r)).scramTime ≤ 0 ↔
        (Binary32.ticks rodIndex dt w (k + 1) (scramRod r)).rod_exact_position = 0)) ∧
    ((Binary32.ticks rodIndex dt w k (scramRod r)).scramTime ≤ 0 →
      (Binary32.ticks rodIndex dt w k (scramRod r)).rod_actual_position = 0 ∧
      (Binary32.ticks rodIndex dt w k (scramRod r)).enabled = false ∧
      (Binary32.ticks rodIndex dt w (k + 1) (scramRod r)).scramTime ≤ 0) ∧
    ((r.rod_steps : ℚ)
        ≤ (k : ℚ) * (toFloat (toDouble (dt * r.rod_speed)) - (r.rod_steps : ℚ) / 2 ^ 24) →
      (Binary32.ticks rodIndex dt w k (scramRod r)).rod_actual_position = 0 ∧
      (Binary32.ticks rodIndex dt w k (scramRod r)).enabled = false ∧
      (Binary32.ticks rodIndex dt w k (scramRod r)).scramTime ≤ 0) := by
  have hmv : 0 < dt * r.rod_speed := mul_pos hdt hS
  have hm : 0 ≤ toFloat (toDouble (dt * r.rod_speed)) :=
    toFloat_nonneg _ (toDouble_nonneg _ hmv.le)
  obtain ⟨i1, i2, i3, i4⟩ := binary_scram_descent r w rodIndex dt hri hen hf hsc hx ha hS hdt hN
    (toFloat_natCast _ hN24) k
  refine ⟨?_, ?_, ?_⟩
  · intro hact
    rcases i4 with ⟨j1, j2, j3, j4, j5, j6, j7, j8⟩ | ⟨j1, -, -⟩
    · obtain ⟨s1, -, -, -, -, s6, s7⟩ :=
        binary_scram_step (Binary32.ticks rodIndex dt w k (scramRod r)) (w k) rodIndex dt
          j1 hri j2 i3 j4.le (by rw [i1]; exact j5) j6 (by rw [i2]; exact hmv.le)
      rw [i2] at s1 s6 s7
      have hle := toFloat_sub_le _ _ j4.le j6 hm
      simp only [Binary32.ticks]
      refine ⟨j2, j3, j4, ?_, s1, ?_, ?_⟩
      · rw [abs_le]
        constructor <;> linarith
      · rw [s1]
        exact max_le hle j4.le
      · rw [s1]
        rcases le_or_lt (toFloat
            ((Binary32.ticks rodIndex dt w k (scramRod r)).rod_exact_position
              - toFloat (toDouble (dt * r.rod_speed)))) 0 with h | h
        · rw [(s7 h).2, max_eq_right h]
          norm_num
        · rw [(s6 h).2, max_eq_left h.le]
          constructor
          · intro h'
            exact absurd h' (not_le.mpr j1)
          · intro h'
            exact absurd h' h.ne'
    · exact absurd j1 (not_le.mpr hact)
  · intro hend
    rcases i4 with ⟨j1, -⟩ | ⟨j1, j2, j3⟩
    · exact absurd hend (not_le.mpr j1)
    · have hns : ¬ ((Binary32.ticks rodIndex dt w k (scramRod r)).scramTime > 0
          ∧ rodIndex ≠ 2) := fun h => absurd j1 (not_le.mpr h.1)
      obtain ⟨-, -, -, d4, -, -⟩ :=
        binary_disabled_idle (Binary32.ticks rodIndex dt w k (scramRod r)) (w k) rodIndex dt
          hns j2 i3
      simp only [Binary32.ticks]
      exact ⟨j3, j2, by rw [d4]; exact j1⟩
  · intro hk
    rcases i4 with ⟨-, -, -, j4, -, -, j7, -⟩ | ⟨j1, j2, j3⟩
    · linarith
    · exact ⟨j3, j2, j1⟩

/-- C8 (amended) at a concrete rod: four steps, speed `2`, raised to the top,
scrammed and ticked with `dt = 1`.  The first tick brings the rod from `4` to
`2`, and after three ticks it is down and disabled. -/
theorem scram_scenario_witness :
    (Binary32.ticks 0 1 (fun _ => runningWaves 0) 1
      (scramRod (moveRodToStep (newRod 4 100 2) 4 false))).rod_exact_position = 2 ∧
    (Binary32.ticks 0 1 (fun _ => runningWaves 0) 3
      (scramRod (moveRodToStep (newRod 4 100 2) 4 false))).rod_actual_position = 0 ∧
    (Binary32.ticks 0 1 (fun _ => runningWaves 0) 3
      (scramRod (moveRodToStep (newRod 4 100 2) 4 false))).enabled = false ∧
    (Binary32.ticks 0 1 (fun _ => runningWaves 0) 3
      (scramRod (moveRodToStep (newRod 4 100 2) 4 false))).scramTime ≤ 0 :=
  have h0 := scram_scenario (moveRodToStep (newRod 4 100 2) 4 false)
    (fun _ => runningWaves 0) 0 1 (by decide) rfl rfl (by decide!) (by decide!)
    (by decide!) (by decide!) (by decide!) (by decide!) (by decide!) 0
  have h3 := scram_scenario (moveRodToStep (newRod 4 100 2) 4 false)
    (fun _ => runningWaves 0) 0 1 (by decide) rfl rfl (by decide!) (by decide!)
    (by decide!) (by decide!) (by decide!) (by decide!) (by decide!) 3
  ⟨((h0.1 (by decide!)).2.2.2.2.1).trans (by decide!), h3.2.2 (by decide!)⟩

/-! ## C9: how a scram ends -/

/-- C9, the claim as stated fails: a fresh rod is put in Pulse mode, driven to
`10` while disabled, fired and scrammed; the next tick of `1/1000` ends the
scram (the actual position is `0` and the rod is enabled) although the exact
position is still `999/100`. -/
theorem scram_ends_above_zero :
    Reachable 0 (runCalls 0 (newRod 100 165.273 10) pulseThenScram) ∧
    (runCalls 0 (newRod 100 165.273 10) pulseThenScram).scramTime > 0 ∧
    (refreshRod (runCalls 0 (newRod 100 165.273 10) pulseThenScram)
      (runningWaves 0) 0 (1 / 1000)).scramTime ≤ 0 ∧
    (refreshRod (runCalls 0 (newRod 100 165.273 10) pulseThenScram)
      (runningWaves 0) 0 (1 / 1000)).rod_exact_position = 999 / 100 :=
  ⟨⟨100, 165.273, 10, pulseThenScram, rfl⟩, by decide!, by decide!, by decide!⟩

/-- C9 (amended): in every state (reachable or not), whenever a call
`refreshRod(rodIndex, dt)` ends the scram sub-state (`scramTime` goes from
`> 0` to `≤ 0`), the resulting state has `rod_actual_position = 0` and
`enabled = false`; it has `rod_exact_position = 0` as well when the rod was not
firing at the start of the tick. -/
theorem scram_end_state (r : Rod) (w : Waveforms) (rodIndex : ℤ) (dt : ℚ)
    (h1 : r.scramTime > 0) (h2 : (refreshRod r w rodIndex dt).scramTime ≤ 0) :
    (refreshRod r w rodIndex dt).rod_actual_position = 0 ∧
    (refreshRod r w rodIndex dt).enabled = false ∧
    (r.fireing = false → (refreshRod r w rodIndex dt).rod_exact_position = 0) := by
  rw [refreshRod_eq_stages] at h2 ⊢
  by_cases hs : r.scramTime > 0 ∧ rodIndex ≠ 2
  · rw [if_pos hs] at h2 ⊢
    unfold scramStage at h2 ⊢
    simp only at h2 ⊢
    split_ifs at h2 ⊢ with hz
    · refine ⟨hz.1, by simp [setEnabled], ?_⟩
      intro hf
      have hsync := moveRodToStep_actual_of_sync
        { r with timeSinceScram := min (r.timeSinceScram + dt) r.scramTime }
        (max (r.rod_exact_position - dt * r.rod_speed) 0)
        ⟨by
          have := (moveRodToStep_frame
            { r with timeSinceScram := min (r.timeSinceScram + dt) r.scramTime }
            (max (r.rod_exact_position - dt * r.rod_speed) 0)).1
          rw [← this]
          exact hz.2, hf⟩
      simp only [setEnabled]
      rw [← hsync]
      exact hz.1
    · have := (moveRodToStep_frame
        { r with timeSinceScram := min (r.timeSinceScram + dt) r.scramTime }
        (max (r.rod_exact_position - dt * r.rod_speed) 0)).2.2.2.2.2.2.2.2.1
      rw [this] at h2
      exact absurd h2 (not_le.mpr h1)
  · rw [if_neg hs] at h2
    have a := (fireStage_frame (commandStage (simulationStage r w) dt) dt).2.2.2.2.2.2.2.1
    have b := (commandStage_frame (simulationStage r w) dt).2.2.2.2.2.2.2.2.1
    have c := (simulationStage_frame r w).2.2.2.2.2.2.2.2.1
    rw [a, b, c] at h2
    exact absurd h2 (not_le.mpr h1)

/-- C9 (amended), at a concrete rod: a rod at the top is scrammed and ticked
long enough to arrive; that tick ends the scram. -/
theorem scram_end_state_witness :
    (scramRod (moveRodToStep (newRod 4 165.273 2) 4 false)).scramTime > 0 ∧
    (refreshRod (scramRod (moveRodToStep (newRod 4 165.273 2) 4 false))
      (runningWaves 0) 0 2).scramTime ≤ 0 ∧
    (refreshRod (scramRod (moveRodToStep (newRod 4 165.273 2) 4 false))
      (runningWaves 0) 0 2).rod_actual_position = 0 ∧
    (refreshRod (scramRod (moveRodToStep (newRod 4 165.273 2) 4 false))
      (runningWaves 0) 0 2).enabled = false ∧
    (refreshRod (scramRod (moveRodToStep (newRod 4 165.273 2) 4 false))
      (runningWaves 0) 0 2).rod_exact_position = 0 :=
  have h := scram_end_state (scramRod (moveRodToStep (newRod 4 165.273 2) 4 false))
    (runningWaves 0) 0 2 (by decide!) (by decide!)
  ⟨by decide!, by decide!, h.1, h.2.1, h.2.2 rfl⟩

/-! ## C10: the pulse scenario -/

/-- C11: a rod in Manual, Automatic or Pulse mode that is enabled, outside the
scram branch, with `rod_speed = 0`, after a single `refreshRod` with any `dt`:
with the command `Top` the exact position is `rod_steps`, with `Bottom` it is
`0`, and with `Fixed` (or no command) it is the stored target
`rod_exact_command` whenever that lies in `[0, rod_steps]`. -/
theorem infinite_speed (r : Rod) (w : Waveforms) (rodIndex : ℤ) (dt : ℚ)
    (hmode : r.mode = OperationModes.Manual ∨ r.mode = OperationModes.Automatic
      ∨ r.mode = OperationModes.Pulse)
    (hen : r.enabled = true) (hs : ¬ (r.scramTime > 0 ∧ rodIndex ≠ 2))
    (hsp : r.rod_speed = 0) :
    (r.rodCommand = CommandType.Top →
      (refreshRod r w rodIndex dt).rod_exact_position = (r.rod_steps : ℚ)) ∧
    (r.rodCommand = CommandType.Bottom →
      (refreshRod r w rodIndex dt).rod_exact_position = 0) ∧
    (r.rodCommand = CommandType.Fixed →
      0 ≤ r.rod_exact_command → r.rod_exact_command ≤ (r.rod_steps : ℚ) →
      (refreshRod r w rodIndex dt).rod_exact_position = r.rod_exact_command) ∧
    (r.rodCommand = CommandType.None →
      0 ≤ r.rod_exact_command → r.rod_exact_command ≤ (r.rod_steps : ℚ) →
      (refreshRod r w rodIndex dt).rod_exact_position = r.rod_exact_command) := by
  have hsim : simulationStage r w = r := by
    unfold simulationStage
    rcases hmode with h | h | h <;> rw [h]
  have key : 0 ≤ localCommand r → localCommand r ≤ (r.rod_steps : ℚ) →
      (refreshRod r w rodIndex dt).rod_exact_position = localCommand r := by
    intro h0 hn
    rw [refreshRod_eq_stages, if_neg hs, hsim, (fireStage_frame _ _).2.1]
    unfold commandStage
    by_cases hc : r.rod_exact_position ≠ localCommand r ∧
        (r.mode = OperationModes.Manual ∨ r.mode = OperationModes.Automatic
          ∨ r.mode = OperationModes.Pulse)
    · rw [if_pos hc, if_pos ⟨hsp, hen⟩, moveRodToStep_exact, clamp_of_mem _ _ h0 hn]
    · rw [if_neg hc]
      by_contra hne
      exact hc ⟨hne, hmode⟩
  refine ⟨?_, ?_, ?_, ?_⟩
  · intro hc
    have e : localCommand r = (r.rod_steps : ℚ) := by simp [localCommand, hc]
    rw [← e]
    exact key (by rw [e]; exact Nat.cast_nonneg _) e.le
  · intro hc
    have e : localCommand r = 0 := by simp [localCommand, hc]
    rw [← e]
    exact key e.ge (by rw [e]; exact Nat.cast_nonneg _)
  · intro hc h0 hn
    have e : localCommand r = r.rod_exact_command := by simp [localCommand, hc]
    rw [← e]
    exact key (by rw [e]; exact h0) (by rw [e]; exact hn)
  · intro hc h0 hn
    have e : localCommand r = r.rod_exact_command := by simp [localCommand, hc]
    rw [← e]
    exact key (by rw [e]; exact h0) (by rw [e]; exact hn)

/-- C11 at concrete rods of a hundred steps with speed `0`, enabled, ticked
for `1/7` s: commanded to the top the rod snaps from `0` to `100`, commanded to
the bottom it snaps from `20` to `0`, and with `Fixed(50)` it snaps to `50`. -/
theorem infinite_speed_witness :
    (refreshRod (commandToTop (newRod 100 165.273 0)) (runningWaves 3) 0
      (1 / 7)).rod_exact_position = 100 ∧
    (refreshRod (commandToBottom (moveRodToStep (newRod 100 165.273 0) 20 false))
      (runningWaves 3) 0 (1 / 7)).rod_exact_position = 0 ∧
    (refreshRod (commandMove (newRod 100 165.273 0) 50) (runningWaves 3) 0
      (1 / 7)).rod_exact_position = 50 :=
  ⟨((infinite_speed (commandToTop (newRod 100 165.273 0)) (runningWaves 3) 0 (1 / 7)
      (Or.inl rfl) rfl (by decide!) (by decide!)).1 rfl).trans (by decide!),
   (infinite_speed (commandToBottom (moveRodToStep (newRod 100 165.273 0) 20 false))
      (runningWaves 3) 0 (1 / 7) (Or.inl rfl) rfl (by decide!) (by decide!)).2.1 rfl,
   ((infinite_speed (commandMove (newRod 100 165.273 0) 50) (runningWaves 3) 0 (1 / 7)
      (Or.inl rfl) rfl (by decide!) (by decide!)).2.2.1 rfl (by decide!) (by decide!)).trans
        (by decide!)⟩

/-! ## C12: non-positive speeds -/

/-- C12, the code at a failing input: an enabled rod in Manual mode at position
`50` with the command `Fixed(60)` and the negative speed `-1` is at `49` after
`refreshRod(0, 1)`; it has moved away from its target instead of reaching it.
Only the speed `0` takes the instantaneous branch. -/
theorem negative_speed_moves_away :
    (commandMove (moveRodToStep (newRod 100 165.273 (-1)) 50 false) 60).enabled = true ∧
    (commandMove (moveRodToStep (newRod 100 165.273 (-1)) 50 false) 60).rod_exact_position
      = 50 ∧
    localCommand (commandMove (moveRodToStep (newRod 100 165.273 (-1)) 50 false) 60) = 60 ∧
    (refreshRod (commandMove (moveRodToStep (newRod 100 165.273 (-1)) 50 false) 60)
      (runningWaves 0) 0 1).rod_exact_position = 49 := by
  decide!

/-! ## C13: the Simulation round trip -/

/-- C13: a rod outside Simulation mode with `rod_exact_position = b` in
`[0, rod_steps]` enters Simulation mode, receives any sequence of ticks (with
any waveform readings) and calls that do not leave Simulation mode, and is then
switched to a mode `m ≠ Simulation`: its exact position is `b` again.  And a
tick in Simulation mode, outside the scram branch and with a running waveform,
sets the exact position to `simulationStartPosition + offset` clamped to
`[0, rod_steps]`, whatever command is pending. -/
theorem simulation_round_trip (rodIndex : ℤ) (r : Rod) (calls : List Call)
    (m : OperationModes)
    (hmode : r.mode ≠ OperationModes.Simulation)
    (h0 : 0 ≤ r.rod_exact_position) (hn : r.rod_exact_position ≤ (r.rod_steps : ℚ))
    (hcalls : callsRespect staysInSimulation rodIndex
      (setOperationMode r OperationModes.Simulation) calls)
    (hm : m ≠ OperationModes.Simulation) :
    (setOperationMode
      (runCalls rodIndex (setOperationMode r OperationModes.Simulation) calls)
      m).rod_exact_position = r.rod_exact_position ∧
    ∀ (s : Rod) (w : Waveforms) (dt : ℚ) (k : CommandType) (c : ℚ),
      s.mode = OperationModes.Simulation → ¬ (s.scramTime > 0 ∧ rodIndex ≠ 2) →
      (getMode w s.simulationMode).paused = false →
      (refreshRod { s with rodCommand := k, rod_exact_command := c } w rodIndex
        dt).rod_exact_position =
        max (min (s.simulationStartPosition + (getMode w s.simulationMode).currentOffset)
          (s.rod_steps : ℚ)) 0 := by
  constructor
  · obtain ⟨i1, i2, i3⟩ := runCalls_invariant_of_respect
      (fun s => s.mode = OperationModes.Simulation ∧
        s.simulationStartPosition = r.rod_exact_position ∧ s.rod_steps = r.rod_steps)
      staysInSimulation rodIndex
      (fun s c hs hc => apply_staysInSimulation rodIndex _ _ s c hs hc)
      calls _ (setOperationMode_enter_simulation r hmode) hcalls
    rw [setOperationMode_leave_simulation _ m i1 hm, i2, i3, clamp_of_mem _ _ h0 hn]
  · intro s w dt k c hs hsc hp
    exact refreshRod_simulation { s with rodCommand := k, rod_exact_command := c } w rodIndex dt
      hs hsc hp

/-- C13 at a concrete rod: baseline `20`, a tick with offset `5`, a command, a
scram and a further tick while in Simulation mode, then back to Manual. -/
theorem simulation_round_trip_witness :
    (setOperationMode
      (runCalls 0 (setOperationMode baselineRod OperationModes.Simulation) simulationCalls)
      OperationModes.Manual).rod_exact_position = baselineRod.rod_exact_position :=
  (simulation_round_trip 0 baselineRod simulationCalls OperationModes.Manual
    (by decide) (by decide!) (by decide!) ⟨trivial, trivial, trivial, trivial, trivial⟩
    (by decide)).1

/-! ## C14: the position-domain invariant -/

/-- C14: starting from the `resetRod` state, after any sequence of calls of
the command surface (`commandMove` with any destination, `commandToTop`,
`commandToBottom`, `clearCommands`, `scramRod`, `fire`, `setEnabled`,
`setRodSpeed` with any value, `setOperationMode`, `setSimulationMode`,
`moveRodToStep` without force) and ticks with any `dt` and any waveform
readings, the step count is unchanged and both positions lie in
`[0, rod_steps]`. -/
theorem positions_in_domain (rodIndex : ℤ) (r : Rod) (calls : List Call) :
    (runCalls rodIndex (resetRod r) calls).rod_steps = r.rod_steps ∧
    0 ≤ (runCalls rodIndex (resetRod r) calls).rod_exact_position ∧
    (runCalls rodIndex (resetRod r) calls).rod_exact_position ≤ (r.rod_steps : ℚ) ∧
    0 ≤ (runCalls rodIndex (resetRod r) calls).rod_actual_position ∧
    (runCalls rodIndex (resetRod r) calls).rod_actual_position ≤ (r.rod_steps : ℚ) := by
  have h := runCalls_invariant
    (fun s => s.rod_steps = r.rod_steps ∧ positionsInDomain s) rodIndex
    (fun s c hs => ⟨(apply_rod_steps rodIndex s c).trans hs.1, apply_domain rodIndex s c hs.2⟩)
    calls (resetRod r)
    ⟨rfl, le_refl _, Nat.cast_nonneg _, le_refl _, Nat.cast_nonneg _⟩
  obtain ⟨h1, h2, h3, h4, h5⟩ := h
  rw [h1] at h3 h5
  exact ⟨h1, h2, h3, h4, h5⟩

/-! ## C15: scram and pulse together -/

/-- C15, the claim as stated fails: a fresh rod put in Pulse mode, driven to
`10`, fired and then scrammed is reachable and has the scram timer active
while it is firing. -/
theorem scram_while_firing :
    Reachable 0 (runCalls 0 (newRod 100 165.273 10) pulseThenScram) ∧
    (runCalls 0 (newRod 100 165.273 10) pulseThenScram).scramTime > 0 ∧
    (runCalls 0 (newRod 100 165.273 10) pulseThenScram).fireing = true :=
  ⟨⟨100, 165.273, 10, pulseThenScram, rfl⟩, by decide!, by decide!⟩

/-- C15 (amended): `fire` does not look at the scram timer and `scramRod` does
not look at the firing flag, so the exclusion is the caller's to keep.  In every
state reached from the `resetRod` state by calls and ticks in which `fire(true)`
is never called on a rod in Pulse mode during an active scram and `scramRod()`
never starts a scram on a firing rod, the scram is not active while the rod is
firing. -/
theorem scram_pulse_exclusive (rodIndex : ℤ) (r : Rod) (calls : List Call)
    (h : callsRespect keepsScramAndPulseApart rodIndex (resetRod r) calls) :
    ¬ ((runCalls rodIndex (resetRod r) calls).scramTime > 0 ∧
        (runCalls rodIndex (resetRod r) calls).fireing = true) :=
  runCalls_invariant_of_respect
    (fun s => ¬ (s.scramTime > 0 ∧ s.fireing = true)) keepsScramAndPulseApart rodIndex
    (fun s c hs hc => apply_keepsApart rodIndex s c hs hc) calls (resetRod r)
    (fun hcon => absurd hcon.2 (by simp [resetRod])) h

/-- C15 (amended), at a concrete sequence: fire in Pulse mode, let the pulse
end with a tick, then scram. -/
theorem scram_pulse_exclusive_witness :
    ¬ ((runCalls 0 (resetRod (newRod 100 165.273 10)) fireThenTickThenScram).scramTime > 0 ∧
        (runCalls 0 (resetRod (newRod 100 165.273 10)) fireThenTickThenScram).fireing = true) :=
  scram_pulse_exclusive 0 (newRod 100 165.273 10) fireThenTickThenScram
    ⟨trivial, fun _ => by decide!, trivial, fun _ => by decide!, trivial⟩

/-! ## C16: firing and Pulse mode -/

/-- C16, the claim as stated fails: a fresh rod put in Pulse mode, fired and
switched to Manual mode is reachable, is firing and is not in Pulse mode. -/
theorem firing_outside_pulse :
    Reachable 0 (runCalls 0 (newRod 100 165.273 10) fireThenLeavePulse) ∧
    (runCalls 0 (newRod 100 165.273 10) fireThenLeavePulse).fireing = true ∧
    (runCalls 0 (newRod 100 165.273 10) fireThenLeavePulse).mode = OperationModes.Manual :=
  ⟨⟨100, 165.273, 10, fireThenLeavePulse, rfl⟩, by decide!, by decide!⟩

/-- C16 (amended): firing starts only in Pulse mode, but `setOperationMode`
does not end it.  `fire(true)` outside Pulse mode leaves `fireing` as it was;
`fire(false)` sets `fireing` to `false` and changes nothing else; and in every
state reached from the `resetRod` state by calls and ticks in which
`setOperationMode` never changes the mode of a firing rod, `fireing = true`
implies `mode = Pulse`. -/
theorem firing_only_in_pulse (rodIndex : ℤ) (r : Rod) (calls : List Call) :
    (r.mode ≠ OperationModes.Pulse → (fire r true).fireing = r.fireing) ∧
    fire r false = { r with fireing := false } ∧
    (callsRespect keepsModeWhileFiring rodIndex (resetRod r) calls →
      (runCalls rodIndex (resetRod r) calls).fireing = true →
      (runCalls rodIndex (resetRod r) calls).mode = OperationModes.Pulse) := by
  refine ⟨?_, ?_, ?_⟩
  · intro hp
    by_cases hz : r.rod_exact_command = 0
    · simp [fire, setEnabled, hp, hz]
    · simp [fire, setEnabled, hp, hz]
  · simp [fire]
  · intro h
    exact runCalls_invariant_of_respect
      (fun s => s.fireing = true → s.mode = OperationModes.Pulse) keepsModeWhileFiring rodIndex
      (fun s c hs hc => apply_keepsMode rodIndex s c hs hc) calls (resetRod r)
      (fun hcon => absurd hcon (by simp [resetRod])) h

/-- C16 (amended), at a concrete sequence: Pulse mode, a move to `10`,
`fire(true)` and a scram; the mode is never changed while the rod fires, and the
rod, still firing at the end, is in Pulse mode. -/
theorem firing_only_in_pulse_witness :
    (runCalls 0 (resetRod (newRod 100 165.273 10)) pulseThenScram).fireing = true ∧
    (runCalls 0 (resetRod (newRod 100 165.273 10)) pulseThenScram).mode
      = OperationModes.Pulse :=
  ⟨by decide!,
    (firing_only_in_pulse 0 (newRod 100 165.273 10) pulseThenScram).2.2
      ⟨fun h => absurd h (by decide!), trivial, trivial, trivial, trivial, trivial⟩
      (by decide!)⟩

/-! ## C17: what `scramRod` does -/

/-- C17: on a rod whose scram is not active (`scramTime ≤ 0`), `scramRod()`
yields the command `Fixed` with target `0` and an active scram, leaving both
positions, `enabled`, the mode and the speed unchanged; on a rod whose scram is
active it changes nothing; hence calling it twice is the same as calling it
once. -/
theorem scramRod_postcondition (r : Rod) :
    (r.scramTime ≤ 0 →
      (scramRod r).rodCommand = CommandType.Fixed ∧
      (scramRod r).rod_exact_command = 0 ∧
      (scramRod r).scramTime > 0 ∧
      (scramRod r).rod_exact_position = r.rod_exact_position ∧
      (scramRod r).rod_actual_position = r.rod_actual_position ∧
      (scramRod r).enabled = r.enabled ∧
      (scramRod r).mode = r.mode ∧
      (scramRod r).rod_speed = r.rod_speed) ∧
    (r.scramTime > 0 → scramRod r = r) ∧
    scramRod (scramRod r) = scramRod r := by
  refine ⟨?_, scramRod_of_active r, ?_⟩
  · intro h
    rw [scramRod_of_inactive r h]
    exact ⟨rfl, rfl, by norm_num, rfl, rfl, rfl, rfl, rfl⟩
  · by_cases h : r.scramTime ≤ 0
    · rw [scramRod_of_inactive r h]
      exact scramRod_of_active _ (by norm_num)
    · rw [scramRod_of_active r (not_le.mp h), scramRod_of_active r (not_le.mp h)]

/-- C17 at a concrete rod: a fresh rod driven to `20`, with no scram active. -/
theorem scramRod_postcondition_witness :
    (scramRod baselineRod).rodCommand = CommandType.Fixed ∧
    (scramRod baselineRod).rod_exact_command = 0 ∧
    (scramRod baselineRod).scramTime > 0 ∧
    (scramRod baselineRod).rod_exact_position = baselineRod.rod_exact_position ∧
    scramRod (scramRod baselineRod) = scramRod baselineRod :=
  have h := (scramRod_postcondition baselineRod).1 (by decide!)
  ⟨h.1, h.2.1, h.2.2.1, h.2.2.2.1,
    (scramRod_postcondition (scramRod baselineRod)).2.1 (by decide!)⟩

/-! ## C18: a scram cannot be cancelled from the command surface -/

/-- C18: on a rod with an active scram none of `commandMove`, `commandToTop`,
`commandToBottom`, `clearCommands`, `fire(true)`, `fire(false)`, `setEnabled`,
`setRodSpeed`, `setOperationMode`, `setSimulationMode` (nor a repeated
`scramRod`) changes `scramTime`; and a tick changes it only for a non-exempt
rod (`rodIndex ≠ 2`) that is enabled and whose actual position is `0` after the
move of that tick, in which case the rod is disabled and the scram is over. -/
theorem scram_not_cancelable (r : Rod) (hs : r.scramTime > 0) :
    (∀ d : ℚ, (commandMove r d).scramTime = r.scramTime) ∧
    (commandToTop r).scramTime = r.scramTime ∧
    (commandToBottom r).scramTime = r.scramTime ∧
    (∀ k : CommandType, (clearCommands r k).scramTime = r.scramTime) ∧
    (∀ s : Bool, (fire r s).scramTime = r.scramTime) ∧
    (∀ s : Bool, (setEnabled r s).scramTime = r.scramTime) ∧
    (∀ v : ℚ, (setRodSpeed r v).scramTime = r.scramTime) ∧
    (∀ m : OperationModes, (setOperationMode r m).scramTime = r.scramTime) ∧
    (∀ m : SimulationModes, (setSimulationMode r m).scramTime = r.scramTime) ∧
    (scramRod r).scramTime = r.scramTime ∧
    ∀ (w : Waveforms) (rodIndex : ℤ) (dt : ℚ),
      (refreshRod r w rodIndex dt).scramTime ≠ r.scramTime →
      rodIndex ≠ 2 ∧ r.enabled = true ∧
      (refreshRod r w rodIndex dt).rod_actual_position = 0 ∧
      (refreshRod r w rodIndex dt).enabled = false ∧
      (refreshRod r w rodIndex dt).scramTime ≤ 0 := by
  refine ⟨fun _ => rfl, rfl, rfl, ?_, fun s => (fire_frame r s).1, ?_, fun _ => rfl, ?_, ?_,
    ?_, ?_⟩
  · intro k
    unfold clearCommands
    split_ifs <;> rfl
  · intro s
    cases s <;> rfl
  · intro m
    exact (apply_scramTime_fireing 0 r (Call.setOperationMode m)
      (fun _ _ e => by cases e) (fun _ e => by cases e) (fun e => by cases e)).1
  · intro m
    exact (apply_scramTime_fireing 0 r (Call.setSimulationMode m)
      (fun _ _ e => by cases e) (fun _ e => by cases e) (fun e => by cases e)).1
  · rw [scramRod_of_active r hs]
  · intro w rodIndex dt h
    obtain ⟨-, a, b, c, d, e⟩ := refreshRod_scramTime r w rodIndex dt h
    exact ⟨a, b, c, d, by rw [e]; norm_num⟩

/-- C18 at a concrete rod: a rod at the top, scrammed; the commands leave the
scram timer alone and the tick that brings the rod down ends the scram. -/
theorem scram_not_cancelable_witness :
    (setOperationMode (scramRod (moveRodToStep (newRod 4 165.273 2) 4 false))
      OperationModes.Pulse).scramTime
      = (scramRod (moveRodToStep (newRod 4 165.273 2) 4 false)).scramTime ∧
    (refreshRod (scramRod (moveRodToStep (newRod 4 165.273 2) 4 false))
      (runningWaves 0) 0 2).enabled = false :=
  have h := scram_not_cancelable (scramRod (moveRodToStep (newRod 4 165.273 2) 4 false))
    (by decide!)
  ⟨h.2.2.2.2.2.2.2.1 OperationModes.Pulse,
    (h.2.2.2.2.2.2.2.2.2.2 (runningWaves 0) 0 2 (by decide!)).2.2.2.1⟩

/-! ## C19: scram motion preempts commands -/

/-- The exact position after the scram block. -/
theorem scramStage_exact (r : Rod) (dt : ℚ) :
    (scramStage r dt).rod_exact_position
      = max (min (max (r.rod_exact_position - dt * r.rod_speed) 0) (r.rod_steps : ℚ)) 0 := by
  have hm := moveRodToStep_exact
    { r with timeSinceScram := min (r.timeSinceScram + dt) r.scramTime }
    (max (r.rod_exact_position - dt * r.rod_speed) 0)
  unfold scramStage
  simp only at hm ⊢
  split_ifs
  · simp only [setEnabled]
    exact hm
  · exact hm

/-- C19: for a non-exempt rod (`rodIndex ≠ 2`) with an active scram, an exact
position in `[0, rod_steps]`, `rod_speed ≥ 0` and `dt ≥ 0`, `refreshRod` sets
the exact position to `max (rod_exact_position - rod_speed * dt) 0`, which is
not above the old position; the result is the same whatever the command kind,
the commanded position and the operating mode are. -/
theorem scram_preempts_commands (r : Rod) (w : Waveforms) (rodIndex : ℤ) (dt : ℚ)
    (hri : rodIndex ≠ 2) (hs : r.scramTime > 0)
    (h0 : 0 ≤ r.rod_exact_position) (hn : r.rod_exact_position ≤ (r.rod_steps : ℚ))
    (hsp : 0 ≤ r.rod_speed) (hdt : 0 ≤ dt) :
    (refreshRod r w rodIndex dt).rod_exact_position
      = max (r.rod_exact_position - r.rod_speed * dt) 0 ∧
    (refreshRod r w rodIndex dt).rod_exact_position ≤ r.rod_exact_position ∧
    ∀ (k : CommandType) (c : ℚ) (m : OperationModes),
      (refreshRod { r with rodCommand := k, rod_exact_command := c, mode := m } w rodIndex
        dt).rod_exact_position = (refreshRod r w rodIndex dt).rod_exact_position := by
  have hmv : 0 ≤ dt * r.rod_speed := mul_nonneg hdt hsp
  have hle : max (r.rod_exact_position - dt * r.rod_speed) 0 ≤ r.rod_exact_position :=
    max_le (by linarith) h0
  have hval : (refreshRod r w rodIndex dt).rod_exact_position
      = max (r.rod_exact_position - r.rod_speed * dt) 0 := by
    rw [refreshRod_eq_stages, if_pos ⟨hs, hri⟩, scramStage_exact,
      min_eq_left (hle.trans hn), max_eq_left (le_max_right _ _), mul_comm]
  refine ⟨hval, ?_, ?_⟩
  · rw [hval, mul_comm]
    exact hle
  · intro k c m
    rw [refreshRod_eq_stages, refreshRod_eq_stages, if_pos ⟨hs, hri⟩, if_pos ⟨hs, hri⟩,
      scramStage_exact, scramStage_exact]

/-- C19 at a concrete rod: the rod of a hundred steps at `20`, scrammed, with
speed `10`, a tick of half a second. -/
theorem scram_preempts_commands_witness :
    (refreshRod (scramRod baselineRod) (runningWaves 5) 0 (1 / 2)).rod_exact_position
      = max ((scramRod baselineRod).rod_exact_position
          - (scramRod baselineRod).rod_speed * (1 / 2)) 0 ∧
    (refreshRod
      { scramRod baselineRod with
        rodCommand := CommandType.Top
        rod_exact_command := 70
        mode := OperationModes.Simulation }
      (runningWaves 5) 0 (1 / 2)).rod_exact_position
      = (refreshRod (scramRod baselineRod) (runningWaves 5) 0 (1 / 2)).rod_exact_position :=
  have h := scram_preempts_commands (scramRod baselineRod) (runningWaves 5) 0 (1 / 2)
    (by decide) (by decide!) (by decide!) (by decide!) (by decide!) (by decide!)
  ⟨h.1, h.2.2 CommandType.Top 70 OperationModes.Simulation⟩


/-! ## C20: the scram exemption -/

/-- C20: for the scram-exempt rod (`rodIndex = 2`) and two states that differ
only in `scramTime` and `timeSinceScram`, `refreshRod(2, dt)` produces the same
exact position, actual position, enabled flag and command, and it leaves
`scramTime` as it was. -/
theorem scram_exemption (r : Rod) (w : Waveforms) (dt s t : ℚ) :
    (refreshRod { r with scramTime := s, timeSinceScram := t } w 2 dt).rod_exact_position
      = (refreshRod r w 2 dt).rod_exact_position ∧
    (refreshRod { r with scramTime := s, timeSinceScram := t } w 2 dt).rod_actual_position
      = (refreshRod r w 2 dt).rod_actual_position ∧
    (refreshRod { r with scramTime := s, timeSinceScram := t } w 2 dt).enabled
      = (refreshRod r w 2 dt).enabled ∧
    (refreshRod { r with scramTime := s, timeSinceScram := t } w 2 dt).rodCommand
      = (refreshRod r w 2 dt).rodCommand ∧
    (refreshRod { r with scramTime := s, timeSinceScram := t } w 2 dt).rod_exact_command
      = (refreshRod r w 2 dt).rod_exact_command ∧
    (refreshRod { r with scramTime := s, timeSinceScram := t } w 2 dt).scramTime = s ∧
    (refreshRod r w 2 dt).scramTime = r.scramTime := by
  rw [refreshRod_exempt_scramTimers]
  exact ⟨rfl, rfl, rfl, rfl, rfl, rfl,
    (refreshRod_fireing r w 2 dt).2 (fun h => h.2 rfl)⟩

/-! ## C21: speed-limited motion -/

/-- C21, the claim as stated fails in the arithmetic of the source: a rod in
Manual mode at `x = 1`, speed `1`, commanded to `c = 1.7f` (the `float` nearest
to `1.7`), is ticked with `dt` the `double` nearest to `0.7`.  The move is
`0.7f`, the sum `1 + 0.7f` lies half-way between two `float`s and rounds to
`1.7f`: the rod lands on `c` although `|c - x| > speed * dt`, and it has moved
by more than `speed * dt`. -/
theorem speed_limited_lands_early :
    edgeRod.mode = OperationModes.Manual ∧ ¬ (edgeRod.scramTime > 0 ∧ (0 : ℤ) ≠ 2) ∧
    edgeRod.fireing = false ∧ edgeRod.rod_speed = 1 ∧ 0 ≤ toDouble (7 / 10) ∧
    edgeRod.rod_exact_position = 1 ∧ edgeRod.rod_steps = 100 ∧
    edgeRod.rodCommand = CommandType.Fixed ∧ edgeRod.rod_exact_command = toFloat (17 / 10) ∧
    0 ≤ toFloat (17 / 10) ∧ toFloat (17 / 10) ≤ 100 ∧
    (Binary32.refreshRod edgeRod (runningWaves 0) 0 (toDouble (7 / 10))).rod_exact_position
      = toFloat (17 / 10) ∧
    ¬ (|toFloat (17 / 10) - edgeRod.rod_exact_position|
        ≤ edgeRod.rod_speed * toDouble (7 / 10)) ∧
    ¬ (|(Binary32.refreshRod edgeRod (runningWaves 0) 0
          (toDouble (7 / 10))).rod_exact_position - edgeRod.rod_exact_position|
        ≤ edgeRod.rod_speed * toDouble (7 / 10)) := by
  decide!

/-- C21 (amended), in binary32: a rod in Manual, Automatic or Pulse mode,
outside the scram branch, not firing, with `rod_speed > 0`, `dt ≥ 0` and exact
position `x`, a `float` in `[0, rod_steps]`.  The target `c` is `rod_steps` for
the command `Top`, `0` for `Bottom` and the stored `rod_exact_command` for
`Fixed` and `None`, and lies in `[0, rod_steps]`; `rod_move` is
`toFloat (toDouble (dt * rod_speed))`.  After `refreshRod` the exact position
`x'` is `min (toFloat (x + rod_move)) c` when `c > x`,
`max (toFloat (x - rod_move)) c` when `c < x` and `x` when `c = x`; it lies
between `x` and `c`; `x' = c` exactly when the rounded sum reaches `c` from
below or the rounded difference reaches it from above; and
`|x' - x| ≤ rod_move + rod_steps / 2 ^ 24`. -/
theorem speed_limited_motion (r : Rod) (w : Waveforms) (rodIndex : ℤ) (dt c : ℚ)
    (hmode : r.mode = OperationModes.Manual ∨ r.mode = OperationModes.Automatic
      ∨ r.mode = OperationModes.Pulse)
    (hs : ¬ (r.scramTime > 0 ∧ rodIndex ≠ 2)) (hf : r.fireing = false)
    (hsp : 0 < r.rod_speed) (hdt : 0 ≤ dt)
    (hx0 : 0 ≤ r.rod_exact_position) (hxn : r.rod_exact_position ≤ (r.rod_steps : ℚ))
    (hrep : toFloat r.rod_exact_position = r.rod_exact_position)
    (hc : c = if r.rodCommand = CommandType.Top then (r.rod_steps : ℚ)
      else if r.rodCommand = CommandType.Bottom then 0
      else r.rod_exact_command)
    (hc0 : 0 ≤ c) (hcn : c ≤ (r.rod_steps : ℚ)) :
    (c > r.rod_exact_position →
      (Binary32.refreshRod r w rodIndex dt).rod_exact_position
        = min (toFloat (r.rod_exact_position + toFloat (toDouble (dt * r.rod_speed)))) c) ∧
    (c < r.rod_exact_position →
      (Binary32.refreshRod r w rodIndex dt).rod_exact_position
        = max (toFloat (r.rod_exact_position - toFloat (toDouble (dt * r.rod_speed)))) c) ∧
    (c = r.rod_exact_position →
      (Binary32.refreshRod r w rodIndex dt).rod_exact_position = r.rod_exact_position) ∧
    min r.rod_exact_position c ≤ (Binary32.refreshRod r w rodIndex dt).rod_exact_position ∧
    (Binary32.refreshRod r w rodIndex dt).rod_exact_position ≤ max r.rod_exact_position c ∧
    ((Binary32.refreshRod r w rodIndex dt).rod_exact_position = c ↔
      (r.rod_exact_position ≤ c ∧
        c ≤ toFloat (r.rod_exact_position + toFloat (toDouble (dt * r.rod_speed)))) ∨
      (c ≤ r.rod_exact_position ∧
        toFloat (r.rod_exact_position - toFloat (toDouble (dt * r.rod_speed))) ≤ c)) ∧
    |(Binary32.refreshRod r w rodIndex dt).rod_exact_position - r.rod_exact_position|
      ≤ toFloat (toDouble (dt * r.rod_speed)) + (r.rod_steps : ℚ) / 2 ^ 24 := by
  have hm : 0 ≤ toFloat (toDouble (dt * r.rod_speed)) :=
    toFloat_nonneg _ (toDouble_nonneg _ (mul_nonneg hdt hsp.le))
  have hup := le_toFloat_add _ _ hx0 hrep hm
  have hdown := toFloat_sub_le _ _ hx0 hrep hm
  have hlc : localCommand r = c := by
    rw [hc]
    unfold localCommand
    split_ifs with h1 h2 h3 <;> first | rfl | (rw [h1] at h2; exact absurd h2 (by decide))
  have hsim : Binary32.simulationStage r w = r := by
    unfold Binary32.simulationStage
    rcases hmode with h | h | h <;> rw [h]
  have hfire : ∀ s : Rod, (Binary32.fireStage s dt).rod_exact_position = s.rod_exact_position := by
    intro s
    unfold Binary32.fireStage clearCommands
    split_ifs <;> rfl
  have hval : (Binary32.refreshRod r w rodIndex dt).rod_exact_position =
      if c > r.rod_exact_position then
        min (toFloat (r.rod_exact_position + toFloat (toDouble (dt * r.rod_speed)))) c
      else max (toFloat (r.rod_exact_position - toFloat (toDouble (dt * r.rod_speed)))) c := by
    rw [binary_refreshRod_eq_stages, if_neg hs, hsim, hfire]
    unfold Binary32.commandStage
    rw [hlc]
    by_cases hcond : r.rod_exact_position ≠ c ∧
        (r.mode = OperationModes.Manual ∨ r.mode = OperationModes.Automatic
          ∨ r.mode = OperationModes.Pulse)
    · rw [if_pos hcond, if_neg (fun h => hsp.ne' h.1), if_pos hf]
      by_cases hgt : c > r.rod_exact_position
      · rw [if_pos hgt, if_pos hgt, moveRodToStep_exact]
        exact clamp_of_mem _ _ (le_min (hx0.trans hup) hc0) ((min_le_right _ _).trans hcn)
      · rw [if_neg hgt, if_neg hgt, moveRodToStep_exact]
        exact clamp_of_mem _ _ (hc0.trans (le_max_right _ _))
          (max_le (hdown.trans hxn) hcn)
    · rw [if_neg hcond]
      have heq : r.rod_exact_position = c := by
        by_contra hne
        exact hcond ⟨hne, hmode⟩
      rw [if_neg (by rw [heq]; exact lt_irrefl _)]
      rw [← heq]
      exact (max_eq_right hdown).symm
  have hN1 : c ≠ r.rod_exact_position → (1 : ℚ) ≤ (r.rod_steps : ℚ) := by
    intro hne
    have hpos : 0 < r.rod_steps := by
      by_contra hcon
      have h0 : r.rod_steps = 0 := by omega
      rw [h0, Nat.cast_zero] at hxn hcn
      exact hne ((le_antisymm hcn hc0).trans (le_antisymm hxn hx0).symm)
    exact_mod_cast hpos
  rw [hval]
  rcases lt_trichotomy c r.rod_exact_position with hlt | heq | hgt
  · have hN1 := hN1 hlt.ne
    rw [if_neg (not_lt.mpr hlt.le), min_eq_right hlt.le, max_eq_left hlt.le]
    refine ⟨fun h => absurd h (not_lt.mpr hlt.le), fun _ => rfl,
      fun h => absurd h hlt.ne, le_max_right _ _, max_le hdown hlt.le, ?_, ?_⟩
    · constructor
      · intro h
        exact Or.inr ⟨hlt.le, by rw [← h]; exact le_max_left _ _⟩
      · rintro (⟨h1, -⟩ | ⟨-, h2⟩)
        · exact absurd h1 (not_le.mpr hlt)
        · exact max_eq_right h2
    · rw [abs_le]
      have hup' : max (toFloat (r.rod_exact_position - toFloat (toDouble (dt * r.rod_speed)))) c
          ≤ r.rod_exact_position := max_le hdown hlt.le
      refine ⟨?_, by linarith⟩
      rcases le_or_lt (r.rod_exact_position - toFloat (toDouble (dt * r.rod_speed))) 0
        with hz | hz
      · have := le_max_right
          (toFloat (r.rod_exact_position - toFloat (toDouble (dt * r.rod_speed)))) c
        linarith
      · have hb := toFloat_ge_sub _ (r.rod_steps : ℚ) hz (by linarith) hN1
        have := le_max_left
          (toFloat (r.rod_exact_position - toFloat (toDouble (dt * r.rod_speed)))) c
        linarith
  · rw [heq, if_neg (lt_irrefl _), max_eq_right hdown, min_self, max_self]
    refine ⟨fun h => absurd h (lt_irrefl _), fun h => absurd h (lt_irrefl _), fun _ => rfl,
      le_refl _, le_refl _, ⟨fun _ => Or.inl ⟨le_refl _, hup⟩, fun _ => rfl⟩, ?_⟩
    rw [sub_self, abs_zero]
    positivity
  · have hN1 := hN1 hgt.ne'
    rw [if_pos hgt, min_eq_left hgt.le, max_eq_right hgt.le]
    refine ⟨fun _ => rfl, fun h => absurd h (not_lt.mpr hgt.le),
      fun h => absurd h hgt.ne', le_min hup hgt.le, min_le_right _ _, ?_, ?_⟩
    · constructor
      · intro h
        exact Or.inl ⟨hgt.le, by rw [← h]; exact min_le_left _ _⟩
      · rintro (⟨-, h2⟩ | ⟨h1, -⟩)
        · exact min_eq_right h2
        · exact absurd h1 (not_le.mpr hgt)
    · rw [abs_le]
      have hlow : r.rod_exact_position
          ≤ min (toFloat (r.rod_exact_position + toFloat (toDouble (dt * r.rod_speed)))) c :=
        le_min hup hgt.le
      refine ⟨by linarith, ?_⟩
      rcases le_or_lt (r.rod_exact_position + toFloat (toDouble (dt * r.rod_speed)))
        (r.rod_steps : ℚ) with hz | hz
      · rcases (add_nonneg hx0 hm).eq_or_lt with h0 | hpos
        · rw [← h0, toFloat_zero]
          have := min_le_left (0 : ℚ) c
          linarith
        · have hb := toFloat_le_add _ (r.rod_steps : ℚ) hpos hz hN1
          have := min_le_left
            (toFloat (r.rod_exact_position + toFloat (toDouble (dt * r.rod_speed)))) c
          linarith
      · have := min_le_right
          (toFloat (r.rod_exact_position + toFloat (toDouble (dt * r.rod_speed)))) c
        linarith

/-- C21 (amended) at concrete rods of a hundred steps at position `20` with
speed `10`, ticked for one second: commanded to the top the rod goes to `30`,
commanded to the bottom it goes to `10`, and commanded to `25` it lands on
`25`. -/
theorem speed_limited_motion_witness :
    (Binary32.refreshRod (commandToTop baselineRod) (runningWaves 0) 0 1).rod_exact_position
      = 30 ∧
    (Binary32.refreshRod (commandToBottom baselineRod) (runningWaves 0) 0 1).rod_exact_position
      = 10 ∧
    (Binary32.refreshRod (commandMove baselineRod 25) (runningWaves 0) 0 1).rod_exact_position
      = 25 :=
  ⟨((speed_limited_motion (commandToTop baselineRod) (runningWaves 0) 0 1 100
      (Or.inl rfl) (by decide!) rfl (by decide!) (by decide!) (by decide!) (by decide!)
      (by decide!) (by decide!) (by decide!) (by decide!)).1 (by decide!)).trans (by decide!),
   ((speed_limited_motion (commandToBottom baselineRod) (runningWaves 0) 0 1 0
      (Or.inl rfl) (by decide!) rfl (by decide!) (by decide!) (by decide!) (by decide!)
      (by decide!) (by decide!) (by decide!) (by decide!)).2.1 (by decide!)).trans (by decide!),
   (speed_limited_motion (commandMove baselineRod 25) (runningWaves 0) 0 1 25
      (Or.inl rfl) (by decide!) rfl (by decide!) (by decide!) (by decide!) (by decide!)
      (by decide!) (by decide!) (by decide!) (by decide!)).2.2.2.2.2.1.mpr
        (Or.inl ⟨by decide!, by decide!⟩)⟩

/-! ## C22: enable gating -/

/-- The scram block on a disabled rod leaves the actual position alone. -/
theorem scramStage_actual_of_disabled (r : Rod) (dt : ℚ) (hen : r.enabled = false) :
    (scramStage r dt).rod_actual_position = r.rod_actual_position := by
  have hns : ¬ (({ r with timeSinceScram := min (r.timeSinceScram + dt) r.scramTime } : Rod).enabled
      = true ∧
      ({ r with timeSinceScram := min (r.timeSinceScram + dt) r.scramTime } : Rod).fireing
        = false) := by
    simp [hen]
  have ha := moveRodToStep_actual_of_not_sync
    { r with timeSinceScram := min (r.timeSinceScram + dt) r.scramTime }
    (max (r.rod_exact_position - dt * r.rod_speed) 0) hns
  have he := (moveRodToStep_frame
    { r with timeSinceScram := min (r.timeSinceScram + dt) r.scramTime }
    (max (r.rod_exact_position - dt * r.rod_speed) 0)).1
  unfold scramStage
  simp only at ha he ⊢
  rw [if_neg (by rw [he, hen]; simp)]
  exact ha

/-- C22: for a rod that is disabled and not firing, in any mode and with or
without an active scram, `refreshRod` with any `dt` and a non-forced
`moveRodToStep` leave `rod_actual_position` unchanged; for a rod that is
enabled and not firing, a non-forced `moveRodToStep` leaves
`rod_actual_position = rod_exact_position`. -/
theorem enable_gating (r : Rod) (hf : r.fireing = false) :
    (r.enabled = false →
      (∀ (w : Waveforms) (rodIndex : ℤ) (dt : ℚ),
        (refreshRod r w rodIndex dt).rod_actual_position = r.rod_actual_position) ∧
      (∀ p : ℚ, (moveRodToStep r p false).rod_actual_position = r.rod_actual_position)) ∧
    (r.enabled = true →
      ∀ p : ℚ, (moveRodToStep r p false).rod_actual_position
        = (moveRodToStep r p false).rod_exact_position) := by
  constructor
  · intro hen
    have hns : ¬ (r.enabled = true ∧ r.fireing = false) := by simp [hen]
    constructor
    · intro w rodIndex dt
      by_cases hs : r.scramTime > 0 ∧ rodIndex ≠ 2
      · rw [refreshRod_eq_stages, if_pos hs]
        exact scramStage_actual_of_disabled r dt hen
      · exact (refreshRod_disabled_idle r w rodIndex dt hs hen hf).1
    · intro p
      exact moveRodToStep_actual_of_not_sync r p hns
  · intro hen p
    exact moveRodToStep_actual_of_sync r p ⟨hen, hf⟩

/-- C22 at concrete rods: a disabled rod commanded to `70` keeps its actual
position while its exact position moves; an enabled rod moved to `33` has both
positions there. -/
theorem enable_gating_witness :
    (refreshRod (commandMove (setEnabled baselineRod false) 70) (runningWaves 0) 0
      1).rod_actual_position
      = (commandMove (setEnabled baselineRod false) 70).rod_actual_position ∧
    (refreshRod (commandMove (setEnabled baselineRod false) 70) (runningWaves 0) 0
      1).rod_exact_position = 30 ∧
    (moveRodToStep baselineRod 33 false).rod_actual_position
      = (moveRodToStep baselineRod 33 false).rod_exact_position :=
  ⟨((enable_gating (commandMove (setEnabled baselineRod false) 70) rfl).1 rfl).1
      (runningWaves 0) 0 1,
    by decide!,
    (enable_gating baselineRod rfl).2 rfl 33⟩

/-! ## C23: the two inverse lookups -/

/-- C24: on every table with `rod_steps + 1` cells, `stepData[0] = 0` and
`stepData[rod_steps] ≥ 1` (monotone or not), for every `rod_worth > 0` and
every input value, the scan of `getPosFromPcm` and the scan of
`getPositionAtPcm` stop at an index `i ≤ rod_steps`; when the cell found is not
the value itself, `i ≥ 1` and the value lies strictly between the cells `i - 1`
and `i`, so the divisor is positive; and both functions return a position in
`[0, rod_steps]`. -/
theorem inverse_lookup_safe (r : Rod) (v : ℚ)
    (hlen : r.stepData.length = r.rod_steps + 1)
    (hfirst : cell r.stepData 0 = 0) (hlast : 1 ≤ cell r.stepData r.rod_steps)
    (hw : 0 < r.rod_worth) :
    (∃ i : ℕ, scanTable r.stepData (max 0 (min v r.rod_worth) / r.rod_worth) 0 = some i ∧
      i ≤ r.rod_steps ∧
      (cell r.stepData i ≠ max 0 (min v r.rod_worth) / r.rod_worth →
        1 ≤ i ∧ cell r.stepData (i - 1) < max 0 (min v r.rod_worth) / r.rod_worth ∧
        max 0 (min v r.rod_worth) / r.rod_worth < cell r.stepData i ∧
        0 < cell r.stepData i - cell r.stepData (i - 1))) ∧
    (∃ p : ℚ, getPosFromPcm r v = some p ∧ 0 ≤ p ∧ p ≤ (r.rod_steps : ℚ)) ∧
    (0 < v / r.rod_worth → v / r.rod_worth < 1 →
      ∃ i : ℕ, scanTable r.stepData (v / r.rod_worth) 0 = some i ∧ i ≤ r.rod_steps ∧
        (cell r.stepData i ≠ v / r.rod_worth →
          1 ≤ i ∧ cell r.stepData (i - 1) < v / r.rod_worth ∧
          v / r.rod_worth < cell r.stepData i ∧
          0 < cell r.stepData i - cell r.stepData (i - 1))) ∧
    (∃ p : ℚ, getPositionAtPcm r v = some p ∧ 0 ≤ p ∧ p ≤ (r.rod_steps : ℚ)) := by
  obtain ⟨hx0, hx1⟩ := normalised_bounds v r.rod_worth hw
  obtain ⟨i, hscan, hin, -, -, hbr⟩ :=
    scan_bracket r.stepData r.rod_steps _ hlen hfirst (hx1.trans hlast) hx0
  have hiq : (i : ℚ) ≤ (r.rod_steps : ℚ) := by exact_mod_cast hin
  have hi0 : (0 : ℚ) ≤ (i : ℚ) := Nat.cast_nonneg i
  refine ⟨⟨i, hscan, hin, fun hne => ?_⟩, ?_, ?_, ?_⟩
  · obtain ⟨a, b, c⟩ := hbr hne
    exact ⟨a, b, c, by linarith⟩
  · rw [getPosFromPcm_of_scan r v i hscan (by omega)]
    by_cases heq : cell r.stepData i = max 0 (min v r.rod_worth) / r.rod_worth
    · rw [if_pos heq]
      exact ⟨_, rfl, hi0, hiq⟩
    · obtain ⟨a, b, c⟩ := hbr heq
      rw [if_neg heq, if_neg (by omega)]
      have hden : 0 < cell r.stepData i - cell r.stepData (i - 1) := by linarith
      have ha0 : 0 ≤ (cell r.stepData i - max 0 (min v r.rod_worth) / r.rod_worth)
          / (cell r.stepData i - cell r.stepData (i - 1)) :=
        div_nonneg (by linarith) hden.le
      have ha1 : (cell r.stepData i - max 0 (min v r.rod_worth) / r.rod_worth)
          / (cell r.stepData i - cell r.stepData (i - 1)) ≤ 1 := by
        rw [div_le_one hden]
        linarith
      obtain ⟨b1, b2⟩ := blend_bounds (i : ℚ) _ ha0 ha1
      have hi1 : (1 : ℚ) ≤ (i : ℚ) := by exact_mod_cast a
      exact ⟨_, rfl, by linarith, by linarith⟩
  · intro h0 h1
    obtain ⟨k, hscan', hkn, -, -, hbr'⟩ :=
      scan_bracket r.stepData r.rod_steps _ hlen hfirst (h1.le.trans hlast) h0.le
    refine ⟨k, hscan', hkn, fun hne => ?_⟩
    obtain ⟨a, b, c⟩ := hbr' hne
    exact ⟨a, b, c, by linarith⟩
  · by_cases h1 : v / r.rod_worth ≥ 1
    · refine ⟨(r.rod_steps : ℚ), ?_, Nat.cast_nonneg _, le_refl _⟩
      unfold getPositionAtPcm
      simp only
      rw [if_pos h1]
    · by_cases h0 : v / r.rod_worth ≤ 0
      · refine ⟨0, ?_, le_refl _, Nat.cast_nonneg _⟩
        unfold getPositionAtPcm
        simp only
        rw [if_neg h1, if_pos h0]
      · have h1' := not_le.mp h1
        have h0' := not_le.mp h0
        obtain ⟨k, hscan', hkn, -, -, hbr'⟩ :=
          scan_bracket r.stepData r.rod_steps _ hlen hfirst (h1'.le.trans hlast) h0'.le
        have hkq : (k : ℚ) ≤ (r.rod_steps : ℚ) := by exact_mod_cast hkn
        rw [getPositionAtPcm_of_scan r v k h0' h1' hscan' (by omega)]
        by_cases heq : cell r.stepData k = v / r.rod_worth
        · rw [if_pos heq]
          exact ⟨_, rfl, Nat.cast_nonneg k, hkq⟩
        · obtain ⟨a, b, c⟩ := hbr' heq
          rw [if_neg heq, if_neg (by omega)]
          have hden : 0 < cell r.stepData k - cell r.stepData (k - 1) := by linarith
          have ha0 : 0 ≤ (v / r.rod_worth - cell r.stepData (k - 1))
              / (cell r.stepData k - cell r.stepData (k - 1)) :=
            div_nonneg (by linarith) hden.le
          have ha1 : (v / r.rod_worth - cell r.stepData (k - 1))
              / (cell r.stepData k - cell r.stepData (k - 1)) ≤ 1 := by
            rw [div_le_one hden]
            linarith
          have hk1 : (1 : ℚ) ≤ (k : ℚ) := by exact_mod_cast a
          exact ⟨_, rfl, by linarith, by linarith⟩

/-- C24 at a concrete rod: the non-monotone table `[0, 3/4, 1/2, 1]`, worth
`100`, value `60`. -/
theorem inverse_lookup_safe_witness :
    (∃ p : ℚ, getPosFromPcm bumpyRod 60 = some p ∧ 0 ≤ p ∧ p ≤ (bumpyRod.rod_steps : ℚ)) ∧
    (∃ p : ℚ, getPositionAtPcm bumpyRod 60 = some p ∧ 0 ≤ p ∧ p ≤ (bumpyRod.rod_steps : ℚ)) :=
  ⟨(inverse_lookup_safe bumpyRod 60 rfl (by decide!) (by decide!) (by decide!)).2.1,
    (inverse_lookup_safe bumpyRod 60 rfl (by decide!) (by decide!) (by decide!)).2.2.2⟩

/-! ## C25: mode changes and the speed -/

/-- C25: `setOperationMode` with a mode different from the current one sets
`rod_speed` to `10` whenever the new mode is not Pulse (for every such change,
Manual to Automatic included), leaves `rod_speed` unchanged and sets `enabled`
to `false` when the new mode is Pulse, and in both cases leaves the new mode
set, `rodCommand = None` and `rod_exact_command = rod_exact_position`;
`setOperationMode` with the current mode leaves the whole state unchanged. -/
theorem setOperationMode_speed (r : Rod) (value : OperationModes) :
    (r.mode ≠ value →
      (setOperationMode r value).mode = value ∧
      (setOperationMode r value).rodCommand = CommandType.None ∧
      (setOperationMode r value).rod_exact_command
        = (setOperationMode r value).rod_exact_position ∧
      (value ≠ OperationModes.Pulse → (setOperationMode r value).rod_speed = 10) ∧
      (value = OperationModes.Pulse →
        (setOperationMode r value).rod_speed = r.rod_speed ∧
        (setOperationMode r value).enabled = false)) ∧
    (r.mode = value → setOperationMode r value = r) := by
  rcases r with ⟨en, x, a, c, n, w, sp, f, sd, dtb, st, tss, rc, m, sm, ssp, ft, hd, mi⟩
  cases m <;> cases value <;> cases en <;> cases f <;>
    simp [setOperationMode, clearCommands, setEnabled, setRodSpeed, moveRodToStep]

/-- C25 at concrete rods: Manual to Automatic with the configured speed `3`,
and Manual to Pulse. -/
theorem setOperationMode_speed_witness :
    (setOperationMode (newRod 100 165.273 3) OperationModes.Automatic).rod_speed = 10 ∧
    (setOperationMode (newRod 100 165.273 3) OperationModes.Pulse).rod_speed = 3 ∧
    (setOperationMode (newRod 100 165.273 3) OperationModes.Pulse).enabled = false ∧
    setOperationMode (newRod 100 165.273 3) OperationModes.Manual = newRod 100 165.273 3 :=
  ⟨((setOperationMode_speed (newRod 100 165.273 3) OperationModes.Automatic).1
      (by decide)).2.2.2.1 (by decide),
    (((setOperationMode_speed (newRod 100 165.273 3) OperationModes.Pulse).1
      (by decide)).2.2.2.2 rfl).1,
    (((setOperationMode_speed (newRod 100 165.273 3) OperationModes.Pulse).1
      (by decide)).2.2.2.2 rfl).2,
    (setOperationMode_speed (newRod 100 165.273 3) OperationModes.Manual).2 rfl⟩

end ControlRod
